import Mathlib

/-!
# can-service: decode table, speed estimator, state aggregator, handshake

A shallow embedding of the Go sources

* `internal/models/types.go`       (decode table of the BMW E87 profile),
* `internal/repository/repo.go`    (in-memory profile store),
* `internal/canbus/listener.go`    (acquisition engine, speed estimator),
* `internal/websockets/server.go`  (CRC-32, handshake, snapshot, publish loop),

followed by theorems about these definitions.

Conventions of the embedding

* A Go `byte` is a `Fin 256`; a `[]byte` is a `List Byte`.
* `uint16`/`uint32`/`int` values are natural numbers or integers, reduced
  `% 2 ^ w` where the Go operation is taken at a fixed width.
* An index or slice expression that Go would abort on (index out of range)
  makes the embedded function return `none`; a function that is proved to
  return `some _` on every input therefore never aborts.
* A finite `float32`/`float64` value is a rational. The decode table and
  `updateSpeedFromCounter` take the float operations exactly;
  `updateSpeedFromCounter_ieee` and the simulation round every operation to its
  format (section Floating point).
* A Go `map[string]T` is an association list with at most one entry per key,
  written through `mapSet` and `mapDelete` and read through `mapGet`.
* `time.Time` is a number of nanoseconds counted from the zero instant
  `time.Time{}`; `time.Now()` is an argument of the function that calls it.
-/

set_option maxRecDepth 100000

namespace CanService

/-! ## Bytes, slices and maps -/

/-- Go `byte`. -/
abbrev Byte := Fin 256

/-- Go slice expression `b[lo:hi]`: aborts (here `none`) unless `lo ≤ hi ≤ len(b)`. -/
def slice (b : List Byte) (lo hi : Nat) : Option (List Byte) :=
  if lo ≤ hi ∧ hi ≤ b.length then some ((b.take hi).drop lo) else none

/-- Read of a Go map: `v, ok := m[k]`. -/
def mapGet {α : Type} (k : String) (m : List (String × α)) : Option α :=
  m.lookup k

/-- Go `delete(m, k)`. -/
def mapDelete {α : Type} (k : String) (m : List (String × α)) : List (String × α) :=
  m.filter (fun e => e.1 != k)

/-- Go `m[k] = v`: the entry of `k`, if any, is replaced. -/
def mapSet {α : Type} (k : String) (v : α) (m : List (String × α)) : List (String × α) :=
  (k, v) :: mapDelete k m

/-- Number of entries a map holds for key `k`. -/
def mapCount {α : Type} (k : String) (m : List (String × α)) : Nat :=
  (m.filter (fun e => e.1 == k)).length

/-! ## `encoding/binary` -/

/-- Go `binary.LittleEndian.Uint16(b)`: reads `b[0]`, `b[1]`. -/
def LittleEndian_Uint16 (b : List Byte) : Option Nat := do
  let b1 ← b[1]?
  let b0 ← b[0]?
  some ((b0.val ||| (b1.val <<< 8)) % 2 ^ 16)

/-- Go `binary.BigEndian.Uint16(b)`: reads `b[0]`, `b[1]`. -/
def BigEndian_Uint16 (b : List Byte) : Option Nat := do
  let b1 ← b[1]?
  let b0 ← b[0]?
  some ((b1.val ||| (b0.val <<< 8)) % 2 ^ 16)

/-- Go `binary.LittleEndian.Uint32(b)`: reads `b[0]` .. `b[3]`. -/
def LittleEndian_Uint32 (b : List Byte) : Option Nat := do
  let b3 ← b[3]?
  let b0 ← b[0]?
  let b1 ← b[1]?
  let b2 ← b[2]?
  some ((b0.val ||| (b1.val <<< 8) ||| (b2.val <<< 16) ||| (b3.val <<< 24)) % 2 ^ 32)

/-! ## `internal/models/types.go` -/

/-- Go `map[string]float32`; the nil map is `[]`. -/
abbrev Quantities := List (String × ℚ)

/-- Go `ValueParser`: `func(data []byte) (map[string]float32, bool)`;
`none` stands for a run-time abort. -/
abbrev ValueParser := List Byte → Option (Quantities × Bool)

structure SignalInfo where
  Parse : ValueParser

/-- Go `SimConfig`. The three volumes are `float32` fields, here rationals; a
value of the Go type is a rational `x` with `f32 x = x`. -/
structure SimConfig where
  PeriodMs : Int
  RedlineRpm : Int
  IdleRpm : Int
  BaseTempC : Int
  FuelStartL : ℚ
  FuelResetL : ℚ
  FuelMinL : ℚ

structure CarConfig where
  Name : String
  Signals : List (Nat × SignalInfo)
  Sim : SimConfig

def u16le (b : List Byte) (off : Nat) : Option (Nat × Bool) :=
  if b.length < off + 2 then some (0, false)
  else do
    let s ← slice b off (off + 2)
    let v ← LittleEndian_Uint16 s
    some (v, true)

def u16be (b : List Byte) (off : Nat) : Option (Nat × Bool) :=
  if b.length < off + 2 then some (0, false)
  else do
    let s ← slice b off (off + 2)
    let v ← BigEndian_Uint16 s
    some (v, true)

def u24le (b : List Byte) (off : Nat) : Option (Nat × Bool) :=
  if b.length < off + 3 then some (0, false)
  else do
    let b0 ← b[off]?
    let b1 ← b[off + 1]?
    let b2 ← b[off + 2]?
    some ((b0.val ||| (b1.val <<< 8) ||| (b2.val <<< 16)) % 2 ^ 32, true)

def DefaultSim : SimConfig :=
  { PeriodMs := 50, RedlineRpm := 7000, IdleRpm := 750, BaseTempC := 86,
    FuelStartL := 42, FuelResetL := 45, FuelMinL := 8 }

/-- Decoder of frame `0x1A6` (pulse counter). -/
def parse_1A6 : ValueParser := fun d => do
  let (c0, ok) ← u16le d 0
  if !ok then some ([], false)
  else some ([("_speedCounter", (c0 : ℚ))], true)

/-- The throttle percentage computed by the decoder of frame `0x0AA` from `rawThr`. -/
def throttlePct (rawThr : Nat) : ℚ :=
  if rawThr ≤ 255 then 0
  else
    let minV : ℚ := 255
    let maxV : ℚ := 65064
    let x : ℚ := ((rawThr : ℚ) - minV) / (maxV - minV)
    let x : ℚ := if x < 0 then 0 else x
    let x : ℚ := if x > 1 then 1 else x
    x * 100

/-- Decoder of frame `0x0AA` (engine speed, throttle). -/
def parse_0AA : ValueParser := fun d =>
  if d.length < 8 then some ([], false)
  else do
    let d5 ← d[5]?
    let d4 ← d[4]?
    let rawRpm : Nat := ((d5.val <<< 8) ||| d4.val) % 2 ^ 16
    let rpm : ℚ := (rawRpm : ℚ) / 4
    let d3 ← d[3]?
    let d2 ← d[2]?
    let rawThr : Nat := ((d3.val <<< 8) ||| d2.val) % 2 ^ 16
    let throttleRaw : ℚ := (rawThr : ℚ)
    let d7 ← d[7]?
    some ([("rpm", rpm), ("throttleRaw", throttleRaw),
           ("throttlePct", throttlePct rawThr), ("accelByte7", (d7.val : ℚ))], true)

/-- Decoder of frame `0x1D0` (engine temperature). -/
def parse_1D0 : ValueParser := fun d =>
  if d.length < 1 then some ([], false)
  else do
    let d0 ← d[0]?
    let temp : ℚ := (((d0.val : Int) - 48 : Int) : ℚ)
    some ([("engineTempC", temp)], true)

/-- Decoder of frame `0x349` (fuel level, two tank halves). -/
def parse_349 : ValueParser := fun d =>
  if d.length < 4 then some ([], false)
  else do
    let d1 ← d[1]?
    let d0 ← d[0]?
    let l : ℚ := ((((d1.val <<< 8) ||| d0.val) % 2 ^ 16 : Nat) : ℚ) / 160
    let d3 ← d[3]?
    let d2 ← d[2]?
    let r : ℚ := ((((d3.val <<< 8) ||| d2.val) % 2 ^ 16 : Nat) : ℚ) / 160
    some ([("fuelLeftLiters", l), ("fuelRightLiters", r), ("fuelLiters", l + r)], true)

/-- Decoder of frame `0x330` (odometer, range). -/
def parse_330 : ValueParser := fun d =>
  if d.length < 8 then some ([], false)
  else do
    let (odo, ok) ← u24le d 0
    if !ok then some ([], false)
    else do
      let (rangeRaw, ok) ← u16le d 6
      if !ok then some ([], false)
      else do
        let rangeKm : ℚ := (rangeRaw : ℚ) / 16
        let d3 ← d[3]?
        let fuelGauge : ℚ := (d3.val : ℚ)
        let d4 ← d[4]?
        let d5 ← d[5]?
        some ([("odometerKm", (odo : ℚ)), ("rangeKm", rangeKm),
               ("fuelGaugeLiters", fuelGauge), ("fuelLeftDamped", (d4.val : ℚ)),
               ("fuelRightDamped", (d5.val : ℚ))], true)

/-- Decoder of frame `0x362` (average consumption and speed). -/
def parse_362 : ValueParser := fun d =>
  if d.length < 3 then some ([], false)
  else do
    let d2 ← d[2]?
    let d1 ← d[1]?
    let rawMpg : Nat := (d2.val <<< 4) ||| ((d1.val >>> 4) % 2 ^ 8)
    let avgMpgUk : ℚ := (rawMpg : ℚ) / 10
    let d0 ← d[0]?
    let rawMph : Nat := (((d1.val &&& 0x0F) % 2 ^ 8) <<< 8) ||| d0.val
    let avgMph : ℚ := (rawMph : ℚ) / 10
    let avgKmh : ℚ := avgMph * (1609344 / 1000000)
    some ([("avgMpgUk", avgMpgUk), ("avgMph", avgMph), ("avgKmh", avgKmh)], true)

def BMW_E87_Config : CarConfig :=
  { Name := "BMW E87"
    Sim := DefaultSim
    Signals :=
      [ (0x1A6, ⟨parse_1A6⟩), (0x0AA, ⟨parse_0AA⟩), (0x1D0, ⟨parse_1D0⟩),
        (0x349, ⟨parse_349⟩), (0x330, ⟨parse_330⟩), (0x362, ⟨parse_362⟩) ] }

/-! ## `internal/repository/repo.go` -/

/-- Go interface `CarRepository`: its one method `GetConfigByModelID`. -/
abbrev CarRepository := Nat → Except String CarConfig

structure InMemoryRepository where
  data : List (Nat × CarConfig)

def NewInMemoryRepository : InMemoryRepository :=
  { data := [(0x1234, BMW_E87_Config)] }

def InMemoryRepository.GetConfigByModelID (r : InMemoryRepository) : CarRepository :=
  fun id =>
    match r.data.lookup id with
    | some config => .ok config
    | none => .error "model not found"

/-! ## `time` -/

/-- Go `time.Time`: nanoseconds counted from the zero instant `time.Time{}`. -/
structure Time where
  ns : Int
  deriving DecidableEq

/-- Go `time.Time{}`. -/
def Time.zero : Time := ⟨0⟩

/-- Go `t.IsZero()`. -/
def Time.IsZero (t : Time) : Bool := t.ns == 0

/-- Go `minDuration`; a `time.Duration` is an `int64` count of nanoseconds, here an `Int`. -/
def minDuration : Int := -(2 ^ 63)

/-- Go `maxDuration`. -/
def maxDuration : Int := 2 ^ 63 - 1

/-- Go `time.Millisecond`. -/
def Millisecond : Int := 1000000

/-- Go `t.Sub(u)`: the difference `t - u`, saturated to the range of `time.Duration`. -/
def Time.Sub (t u : Time) : Int :=
  let d := t.ns - u.ns
  if d < minDuration then minDuration
  else if d > maxDuration then maxDuration
  else d

/-- Go `d.Milliseconds()`: `int64(d) / 1e6`, rounded toward zero. -/
def Duration.Milliseconds (d : Int) : Int := Int.tdiv d 1000000

/-! ## Floating point

Go `float32` and `float64` are the IEEE 754 formats binary32 and binary64. A
finite value of either is a rational, and every operation returns the exact
result rounded to the nearest value of its format, ties to the even significand.
Results beyond the largest finite value, which Go rounds to an infinity, are not
modelled: the exponent range is unbounded above. -/

/-- The integer nearest to `x`; of two equally near ones, the even one. -/
def roundHalfEven (x : ℚ) : Int :=
  let f : Int := ⌊x⌋
  if x - f < 1 / 2 then f
  else if x - f > 1 / 2 then f + 1
  else if f % 2 = 0 then f else f + 1

/-- Rounding of `x ≥ 0` to the binary floating-point format with `p` bits of
precision and least normal exponent `emin`: to the nearest value of the format,
ties to the even significand. -/
def roundPos (p : Nat) (emin : Int) (x : ℚ) : ℚ :=
  let e : Int := max (Int.log 2 x) emin
  let ulp : ℚ := 2 ^ (e - ((p : Int) - 1))
  (roundHalfEven (x / ulp) : ℚ) * ulp

/-- Rounding to nearest, ties to even, in the format `(p, emin)`. -/
def roundFloat (p : Nat) (emin : Int) (x : ℚ) : ℚ :=
  if x < 0 then -roundPos p emin (-x) else roundPos p emin x

/-- Rounding to Go `float32` (IEEE 754 binary32). -/
def f32 (x : ℚ) : ℚ := roundFloat 24 (-126) x

/-- Rounding to Go `float64` (IEEE 754 binary64). -/
def f64 (x : ℚ) : ℚ := roundFloat 53 (-1022) x

/-! ## `internal/canbus/listener.go` -/

structure Reading where
  Name : String
  Value : ℚ
  deriving DecidableEq

structure CanStatus where
  OK : Bool
  Err : String
  deriving DecidableEq

/-- The fields of Go `CanListener` (the mutexes apart). `outChan` is the content
of the buffered channel of capacity 400, oldest reading first; `stopChan` counts
the stop channels closed so far (every close installs a fresh channel). -/
structure CanListener where
  interfaceName : String
  outChan : List Reading
  stopChan : Nat
  isRunning : Bool
  status : CanStatus
  speedHave : Bool
  speedLastCnt : Nat
  speedLastAt : Time
  speedLastKmh : ℚ
  speedLastUpdate : Time

def NewCanListener (iface : String) : CanListener :=
  { interfaceName := iface
    outChan := []
    stopChan := 0
    isRunning := false
    status := { OK := false, Err := "not started" }
    speedHave := false
    speedLastCnt := 0
    speedLastAt := Time.zero
    speedLastKmh := 0
    speedLastUpdate := Time.zero }

def CanListener.Status (c : CanListener) : CanStatus := c.status

def CanListener.setStatus (c : CanListener) (ok : Bool) (err : String) : CanListener :=
  { c with status := { OK := ok, Err := err } }

/-- Go `emit`: a non-blocking send; the reading is dropped when the channel is full. -/
def CanListener.emit (c : CanListener) (name : String) (v : ℚ) : CanListener :=
  if c.outChan.length < 400 then
    { c with outChan := c.outChan ++ [{ Name := name, Value := v }] }
  else c

def CanListener.Stop (c : CanListener) : CanListener :=
  if c.isRunning then
    ({ c with stopChan := c.stopChan + 1, isRunning := false }).setStatus false "stopped"
  else c

/-- Go `updateSpeedFromCounter`, with the value of `time.Now()` as the argument `now`
and the float operations taken exactly, as the properties stated over exact
arithmetic read them; `updateSpeedFromCounter_ieee` below rounds them. -/
def CanListener.updateSpeedFromCounter (c : CanListener) (now : Time) (cnt : Nat) :
    CanListener :=
  if !c.speedHave then
    { c with speedHave := true, speedLastCnt := cnt, speedLastAt := now }
  else
    let dt : Int := now.Sub c.speedLastAt
    let ms : Int := Duration.Milliseconds dt
    if ms < 50 ∨ ms > 2000 then
      { c with speedLastCnt := cnt, speedLastAt := now }
    else
      let delta : Nat := (((cnt : Int) - (c.speedLastCnt : Int)) % 2 ^ 16).toNat
      let steps : ℚ := (ms : ℚ) / 50
      if steps ≤ 0 then
        { c with speedLastCnt := cnt, speedLastAt := now }
      else
        let mph : ℚ := (delta : ℚ) / steps
        let mph : ℚ := if mph < 0 then 0 else mph
        let kmh : ℚ := mph * (1609344 / 1000000)
        let c1 : CanListener := { c with speedLastCnt := cnt, speedLastAt := now }
        if c1.speedLastUpdate.IsZero = true ∨ now.Sub c1.speedLastUpdate ≥ 100 * Millisecond ∨
            |kmh - c1.speedLastKmh| ≥ 2 / 10 then
          ({ c1 with speedLastKmh := kmh, speedLastUpdate := now }).emit "speedKmh" kmh
        else c1

/-- Go `updateSpeedFromCounter`, with the value of `time.Now()` as the argument `now`
and every float operation rounded as Go does: `steps` and `mph` are `float64`,
`kmh` is the `float64` product converted to `float32`, `kmh - c.speedLastKmh` is
a `float32` subtraction (its conversion to `float64` is exact) and `0.2` is a
`float64` constant. -/
def CanListener.updateSpeedFromCounter_ieee (c : CanListener) (now : Time) (cnt : Nat) :
    CanListener :=
  if !c.speedHave then
    { c with speedHave := true, speedLastCnt := cnt, speedLastAt := now }
  else
    let dt : Int := now.Sub c.speedLastAt
    let ms : Int := Duration.Milliseconds dt
    if ms < 50 ∨ ms > 2000 then
      { c with speedLastCnt := cnt, speedLastAt := now }
    else
      let delta : Nat := (((cnt : Int) - (c.speedLastCnt : Int)) % 2 ^ 16).toNat
      let steps : ℚ := f64 (f64 (ms : ℚ) / 50)
      if steps ≤ 0 then
        { c with speedLastCnt := cnt, speedLastAt := now }
      else
        let mph : ℚ := f64 (f64 (delta : ℚ) / steps)
        let mph : ℚ := if mph < 0 then 0 else mph
        let kmh : ℚ := f32 (f64 (mph * f64 (1609344 / 1000000)))
        let c1 : CanListener := { c with speedLastCnt := cnt, speedLastAt := now }
        if c1.speedLastUpdate.IsZero = true ∨ now.Sub c1.speedLastUpdate ≥ 100 * Millisecond ∨
            |f32 (kmh - c1.speedLastKmh)| ≥ f64 (2 / 10) then
          ({ c1 with speedLastKmh := kmh, speedLastUpdate := now }).emit "speedKmh" kmh
        else c1

/-- Go `Start`, the bookkeeping done under the lock: a running engine is signalled
to stop, the speed filter is cleared and the engine is marked running. The run it
then launches as a separate task is embedded by `runSimulation` (simulation) and
by `handleFrame` (real source, one call per frame). -/
def CanListener.Start (c : CanListener) : CanListener :=
  let c : CanListener := if c.isRunning then { c with stopChan := c.stopChan + 1 } else c
  { c with
    speedHave := false
    speedLastCnt := 0
    speedLastAt := Time.zero
    speedLastKmh := 0
    speedLastUpdate := Time.zero
    isRunning := true }

/-- Go conversion `uint16(v)` of a float: the fraction is discarded (rounding
toward zero); a value outside `0 .. 65535`, where Go leaves the result to the
implementation, is reduced modulo `2 ^ 16` here. -/
def uint16_of_float (v : ℚ) : Nat :=
  ((Int.tdiv v.num (v.den : Int)) % 2 ^ 16).toNat

/-- Go `runRealHardwareOrFallback`, the function subscribed to the bus, for one
frame with identifier `frameID` and payload `data` (`frame.Data[:]`, 8 bytes on a
real bus). `stopped` tells whether the stop channel is found closed, `now` is the
value of `time.Now()`. The decoded quantities are emitted in the order of the
association list. -/
def CanListener.handleFrame (c : CanListener) (config : CarConfig) (stopped : Bool)
    (now : Time) (frameID : Nat) (data : List Byte) : Option CanListener :=
  if stopped then some c
  else
    match config.Signals.lookup frameID with
    | none => some c
    | some sig => do
      let (m, ok) ← sig.Parse data
      if !ok || m.length = 0 then some c
      else
        match mapGet "_speedCounter" m with
        | some v => some (c.updateSpeedFromCounter now (uint16_of_float v))
        | none => some (m.foldl (fun c kv => c.emit kv.1 kv.2) c)

/-- The parameters `runSimulation` derives from the profile before its loop. -/
structure SimParams where
  period : Int
  redline : ℚ
  idle : ℚ
  baseTemp : ℚ
  fuelStart : ℚ
  fuelReset : ℚ
  fuelMin : ℚ

/-- Go `runSimulation`, the defaults and their overrides by the positive fields of
`config.Sim`. The conversion `float64(x)` of an `int` rounds; that of a `float32`
is exact. -/
def simParams (config : CarConfig) : SimParams :=
  { period := if config.Sim.PeriodMs > 0 then config.Sim.PeriodMs * Millisecond
      else 50 * Millisecond
    redline := if config.Sim.RedlineRpm > 0 then f64 (config.Sim.RedlineRpm : ℚ) else 7000
    idle := if config.Sim.IdleRpm > 0 then f64 (config.Sim.IdleRpm : ℚ) else 750
    baseTemp := if config.Sim.BaseTempC > 0 then f64 (config.Sim.BaseTempC : ℚ) else 86
    fuelStart := if config.Sim.FuelStartL > 0 then config.Sim.FuelStartL else 42
    fuelReset := if config.Sim.FuelResetL > 0 then config.Sim.FuelResetL else 45
    fuelMin := if config.Sim.FuelMinL > 0 then config.Sim.FuelMinL else 8 }

/-- The variables `runSimulation` keeps across the passes of its loop, all `float64`. -/
structure SimVars where
  speed : ℚ
  rpm : ℚ
  temp : ℚ
  fuel : ℚ
  cons : ℚ

/-- Go `runSimulation`, the variables before the first pass of the loop. -/
def simStart (p : SimParams) : SimVars :=
  { speed := 0, rpm := 0, temp := p.baseTemp, fuel := p.fuelStart, cons := f64 (72 / 10) }

/-- Go `runSimulation`, the values computed by one pass of the loop on a tick,
from the variables `v` left by the pass before: `t` is
`time.Since(start).Seconds()` and `sin` stands for `math.Sin`. Every operation is
a `float64` operation and rounds on its own (Go lets an implementation fuse
`x*y + z` into one rounding; the theorems below use only the clamps of `rpm` and
the subtraction of `fuel`, which no fusion touches); a constant that is not a
`float64` value (`0.32`, `0.0009`, ...) is the `float64` nearest to it. -/
def simStep (p : SimParams) (sin : ℚ → ℚ) (t : ℚ) (v : SimVars) : SimVars :=
  let speed : ℚ := f64 (f64 (70 + f64 (28 * sin (f64 (t * f64 (32 / 100)))))
    + f64 (6 * sin (f64 (t * f64 (12 / 10)))))
  let speed : ℚ := if speed < 0 then 0 else speed
  let rpm : ℚ := f64 (f64 (p.idle + f64 (speed * 32)) + f64 (220 * sin (f64 (t * f64 (9 / 10)))))
  let rpm : ℚ := if rpm < p.idle then p.idle else rpm
  let rpm : ℚ := if rpm > p.redline then p.redline else rpm
  let temp : ℚ := f64 (p.baseTemp + f64 (5 * sin (f64 (t * f64 (10 / 100)))))
  let cons : ℚ := f64 (f64 (f64 (62 / 10) + f64 (2 * |sin (f64 (t * f64 (28 / 100)))|))
    + f64 (f64 (speed / 140) * 3))
  let fuel : ℚ := f64 (v.fuel - f64 (9 / 10000))
  let fuel : ℚ := if fuel < p.fuelMin then p.fuelReset else fuel
  { speed := speed, rpm := rpm, temp := temp, fuel := fuel, cons := cons }

/-- Go `runSimulation`, one pass of the loop on a tick: the values of `simStep`
are computed and the six readings are emitted, each converted to `float32`. -/
def CanListener.simTick (c : CanListener) (p : SimParams) (sin : ℚ → ℚ) (t : ℚ)
    (v : SimVars) : SimVars × CanListener :=
  let n : SimVars := simStep p sin t v
  let rangeKm : ℚ := f64 (n.fuel * (125 / 10))
  let c := c.emit "speedKmh" (f32 n.speed)
  let c := c.emit "rpm" (f32 n.rpm)
  let c := c.emit "engineTempC" (f32 n.temp)
  let c := c.emit "instantConsumption" (f32 n.cons)
  let c := c.emit "fuelLiters" (f32 n.fuel)
  let c := c.emit "rangeKm" (f32 rangeKm)
  (n, c)

/-- Go `runSimulation`: the status is set to "simulated", then the loop runs one
pass per tick until the stop signal; `ticks` lists the elapsed seconds read on the
ticks that come before it. -/
def CanListener.runSimulation (c : CanListener) (config : CarConfig) (sin : ℚ → ℚ)
    (ticks : List ℚ) : SimVars × CanListener :=
  ticks.foldl (fun vc t => vc.2.simTick (simParams config) sin t vc.1)
    (simStart (simParams config), c.setStatus false "simulated")

/-! ## `internal/websockets/server.go` -/

def poly : Nat := 0xEDB88320

/-- One pass of the inner loop of `crc32IEEE`. -/
def crc32IEEE_shift (crc : Nat) : Nat :=
  if crc &&& 1 = 1 then (crc >>> 1) ^^^ poly else crc >>> 1

/-- One pass of the outer loop of `crc32IEEE`: the byte `v` is folded into `crc`. -/
def crc32IEEE_byte (crc : Nat) (v : Byte) : Nat :=
  Nat.iterate crc32IEEE_shift 8 (crc ^^^ v.val)

def crc32IEEE (b : List Byte) : Nat :=
  (b.foldl crc32IEEE_byte 0xFFFFFFFF ^^^ 0xFFFFFFFF) % 2 ^ 32

/-- Go `any`, for the three kinds of value the snapshot holds. -/
inductive Any where
  | int (n : Int)
  | float32 (v : ℚ)
  | string (s : String)
  deriving DecidableEq

/-- The data fields of Go `Server`. The fields `repo` and `canListener` refer to
other objects; the functions that use them take them as arguments. -/
structure Server where
  state : List (String × Any)
  dirty : Bool
  deriving DecidableEq

def NewServer : Server := { state := [], dirty := false }

def Server.markDirty (s : Server) : Server := { s with dirty := true }

def Server.takeDirty (s : Server) : Bool × Server := (s.dirty, { s with dirty := false })

def boolToNum (b : Bool) : Int := if b then 1 else 0

/-- How the handshake of `ServeHTTP` ends. -/
inductive Handshake where
  /-- A close frame with the given reason is written and the session ends. -/
  | close (reason : String)
  /-- A text frame is written and the session ends. -/
  | text (msg : String)
  /-- The statement `s.canListener.Start(config)` is reached. -/
  | start (config : CarConfig)

/-- Go `ServeHTTP` from the first message read to the start of acquisition. -/
def Server.handshake (repo : CarRepository) (message : List Byte) : Option Handshake :=
  if message.length < 9 then some (.close "Invalid Length")
  else do
    let cmd ← message[0]?
    let modelID ← (slice message 1 5).bind LittleEndian_Uint32
    let recvCRC ← (slice message 5 9).bind LittleEndian_Uint32
    if cmd.val ≠ 0x01 then some (.close "Invalid CMD")
    else do
      let head ← slice message 0 5
      if recvCRC ≠ crc32IEEE head then some (.close "Invalid CRC")
      else
        match repo modelID with
        | .error _ => some (.text "Unknown Model")
        | .ok config => some (.start config)

/-- Go `ServeHTTP`, the health refresh at the head of the publish loop, for the
status `st` returned by `s.canListener.Status()`. -/
def Server.refreshHealth (s : Server) (st : CanStatus) : Server :=
  let state := mapSet "can_ok" (Any.int (boolToNum st.OK)) s.state
  let state :=
    if st.Err ≠ "" then mapSet "can_err" (Any.string st.Err) state
    else mapDelete "can_err" state
  { s with state := state }

/-- What one pass of the publish loop does with the connection. -/
inductive Publish where
  /-- Nothing is written (`continue`). -/
  | skip
  /-- The snapshot is written to the client. -/
  | sent (snapshot : List (String × Any))
  /-- The write fails and the session ends. -/
  | failed
  deriving DecidableEq

/-- Go `ServeHTTP`, one pass of the publish loop; `writeOk` tells whether
`conn.WriteMessage` succeeds. -/
def Server.publishTick (s : Server) (st : CanStatus) (writeOk : Bool) : Server × Publish :=
  let s := s.refreshHealth st
  let (d, s) := s.takeDirty
  if !d then (s, .skip)
  else if s.state.length = 0 then (s, .skip)
  else if writeOk then (s, .sent s.state)
  else (s, .failed)

/-- One pass of the loop of Go `ConsumeReadings`. -/
def Server.consumeReading (s : Server) (r : Reading) : Server :=
  ({ s with state := mapSet r.Name (Any.float32 r.Value) s.state }).markDirty

/-- Go `ConsumeReadings`, for the readings received from the channel. -/
def Server.ConsumeReadings (s : Server) (readings : List Reading) : Server :=
  readings.foldl Server.consumeReading s

/-! ## Reference definitions and vocabulary of the properties

The definitions below belong to the statements of the theorems, not to the
program. -/

/-- Reference CRC-32, one shift step: the register is shifted right by one bit
and the polynomial `0xEDB88320` is XORed in when the bit shifted out is 1. -/
def crc32Ref_shift (r : Nat) : Nat :=
  if r % 2 = 1 then (r / 2) ^^^ 0xEDB88320 else r / 2

/-- Reference CRC-32, one byte: the byte is XORed into the low 8 bits of the
register, then 8 shift steps follow. -/
def crc32Ref_byte (r : Nat) (v : Byte) : Nat :=
  Nat.iterate crc32Ref_shift 8 (256 * (r / 256) + ((r % 256) ^^^ v.val))

/-- Reference CRC-32, the register after the bytes `b`, from the register `r`. -/
def crc32Ref_go : Nat → List Byte → Nat
  | r, [] => r
  | r, v :: vs => crc32Ref_go (crc32Ref_byte r v) vs

/-- Reference CRC-32 (IEEE 802.3): initial register `0xFFFFFFFF`, final complement. -/
def crc32Ref (b : List Byte) : Nat := 0xFFFFFFFF - crc32Ref_go 0xFFFFFFFF b

/-- Value of byte `i` of a message (0 beyond its end). -/
def byteAt (m : List Byte) (i : Nat) : Nat := (m.getD i 0).val

/-- The little-endian 32-bit number held by bytes `i .. i+3` of a message. -/
def le32At (m : List Byte) (i : Nat) : Nat :=
  byteAt m i + 256 * byteAt m (i + 1) + 65536 * byteAt m (i + 2) + 16777216 * byteAt m (i + 3)

/-- The low byte of a number. -/
def byteOf (n : Nat) : Byte := ⟨n % 256, Nat.mod_lt _ (by decide)⟩

/-- The four bytes of a 32-bit number, least significant first. -/
def leBytes32 (x : Nat) : List Byte :=
  [byteOf x, byteOf (x / 256), byteOf (x / 65536), byteOf (x / 16777216)]

/-- The 9-byte handshake message of a model: command `0x01`, the model ID, and
the CRC-32 of these five bytes. -/
def helloMessage (id : Nat) : List Byte :=
  ((0x01 : Byte) :: leBytes32 id) ++ leBytes32 (crc32IEEE ((0x01 : Byte) :: leBytes32 id))

/-- The list with `f` applied to its element at index `i`. -/
def modifyAt (f : Byte → Byte) : Nat → List Byte → List Byte
  | _, [] => []
  | 0, b :: bs => f b :: bs
  | n + 1, b :: bs => b :: modifyAt f n bs

/-- The message with bit `p` flipped; bit 0 is the lowest bit of byte 0, so the
checksum field of a handshake message holds the bits 40 .. 71. -/
def flipBit (m : List Byte) (p : Nat) : List Byte :=
  modifyAt (fun b => byteOf (b.val ^^^ (1 <<< (p % 8)))) (p / 8) m

/-- The payload length each decoder of the BMW E87 profile requires, by frame ID. -/
def requiredLength : List (Nat × Nat) :=
  [(0x1A6, 2), (0x0AA, 8), (0x1D0, 1), (0x349, 4), (0x330, 8), (0x362, 3)]

/-- The decoder `p` returns `(nil, false)` on payloads shorter than `n` and
quantities with `true` on all others. -/
def RejectsBelow (p : ValueParser) (n : Nat) : Prop :=
  ∀ d : List Byte,
    (d.length < n → p d = some ([], false)) ∧
    (n ≤ d.length → ∃ q, q ≠ [] ∧ p d = some (q, true))

/-- The candidate speed in km/h: the counter delta, wrapped to 16 bits, per
step of 50 ms, times 1.609344. -/
def speedCandidate (c0 c1 : Nat) (ms : Int) : ℚ :=
  ((((c1 : Int) - (c0 : Int)) % 65536 : Int) : ℚ) / ((ms : ℚ) / 50) * (1609344 / 1000000)

/-- Whole milliseconds elapsed at `now` since the baseline sample of `c`. -/
def elapsedMs (c : CanListener) (now : Time) : Int :=
  Duration.Milliseconds (now.Sub c.speedLastAt)

/-- The listener `c` with its baseline moved to the sample `(cnt, now)`. -/
def rebased (c : CanListener) (now : Time) (cnt : Nat) : CanListener :=
  { c with speedLastCnt := cnt, speedLastAt := now }

/-- A listener whose baseline is the counter 65530, taken at one second. -/
def wrapListener : CanListener :=
  { NewCanListener "can0" with
    speedHave := true, speedLastCnt := 65530, speedLastAt := ⟨1000000000⟩ }

/-- A listener whose baseline is the counter 0, taken at one second. -/
def gapListener : CanListener :=
  { NewCanListener "can0" with
    speedHave := true, speedLastCnt := 0, speedLastAt := ⟨1000000000⟩ }

/-- The server after the passes of the publish loop that find the statuses
`sts`, as far as the snapshot and the flag are concerned. -/
def afterTicks (s : Server) (sts : List CanStatus) : Server :=
  sts.foldl (fun t st => (t.refreshHealth st).takeDirty.2) s

/-- The operations of the aggregator and the session on the snapshot. -/
inductive Op where
  /-- A reading is merged (one pass of `ConsumeReadings`). -/
  | merge (r : Reading)
  /-- One pass of the publish loop: health refresh, take-dirty, publish attempt. -/
  | tick (st : CanStatus) (writeOk : Bool)

/-- A server with two history variables: `mutated` tells whether the snapshot
was mutated since the last successful publish (by a merge, or by a health
refresh that changed `can_ok` or `can_err`); `merged` tells whether a reading was
merged since the last take-dirty. -/
structure Traced where
  srv : Server
  mutated : Bool
  merged : Bool
  deriving DecidableEq

def Traced.step (t : Traced) : Op → Traced
  | .merge r => { srv := t.srv.consumeReading r, mutated := true, merged := true }
  | .tick st writeOk =>
    let changed : Bool :=
      decide (mapGet "can_ok" (t.srv.refreshHealth st).state ≠ mapGet "can_ok" t.srv.state ∨
        mapGet "can_err" (t.srv.refreshHealth st).state ≠ mapGet "can_err" t.srv.state)
    let res := t.srv.publishTick st writeOk
    { srv := res.1
      mutated := match res.2 with
        | .sent _ => false
        | _ => t.mutated || changed
      merged := false }

/-- The state reached from a new server by the operations `ops`. -/
def Traced.run (ops : List Op) : Traced :=
  ops.foldl Traced.step { srv := NewServer, mutated := false, merged := false }

/-- The raw average speed of frame `0x362`: the low 12 bits of the first three
payload bytes, `((d[1] & 0x0F) << 8) | d[0]`. -/
def rawMph (d : List Byte) : Nat := ((byteAt d 1 &&& 0x0F) <<< 8) ||| byteAt d 0

/-- The raw average consumption of frame `0x362`: the high 12 bits of the first
three payload bytes, `(d[2] << 4) | (d[1] >> 4)`. -/
def rawMpg (d : List Byte) : Nat := (byteAt d 2 <<< 4) ||| (byteAt d 1 >>> 4)

/-- An engine that is running. -/
def runningListener : CanListener :=
  { NewCanListener "can0" with isRunning := true, status := { OK := true, Err := "" } }

/-- `updateSpeedFromCounter_ieee` with its two defensive branches removed: the
early return on `steps <= 0` and the clamp of a negative rate. -/
def updateSpeedDirect (c : CanListener) (now : Time) (cnt : Nat) : CanListener :=
  if !c.speedHave then
    { c with speedHave := true, speedLastCnt := cnt, speedLastAt := now }
  else
    let dt : Int := now.Sub c.speedLastAt
    let ms : Int := Duration.Milliseconds dt
    if ms < 50 ∨ ms > 2000 then
      { c with speedLastCnt := cnt, speedLastAt := now }
    else
      let delta : Nat := (((cnt : Int) - (c.speedLastCnt : Int)) % 2 ^ 16).toNat
      let steps : ℚ := f64 (f64 (ms : ℚ) / 50)
      let mph : ℚ := f64 (f64 (delta : ℚ) / steps)
      let kmh : ℚ := f32 (f64 (mph * f64 (1609344 / 1000000)))
      let c1 : CanListener := { c with speedLastCnt := cnt, speedLastAt := now }
      if c1.speedLastUpdate.IsZero = true ∨ now.Sub c1.speedLastUpdate ≥ 100 * Millisecond ∨
          |f32 (kmh - c1.speedLastKmh)| ≥ f64 (2 / 10) then
        ({ c1 with speedLastKmh := kmh, speedLastUpdate := now }).emit "speedKmh" kmh
      else c1

/-- A listener started afresh whose baseline is the counter 100, taken at one second. -/
def freshListener : CanListener :=
  { (NewCanListener "can0").Start with
    speedHave := true, speedLastCnt := 100, speedLastAt := ⟨1000000000⟩ }

/-- No quantity the decoder `p` returns is named "_speedCounter". -/
def NoCounter (p : ValueParser) : Prop :=
  ∀ d q ok, p d = some (q, ok) → ∀ kv ∈ q, kv.1 ≠ "_speedCounter"

/-- The queue of `c'` is the queue of `c` followed by readings that all satisfy `P`. -/
def PushedOnly (P : Reading → Prop) (c c' : CanListener) : Prop :=
  ∃ pushed : List Reading, c'.outChan = c.outChan ++ pushed ∧ ∀ x ∈ pushed, P x

/-- The candidate speed in km/h as the code computes it: the counter delta,
wrapped to 16 bits, over `steps`, the quotient `ms / 50`, both in `float64`, times
the `float64` constant `1.609344`, converted to `float32`. The conversions of `ms`
and of the delta to `float64` are exact. -/
def speedCandidate_ieee (c0 c1 : Nat) (ms : Int) : ℚ :=
  f32 (f64 (f64 (((((c1 : Int) - (c0 : Int)) % 65536 : Int) : ℚ) / f64 ((ms : ℚ) / 50))
    * f64 (1609344 / 1000000)))

/-- The state the estimator reaches from the counter 0 at 1 s and the counter 9 at
1.508 s: it emitted the `float32` value 747425 / 524288 (1.4256...) at 1.508 s,
where its baseline was taken. -/
def steadyListener : CanListener :=
  { NewCanListener "can0" with
    outChan := [{ Name := "speedKmh", Value := 747425 / 524288 }],
    speedHave := true, speedLastCnt := 9, speedLastAt := ⟨1508000000⟩,
    speedLastKmh := 747425 / 524288, speedLastUpdate := ⟨1508000000⟩ }

/-- A listener whose baseline is the counter 1, taken at one second. -/
def downListener : CanListener :=
  { NewCanListener "can0" with
    speedHave := true, speedLastCnt := 1, speedLastAt := ⟨1000000000⟩ }

/-- The six readings one pass of the simulation loop sends, in order, from the
variables `n` it computed. -/
def tickReadings (n : SimVars) : List Reading :=
  [{ Name := "speedKmh", Value := f32 n.speed },
   { Name := "rpm", Value := f32 n.rpm },
   { Name := "engineTempC", Value := f32 n.temp },
   { Name := "instantConsumption", Value := f32 n.cons },
   { Name := "fuelLiters", Value := f32 n.fuel },
   { Name := "rangeKm", Value := f32 (f64 (n.fuel * (125 / 10))) }]

/-- A profile whose redline and idle speed are 16777219, which is not a `float32`
value. -/
def oddRedlineConfig : CarConfig :=
  { BMW_E87_Config with
    Sim := { DefaultSim with RedlineRpm := 16777219, IdleRpm := 16777219 } }

/-- A profile whose reset volume is below its minimum volume. -/
def lowResetConfig : CarConfig :=
  { BMW_E87_Config with Sim := { DefaultSim with FuelStartL := 8, FuelResetL := 5 } }

/-- A profile whose idle speed is above its redline. -/
def highIdleConfig : CarConfig :=
  { BMW_E87_Config with Sim := { DefaultSim with IdleRpm := 8000 } }

/-- A server-side accepted message: the one of model `0x1234`, followed by a byte. -/
def longHello : List Byte := helloMessage 0x1234 ++ [0x00]

/-! ## CRC-32 -/

theorem crc32IEEE_shift_eq (r : Nat) : crc32IEEE_shift r = crc32Ref_shift r := by
  unfold crc32IEEE_shift crc32Ref_shift poly
  rw [Nat.and_one_is_mod, Nat.shiftRight_eq_div_pow]

theorem crc32IEEE_shift_lt (r : Nat) (h : r < 2 ^ 32) : crc32IEEE_shift r < 2 ^ 32 := by
  unfold crc32IEEE_shift poly
  rw [Nat.shiftRight_eq_div_pow]
  split
  · apply Nat.xor_lt_two_pow
    · omega
    · norm_num
  · omega

theorem xor_div_two_pow (n a b : Nat) : (a ^^^ b) / 2 ^ n = a / 2 ^ n ^^^ b / 2 ^ n := by
  induction n generalizing a b with
  | zero => simp
  | succ n ih =>
    rw [pow_succ, ← Nat.div_div_eq_div_mul, ← Nat.div_div_eq_div_mul,
      ← Nat.div_div_eq_div_mul, ih, Nat.xor_div_two]

theorem xor_low_byte (r : Nat) (v : Byte) :
    r ^^^ v.val = 256 * (r / 256) + ((r % 256) ^^^ v.val) := by
  have hv : v.val < 256 := v.isLt
  have h1 : (r ^^^ v.val) / 256 = r / 256 := by
    have hk := xor_div_two_pow 8 r v.val
    have hz : v.val / 2 ^ 8 = 0 := by omega
    rw [hz, Nat.xor_zero] at hk
    exact hk
  have h2 : (r ^^^ v.val) % 256 = (r % 256) ^^^ v.val := by
    have := @Nat.and_xor_distrib_right r v.val (2 ^ 8 - 1)
    simp only [Nat.and_pow_two_sub_one_eq_mod] at this
    have hz : v.val % 2 ^ 8 = v.val := by omega
    rw [hz] at this
    simpa using this
  have := Nat.div_add_mod (r ^^^ v.val) 256
  rw [h1, h2] at this
  exact this.symm

theorem crc32IEEE_iterate_lt (n r : Nat) (h : r < 2 ^ 32) :
    Nat.iterate crc32IEEE_shift n r < 2 ^ 32 := by
  induction n generalizing r with
  | zero => simpa using h
  | succ n ih => exact ih _ (crc32IEEE_shift_lt r h)

theorem crc32IEEE_byte_eq (r : Nat) (v : Byte) : crc32IEEE_byte r v = crc32Ref_byte r v := by
  have hf : crc32IEEE_shift = crc32Ref_shift := funext crc32IEEE_shift_eq
  unfold crc32IEEE_byte crc32Ref_byte
  rw [hf, ← xor_low_byte]

theorem crc32IEEE_byte_lt (r : Nat) (v : Byte) (h : r < 2 ^ 32) :
    crc32IEEE_byte r v < 2 ^ 32 := by
  unfold crc32IEEE_byte
  apply crc32IEEE_iterate_lt
  apply Nat.xor_lt_two_pow h
  have := v.isLt
  omega

theorem crc32IEEE_fold_eq (b : List Byte) (r : Nat) :
    b.foldl crc32IEEE_byte r = crc32Ref_go r b := by
  induction b generalizing r with
  | nil => rfl
  | cons v vs ih =>
    show List.foldl crc32IEEE_byte (crc32IEEE_byte r v) vs = crc32Ref_go (crc32Ref_byte r v) vs
    rw [crc32IEEE_byte_eq]
    exact ih _

theorem crc32IEEE_fold_lt (b : List Byte) (r : Nat) (h : r < 2 ^ 32) :
    b.foldl crc32IEEE_byte r < 2 ^ 32 := by
  induction b generalizing r with
  | nil => simpa using h
  | cons v vs ih => exact ih _ (crc32IEEE_byte_lt r v h)

theorem complement32 (r : Nat) (h : r < 2 ^ 32) :
    (r ^^^ 0xFFFFFFFF) % 2 ^ 32 = 0xFFFFFFFF - r := by
  have hx : r ^^^ 0xFFFFFFFF < 2 ^ 32 := Nat.xor_lt_two_pow h (by norm_num)
  rw [Nat.mod_eq_of_lt hx]
  apply Nat.eq_of_testBit_eq
  intro i
  have e1 : (0xFFFFFFFF : Nat) = 2 ^ 32 - 1 := by norm_num
  have e2 : (0xFFFFFFFF : Nat) - r = 2 ^ 32 - (r + 1) := by omega
  rw [e2, Nat.testBit_two_pow_sub_succ h, Nat.testBit_xor, e1, Nat.testBit_two_pow_sub_one]
  by_cases hi : i < 32
  · simp [hi]
  · have : r.testBit i = false := by
      apply Nat.testBit_lt_two_pow
      calc r < 2 ^ 32 := h
        _ ≤ 2 ^ i := Nat.pow_le_pow_right (by norm_num) (by omega)
    simp [hi, this]

theorem crc32IEEE_eq_crc32Ref (b : List Byte) : crc32IEEE b = crc32Ref b := by
  unfold crc32IEEE crc32Ref
  rw [complement32 _ (crc32IEEE_fold_lt b _ (by norm_num)), crc32IEEE_fold_eq]

theorem crc32IEEE_lt (b : List Byte) : crc32IEEE b < 2 ^ 32 := by
  unfold crc32IEEE
  exact Nat.mod_lt _ (by norm_num)

/-- Claim C3. `crc32IEEE` is the standard CRC-32: on every byte sequence it
equals the reference definition (reflected polynomial `0xEDB88320`, initial
register `0xFFFFFFFF`, each byte XORed into the low 8 bits, then 8 shift-right
steps that XOR the polynomial when the bit shifted out is 1, final complement);
the CRC of the empty sequence is 0 and the CRC of the ASCII bytes of
"123456789" is `0xCBF43926`. -/
theorem crc32IEEE_is_standard_crc32 :
    (∀ b : List Byte, crc32IEEE b = crc32Ref b) ∧
    crc32IEEE [] = 0x00000000 ∧
    crc32IEEE [0x31, 0x32, 0x33, 0x34, 0x35, 0x36, 0x37, 0x38, 0x39] = 0xCBF43926 :=
  ⟨crc32IEEE_eq_crc32Ref, by decide, by decide⟩

/-! ## Handshake -/

theorem or_shiftLeft_eq_add (lo hi i : Nat) (h : lo < 2 ^ i) :
    lo ||| (hi <<< i) = lo + 2 ^ i * hi := by
  rw [Nat.shiftLeft_eq, Nat.or_comm, Nat.mul_comm hi, ← Nat.mul_add_lt_is_or h, Nat.add_comm]

theorem le32_bits (b0 b1 b2 b3 : Byte) :
    (b0.val ||| (b1.val <<< 8) ||| (b2.val <<< 16) ||| (b3.val <<< 24)) % 2 ^ 32
      = b0.val + 256 * b1.val + 65536 * b2.val + 16777216 * b3.val := by
  have h0 := b0.isLt; have h1 := b1.isLt; have h2 := b2.isLt; have h3 := b3.isLt
  rw [or_shiftLeft_eq_add b0.val b1.val 8 (by omega)]
  rw [or_shiftLeft_eq_add _ b2.val 16 (by omega)]
  rw [or_shiftLeft_eq_add _ b3.val 24 (by omega)]
  omega

theorem exists_nine_bytes (m : List Byte) (h : 9 ≤ m.length) :
    ∃ b0 b1 b2 b3 b4 b5 b6 b7 b8 tl,
      m = b0 :: b1 :: b2 :: b3 :: b4 :: b5 :: b6 :: b7 :: b8 :: tl := by
  match m, h with
  | b0 :: b1 :: b2 :: b3 :: b4 :: b5 :: b6 :: b7 :: b8 :: tl, _ =>
    exact ⟨b0, b1, b2, b3, b4, b5, b6, b7, b8, tl, rfl⟩

theorem handshake_eq (repo : CarRepository) (m : List Byte) :
    Server.handshake repo m = some (
      if m.length < 9 then Handshake.close "Invalid Length"
      else if byteAt m 0 ≠ 0x01 then Handshake.close "Invalid CMD"
      else if le32At m 5 ≠ crc32IEEE (m.take 5) then Handshake.close "Invalid CRC"
      else match repo (le32At m 1) with
        | .error _ => Handshake.text "Unknown Model"
        | .ok config => Handshake.start config) := by
  by_cases hlen : m.length < 9
  · simp [Server.handshake, hlen]
  · obtain ⟨b0, b1, b2, b3, b4, b5, b6, b7, b8, tl, rfl⟩ := exists_nine_bytes m (by omega)
    simp only [Server.handshake, hlen, if_false, slice, LittleEndian_Uint32, byteAt, le32At]
    have e5 := le32_bits b5 b6 b7 b8
    have e1 := le32_bits b1 b2 b3 b4
    simp only [Nat.reducePow] at e5 e1
    simp only [List.length_cons, Nat.reducePow, List.getElem?_cons_zero, Option.bind_eq_bind,
      Option.some_bind, List.getD_cons_zero, List.getD_cons_succ, ne_eq, ite_not]
    simp [e5, e1]
    split_ifs
    · cases repo (b1.val + 256 * b2.val + 65536 * b3.val + 16777216 * b4.val) <;> rfl
    · rfl
    · rfl

/-- Claim C1. The handshake of `ServeHTTP`, as a function of the first message
`m` and the profile store, checks in this order and stops at the first failure:
a message shorter than 9 bytes is closed with "Invalid Length"; else a command
byte other than `0x01` is closed with "Invalid CMD", whatever the checksum; else
a checksum field (bytes 5..8, little-endian) other than the CRC-32 of bytes 0..4
is closed with "Invalid CRC"; else a model ID (bytes 1..4, little-endian) that
the store does not hold is answered with the text "Unknown Model"; otherwise
acquisition starts with the profile of that model. Acquisition starts for no
message that fails one of the four checks. -/
theorem handshake_validation_order (repo : CarRepository) (m : List Byte) :
    (m.length < 9 →
      Server.handshake repo m = some (Handshake.close "Invalid Length")) ∧
    (9 ≤ m.length → byteAt m 0 ≠ 0x01 →
      Server.handshake repo m = some (Handshake.close "Invalid CMD")) ∧
    (9 ≤ m.length → byteAt m 0 = 0x01 → le32At m 5 ≠ crc32IEEE (m.take 5) →
      Server.handshake repo m = some (Handshake.close "Invalid CRC")) ∧
    (9 ≤ m.length → byteAt m 0 = 0x01 → le32At m 5 = crc32IEEE (m.take 5) →
      ∀ e, repo (le32At m 1) = .error e →
        Server.handshake repo m = some (Handshake.text "Unknown Model")) ∧
    (9 ≤ m.length → byteAt m 0 = 0x01 → le32At m 5 = crc32IEEE (m.take 5) →
      ∀ config, repo (le32At m 1) = .ok config →
        Server.handshake repo m = some (Handshake.start config)) ∧
    (∀ config, Server.handshake repo m = some (Handshake.start config) →
      9 ≤ m.length ∧ byteAt m 0 = 0x01 ∧ le32At m 5 = crc32IEEE (m.take 5) ∧
        repo (le32At m 1) = .ok config) := by
  rw [handshake_eq]
  refine ⟨?_, ?_, ?_, ?_, ?_, ?_⟩
  · intro h
    rw [if_pos h]
  · intro h h0
    rw [if_neg (by omega), if_pos h0]
  · intro h h0 hc
    rw [if_neg (by omega), if_neg (not_not.mpr h0), if_pos hc]
  · intro h h0 hc e he
    rw [if_neg (by omega), if_neg (not_not.mpr h0), if_neg (not_not.mpr hc), he]
  · intro h h0 hc config he
    rw [if_neg (by omega), if_neg (not_not.mpr h0), if_neg (not_not.mpr hc), he]
  · intro config hstart
    by_cases h : m.length < 9
    · rw [if_pos h] at hstart
      simp at hstart
    · rw [if_neg h] at hstart
      by_cases h0 : byteAt m 0 = 0x01
      · rw [if_neg (not_not.mpr h0)] at hstart
        by_cases hc : le32At m 5 = crc32IEEE (m.take 5)
        · rw [if_neg (not_not.mpr hc)] at hstart
          refine ⟨by omega, h0, hc, ?_⟩
          cases hr : repo (le32At m 1) with
          | error e =>
            rw [hr] at hstart
            simp at hstart
          | ok c =>
            rw [hr] at hstart
            simp only [Option.some.injEq, Handshake.start.injEq] at hstart
            rw [hstart]
        · rw [if_pos hc] at hstart
          simp at hstart
      · rw [if_pos h0] at hstart
        simp at hstart

/-- The handshake message of model `0x1234` starts acquisition with the BMW E87
profile of the in-memory store. -/
theorem handshake_validation_order_witness :
    Server.handshake NewInMemoryRepository.GetConfigByModelID
        [0x01, 0x34, 0x12, 0x00, 0x00, 0x45, 0xC6, 0xA9, 0x9B]
      = some (Handshake.start BMW_E87_Config) :=
  (handshake_validation_order NewInMemoryRepository.GetConfigByModelID
      [0x01, 0x34, 0x12, 0x00, 0x00, 0x45, 0xC6, 0xA9, 0x9B]).2.2.2.2.1
    (by decide) (by decide) (by decide) BMW_E87_Config rfl

theorem xor_bit_ne_self (b k : Nat) (hb : b < 256) (hk : k < 8) :
    (b ^^^ (1 <<< k)) % 256 ≠ b := by
  have hlt : 1 <<< k < 2 ^ 8 := by
    rw [Nat.shiftLeft_eq, Nat.one_mul]
    exact Nat.pow_lt_pow_right (by norm_num) hk
  have hx : b ^^^ (1 <<< k) < 2 ^ 8 := Nat.xor_lt_two_pow (by omega) hlt
  rw [Nat.mod_eq_of_lt (by omega)]
  intro h
  have h2 : b ^^^ (b ^^^ (1 <<< k)) = b ^^^ b := by rw [h]
  rw [← Nat.xor_assoc, Nat.xor_self, Nat.zero_xor] at h2
  rw [Nat.shiftLeft_eq, Nat.one_mul] at h2
  have := Nat.pos_pow_of_pos k (by norm_num : 0 < 2)
  omega

theorem handshake_nine (repo : CarRepository) (a0 a1 a2 a3 a4 c0 c1 c2 c3 : Byte) :
    Server.handshake repo [a0, a1, a2, a3, a4, c0, c1, c2, c3] = some (
      if a0.val ≠ 0x01 then Handshake.close "Invalid CMD"
      else if c0.val + 256 * c1.val + 65536 * c2.val + 16777216 * c3.val
          ≠ crc32IEEE [a0, a1, a2, a3, a4] then Handshake.close "Invalid CRC"
      else match repo (a1.val + 256 * a2.val + 65536 * a3.val + 16777216 * a4.val) with
        | .error _ => Handshake.text "Unknown Model"
        | .ok config => Handshake.start config) := by
  rw [handshake_eq]
  simp [byteAt, le32At]

theorem helloMessage_accepted (repo : CarRepository) (id : Nat) (config : CarConfig)
    (hid : id < 2 ^ 32) (hknown : repo id = .ok config) :
    Server.handshake repo (helloMessage id) = some (Handshake.start config) := by
  have hc := crc32IEEE_lt ((0x01 : Byte) :: leBytes32 id)
  have hi : id % 256 + 256 * (id / 256 % 256) + 65536 * (id / 65536 % 256)
      + 16777216 * (id / 16777216 % 256) = id := by omega
  unfold helloMessage
  generalize hcdef : crc32IEEE ((0x01 : Byte) :: leBytes32 id) = c at hc ⊢
  have hcc : c % 256 + 256 * (c / 256 % 256) + 65536 * (c / 65536 % 256)
      + 16777216 * (c / 16777216 % 256) = c := by omega
  simp only [leBytes32, List.cons_append, List.nil_append] at hcdef ⊢
  rw [handshake_nine, hcdef]
  simp only [byteOf, hi, hcc, hknown]
  simp

theorem helloMessage_flipped_rejected (repo : CarRepository) (id : Nat) (p : Nat)
    (hp : p < 32) :
    Server.handshake repo (flipBit (helloMessage id) (40 + p)) =
      some (Handshake.close "Invalid CRC") := by
  have hc := crc32IEEE_lt ((0x01 : Byte) :: leBytes32 id)
  unfold helloMessage
  generalize hcdef : crc32IEEE ((0x01 : Byte) :: leBytes32 id) = c at hc ⊢
  have hq : (40 + p) / 8 = 5 + p / 8 := by omega
  have hr : (40 + p) % 8 = p % 8 := by omega
  have hk : p % 8 < 8 := Nat.mod_lt _ (by norm_num)
  have hq4 : p / 8 < 4 := by omega
  rw [flipBit, hq, hr]
  generalize p % 8 = k at *
  generalize p / 8 = q at *
  have x0 := xor_bit_ne_self (c % 256) k (Nat.mod_lt _ (by norm_num)) hk
  have x1 := xor_bit_ne_self (c / 256 % 256) k (Nat.mod_lt _ (by norm_num)) hk
  have x2 := xor_bit_ne_self (c / 65536 % 256) k (Nat.mod_lt _ (by norm_num)) hk
  have x3 := xor_bit_ne_self (c / 16777216 % 256) k (Nat.mod_lt _ (by norm_num)) hk
  have hq' : q = 0 ∨ q = 1 ∨ q = 2 ∨ q = 3 := by omega
  simp only [leBytes32, List.cons_append, List.nil_append] at hcdef ⊢
  rcases hq' with rfl | rfl | rfl | rfl
  all_goals
    simp only [modifyAt]
    rw [handshake_nine, hcdef]
    simp only [byteOf]
    rw [if_neg (by simp), if_pos (by omega)]

/-- Claim C2. For every model ID the store knows (the in-memory store holds
`0x1234`), the 9-byte message made of the command `0x01`, the model ID
(little-endian) and the CRC-32 of these five bytes (little-endian) starts
acquisition; flipping any one of the 32 bits of its checksum field ends the
handshake with the close reason "Invalid CRC"; and every 5-byte message, whatever
its bytes, ends with "Invalid Length". -/
theorem handshake_hello_and_flipped_checksum (repo : CarRepository) (id : Nat)
    (config : CarConfig) (hid : id < 2 ^ 32) (hknown : repo id = .ok config) :
    (helloMessage id).length = 9 ∧
    Server.handshake repo (helloMessage id) = some (Handshake.start config) ∧
    (∀ p, p < 32 →
      Server.handshake repo (flipBit (helloMessage id) (40 + p))
        = some (Handshake.close "Invalid CRC")) ∧
    (∀ m : List Byte, m.length = 5 →
      Server.handshake repo m = some (Handshake.close "Invalid Length")) := by
  refine ⟨rfl, helloMessage_accepted repo id config hid hknown, ?_, ?_⟩
  · intro p hp
    exact helloMessage_flipped_rejected repo id p hp
  · intro m hm
    rw [handshake_eq, if_pos (by omega)]

/-- The message of model `0x1234`, known to the in-memory store, with the lowest
bit of its checksum field flipped, is closed with "Invalid CRC". -/
theorem handshake_hello_and_flipped_checksum_witness :
    NewInMemoryRepository.GetConfigByModelID 0x1234 = .ok BMW_E87_Config ∧
    helloMessage 0x1234 = [0x01, 0x34, 0x12, 0x00, 0x00, 0x45, 0xC6, 0xA9, 0x9B] ∧
    Server.handshake NewInMemoryRepository.GetConfigByModelID
        (flipBit (helloMessage 0x1234) 40)
      = some (Handshake.close "Invalid CRC") :=
  ⟨rfl, by decide,
    (handshake_hello_and_flipped_checksum NewInMemoryRepository.GetConfigByModelID 0x1234
      BMW_E87_Config (by decide) rfl).2.2.1 0 (by decide)⟩

/-! ## Decode table -/

theorem parse_1A6_total : RejectsBelow parse_1A6 2 := by
  intro d
  constructor
  · intro h
    simp [parse_1A6, u16le, h]
  · intro h
    match d, h with
    | b0 :: b1 :: tl, _ =>
      simp [parse_1A6, u16le, slice, LittleEndian_Uint16,
        show ¬ (tl.length + 1 + 1 < 2) from by omega]

theorem parse_0AA_total : RejectsBelow parse_0AA 8 := by
  intro d
  constructor
  · intro h
    simp [parse_0AA, h]
  · intro h
    match d, h with
    | b0 :: b1 :: b2 :: b3 :: b4 :: b5 :: b6 :: b7 :: tl, _ =>
      simp [parse_0AA, show ¬ (tl.length + 1 + 1 + 1 + 1 + 1 + 1 + 1 + 1 < 8) from by omega]

theorem parse_1D0_total : RejectsBelow parse_1D0 1 := by
  intro d
  constructor
  · intro h
    simp [parse_1D0, h]
  · intro h
    match d, h with
    | b0 :: tl, _ =>
      simp [parse_1D0]

theorem parse_349_total : RejectsBelow parse_349 4 := by
  intro d
  constructor
  · intro h
    simp [parse_349, h]
  · intro h
    match d, h with
    | b0 :: b1 :: b2 :: b3 :: tl, _ =>
      simp [parse_349, show ¬ (tl.length + 1 + 1 + 1 + 1 < 4) from by omega]

theorem parse_330_total : RejectsBelow parse_330 8 := by
  intro d
  constructor
  · intro h
    simp [parse_330, h]
  · intro h
    match d, h with
    | b0 :: b1 :: b2 :: b3 :: b4 :: b5 :: b6 :: b7 :: tl, _ =>
      simp [parse_330, u24le, u16le, slice, LittleEndian_Uint16,
        show ¬ (tl.length + 1 + 1 + 1 + 1 + 1 + 1 + 1 + 1 < 8) from by omega, show ¬ (tl.length + 1 + 1 + 1 + 1 + 1 + 1 + 1 + 1 < 3) from by omega]

theorem parse_362_total : RejectsBelow parse_362 3 := by
  intro d
  constructor
  · intro h
    simp [parse_362, h]
  · intro h
    match d, h with
    | b0 :: b1 :: b2 :: tl, _ =>
      simp [parse_362, show ¬ (tl.length + 1 + 1 + 1 < 3) from by omega]

/-- Claim C4. Every decoder of the BMW E87 profile is total and rejects short
payloads: the profile holds exactly the frame IDs `0x1A6`, `0x0AA`, `0x1D0`,
`0x349`, `0x330`, `0x362`, with required lengths 2, 8, 1, 4, 8, 3; on every byte
sequence `d`, the empty one included, the decoder returns without an index out
of range, with no quantities and `ok = false` when `d` is shorter than the
required length, and with `ok = true` otherwise. -/
theorem decoders_total_and_reject_short_payloads :
    BMW_E87_Config.Signals.map Prod.fst = requiredLength.map Prod.fst ∧
    ∀ id sig, (id, sig) ∈ BMW_E87_Config.Signals →
      ∃ n, (id, n) ∈ requiredLength ∧
        ∀ d : List Byte,
          sig.Parse d ≠ none ∧
          (d.length < n → sig.Parse d = some ([], false)) ∧
          (n ≤ d.length → ∃ q, q ≠ [] ∧ sig.Parse d = some (q, true)) := by
  refine ⟨rfl, ?_⟩
  intro id sig hmem
  have key : ∀ (p : ValueParser) (n : Nat), RejectsBelow p n → ∀ d : List Byte,
      p d ≠ none ∧ (d.length < n → p d = some ([], false)) ∧
      (n ≤ d.length → ∃ q, q ≠ [] ∧ p d = some (q, true)) := by
    intro p n hp d
    refine ⟨?_, (hp d).1, (hp d).2⟩
    by_cases h : d.length < n
    · rw [(hp d).1 h]; simp
    · obtain ⟨q, _, hq⟩ := (hp d).2 (by omega)
      rw [hq]; simp
  simp only [BMW_E87_Config, List.mem_cons, Prod.mk.injEq, List.mem_nil_iff, or_false] at hmem
  rcases hmem with ⟨rfl, rfl⟩ | ⟨rfl, rfl⟩ | ⟨rfl, rfl⟩ | ⟨rfl, rfl⟩ | ⟨rfl, rfl⟩ | ⟨rfl, rfl⟩
  · exact ⟨2, by simp [requiredLength], key _ _ parse_1A6_total⟩
  · exact ⟨8, by simp [requiredLength], key _ _ parse_0AA_total⟩
  · exact ⟨1, by simp [requiredLength], key _ _ parse_1D0_total⟩
  · exact ⟨4, by simp [requiredLength], key _ _ parse_349_total⟩
  · exact ⟨8, by simp [requiredLength], key _ _ parse_330_total⟩
  · exact ⟨3, by simp [requiredLength], key _ _ parse_362_total⟩

/-- The decoder of frame `0x0AA` is in the profile; it requires 8 bytes. -/
theorem decoders_total_and_reject_short_payloads_witness :
    ∃ n, (0x0AA, n) ∈ requiredLength ∧
      ∀ d : List Byte,
        parse_0AA d ≠ none ∧
        (d.length < n → parse_0AA d = some ([], false)) ∧
        (n ≤ d.length → ∃ q, q ≠ [] ∧ parse_0AA d = some (q, true)) :=
  decoders_total_and_reject_short_payloads.2 0x0AA ⟨parse_0AA⟩ (by simp [BMW_E87_Config])

/-! ## Speed estimator -/

theorem sub_ge_iff (t u : Time) (x : Int) (h1 : minDuration < x) (h2 : x ≤ maxDuration) :
    t.Sub u ≥ x ↔ t.ns - u.ns ≥ x := by
  simp only [Time.Sub, minDuration, maxDuration] at *
  split_ifs <;> constructor <;> intro h <;> omega

theorem milliseconds_window (d : Int) :
    (Duration.Milliseconds d < 50 ↔ d < 50 * Millisecond) ∧
    (Duration.Milliseconds d > 2000 ↔ d ≥ 2001 * Millisecond) := by
  unfold Duration.Milliseconds Millisecond
  by_cases hd : 0 ≤ d
  · rw [Int.tdiv_eq_ediv hd (by norm_num)]
    constructor <;> constructor <;> intro h <;> omega
  · have hneg : d.tdiv 1000000 = -((-d).tdiv 1000000) := by
      rw [Int.neg_tdiv, Int.neg_neg]
    have hnn : 0 ≤ (-d).tdiv 1000000 := Int.tdiv_nonneg (by omega) (by norm_num)
    constructor <;> constructor <;> intro h <;> omega

theorem update_in_window (c : CanListener) (now : Time) (cnt : Nat)
    (hhave : c.speedHave = true)
    (hlo : 50 ≤ elapsedMs c now) (hhi : elapsedMs c now ≤ 2000) :
    c.updateSpeedFromCounter now cnt =
      if c.speedLastUpdate.IsZero = true ∨ now.ns - c.speedLastUpdate.ns ≥ 100000000 ∨
          |speedCandidate c.speedLastCnt cnt (elapsedMs c now) - c.speedLastKmh| ≥ 2 / 10 then
        ({ rebased c now cnt with
            speedLastKmh := speedCandidate c.speedLastCnt cnt (elapsedMs c now)
            speedLastUpdate := now }).emit "speedKmh"
          (speedCandidate c.speedLastCnt cnt (elapsedMs c now))
      else rebased c now cnt := by
  unfold elapsedMs at *
  generalize hms : Duration.Milliseconds (now.Sub c.speedLastAt) = ms at *
  have hq : (50 : ℚ) ≤ (ms : ℚ) := by exact_mod_cast hlo
  have hsteps : ¬ ((ms : ℚ) / 50 ≤ 0) := by
    rw [not_le]; positivity
  have hwin : ¬ (ms < 50 ∨ ms > 2000) := by omega
  have hsub := sub_ge_iff now c.speedLastUpdate (100 * Millisecond)
    (by unfold minDuration Millisecond; norm_num) (by unfold maxDuration Millisecond; norm_num)
  have hdelta : ((((cnt : Int) - (c.speedLastCnt : Int)) % 2 ^ 16).toNat : ℚ)
      = ((((cnt : Int) - (c.speedLastCnt : Int)) % 65536 : Int) : ℚ) := by
    have h0 : 0 ≤ ((cnt : Int) - (c.speedLastCnt : Int)) % 65536 :=
      Int.emod_nonneg _ (by norm_num)
    have : (2 : Int) ^ 16 = 65536 := by norm_num
    rw [this]
    have h1 := Int.toNat_of_nonneg h0
    exact_mod_cast congrArg (fun z : Int => (z : ℚ)) h1
  have hmph : ¬ (((((cnt : Int) - (c.speedLastCnt : Int)) % 65536 : Int) : ℚ) / ((ms : ℚ) / 50) < 0) := by
    rw [not_lt]
    have h0 : 0 ≤ ((cnt : Int) - (c.speedLastCnt : Int)) % 65536 :=
      Int.emod_nonneg _ (by norm_num)
    have : (0 : ℚ) ≤ ((((cnt : Int) - (c.speedLastCnt : Int)) % 65536 : Int) : ℚ) := by
      exact_mod_cast h0
    positivity
  unfold CanListener.updateSpeedFromCounter
  simp only [hhave, hms, Bool.not_true, Bool.false_eq_true, if_false, hwin, hsteps, hdelta, hmph,
    hsub, speedCandidate, rebased]
  have hM : (100 : Int) * Millisecond = 100000000 := by unfold Millisecond; norm_num
  rw [hM]

theorem emit_outChan (c : CanListener) (name : String) (v : ℚ) (h : c.outChan.length < 400) :
    (c.emit name v).outChan = c.outChan ++ [{ Name := name, Value := v }] := by
  simp [CanListener.emit, h]

theorem emit_fields (c : CanListener) (name : String) (v : ℚ) :
    (c.emit name v).speedLastKmh = c.speedLastKmh ∧
    (c.emit name v).speedLastUpdate = c.speedLastUpdate ∧
    (c.emit name v).speedLastCnt = c.speedLastCnt ∧
    (c.emit name v).speedLastAt = c.speedLastAt ∧
    (c.emit name v).speedHave = c.speedHave := by
  unfold CanListener.emit
  split <;> simp

/-- Counterexample to claim C5 as stated: with the baseline counter 65530 and an
in-window sample (50 ms later) of counter 10, the reading emitted is
16 * 1.609344 km/h, the rate of a delta of 16 over one step, and not the reading
a delta of 15 would give. -/
theorem speed_wraparound_delta_is_not_15 :
    (((10 : Int) - (wrapListener.speedLastCnt : Int)) % 2 ^ 16).toNat ≠ 15 ∧
    elapsedMs wrapListener ⟨1050000000⟩ = 50 ∧
    (wrapListener.updateSpeedFromCounter ⟨1050000000⟩ 10).outChan
      = [{ Name := "speedKmh", Value := 16 / (50 / 50) * (1609344 / 1000000) }] ∧
    (wrapListener.updateSpeedFromCounter ⟨1050000000⟩ 10).outChan
      ≠ [{ Name := "speedKmh", Value := 15 / (50 / 50) * (1609344 / 1000000) }] := by
  have h1 : elapsedMs wrapListener ⟨1050000000⟩ = 50 := by decide
  have h := update_in_window wrapListener ⟨1050000000⟩ 10 rfl (by decide) (by decide)
  have hz : wrapListener.speedLastUpdate.IsZero = true := rfl
  rw [if_pos (Or.inl hz), h1] at h
  rw [h, emit_outChan _ _ _ (by decide)]
  refine ⟨by decide, h1, ?_, ?_⟩
  · simp [rebased, wrapListener, NewCanListener, speedCandidate]
  · simp [rebased, wrapListener, NewCanListener, speedCandidate]

/-- Claim C5, amended. In `updateSpeedFromCounter`, when the baseline counter is
65530 and the next in-window sample has counter 10, the counter delta used for
the rate is the unsigned 16-bit wraparound difference and equals 16: the
candidate speed is 16 per step of 50 ms, times 1.609344. -/
theorem speed_wraparound_delta_is_16 (c : CanListener) (now : Time)
    (hhave : c.speedHave = true) (hbase : c.speedLastCnt = 65530)
    (hlo : 50 ≤ elapsedMs c now) (hhi : elapsedMs c now ≤ 2000) :
    speedCandidate c.speedLastCnt 10 (elapsedMs c now)
      = 16 / ((elapsedMs c now : ℚ) / 50) * (1609344 / 1000000) ∧
    c.updateSpeedFromCounter now 10 =
      if c.speedLastUpdate.IsZero = true ∨ now.ns - c.speedLastUpdate.ns ≥ 100000000 ∨
          |16 / ((elapsedMs c now : ℚ) / 50) * (1609344 / 1000000) - c.speedLastKmh| ≥ 2 / 10 then
        ({ c with
            speedLastCnt := 10
            speedLastAt := now
            speedLastKmh := 16 / ((elapsedMs c now : ℚ) / 50) * (1609344 / 1000000)
            speedLastUpdate := now }).emit "speedKmh"
          (16 / ((elapsedMs c now : ℚ) / 50) * (1609344 / 1000000))
      else { c with speedLastCnt := 10, speedLastAt := now } := by
  have hk : speedCandidate c.speedLastCnt 10 (elapsedMs c now)
      = 16 / ((elapsedMs c now : ℚ) / 50) * (1609344 / 1000000) := by
    rw [hbase]
    unfold speedCandidate
    norm_num
  refine ⟨hk, ?_⟩
  rw [update_in_window c now 10 hhave hlo hhi, hk]
  rfl

/-- The sample of counter 10 taken 50 ms after the baseline of counter 65530,
with no speed emitted before, emits 16 * 1.609344 km/h. -/
theorem speed_wraparound_delta_is_16_witness :
    wrapListener.updateSpeedFromCounter ⟨1050000000⟩ 10 =
      ({ wrapListener with
          speedLastCnt := 10
          speedLastAt := ⟨1050000000⟩
          speedLastKmh := 16 / (((50 : Int) : ℚ) / 50) * (1609344 / 1000000)
          speedLastUpdate := ⟨1050000000⟩ }).emit "speedKmh"
        (16 / (((50 : Int) : ℚ) / 50) * (1609344 / 1000000)) := by
  have h := (speed_wraparound_delta_is_16 wrapListener ⟨1050000000⟩ rfl rfl
    (by decide) (by decide)).2
  have h1 : elapsedMs wrapListener ⟨1050000000⟩ = 50 := by decide
  have hz : wrapListener.speedLastUpdate.IsZero = true := rfl
  rw [if_pos (Or.inl hz), h1] at h
  exact h

/-- Counterexample to claim C6 as stated: a sample taken 2000.5 ms after the
baseline, which is above 2000 ms, emits a reading and records a new time of
last emission. -/
theorem speed_sample_after_2000500us_emits :
    gapListener.speedHave = true ∧
    Time.Sub ⟨3000500000⟩ gapListener.speedLastAt > 2000 * Millisecond ∧
    (gapListener.updateSpeedFromCounter ⟨3000500000⟩ 40).outChan
      = [{ Name := "speedKmh", Value := 1609344 / 1000000 }] ∧
    (gapListener.updateSpeedFromCounter ⟨3000500000⟩ 40).speedLastUpdate
      ≠ gapListener.speedLastUpdate := by
  have h1 : elapsedMs gapListener ⟨3000500000⟩ = 2000 := by decide
  have h := update_in_window gapListener ⟨3000500000⟩ 40 rfl (by decide) (by decide)
  have hz : gapListener.speedLastUpdate.IsZero = true := rfl
  rw [if_pos (Or.inl hz), h1] at h
  rw [h]
  refine ⟨rfl, by decide, ?_, ?_⟩
  · rw [emit_outChan _ _ _ (by decide)]
    simp [rebased, gapListener, NewCanListener, speedCandidate]
    norm_num
  · rw [(emit_fields _ _ _).2.1]
    decide

/-- Claim C6, amended. For every speed-filter state that has a baseline and every
new sample whose elapsed time since the baseline is below 50 ms or at least
2001 ms (in whole milliseconds: below 50 or above 2000), `updateSpeedFromCounter`
emits no reading, sets the baseline to the new sample (counter and timestamp),
and leaves the last-emitted speed and the last-emit time unchanged. -/
theorem speed_out_of_window_resets_baseline (c : CanListener) (now : Time) (cnt : Nat)
    (hhave : c.speedHave = true)
    (hout : now.Sub c.speedLastAt < 50 * Millisecond ∨
      now.Sub c.speedLastAt ≥ 2001 * Millisecond) :
    c.updateSpeedFromCounter now cnt = { c with speedLastCnt := cnt, speedLastAt := now } ∧
    (c.updateSpeedFromCounter now cnt).outChan = c.outChan ∧
    (c.updateSpeedFromCounter now cnt).speedLastCnt = cnt ∧
    (c.updateSpeedFromCounter now cnt).speedLastAt = now ∧
    (c.updateSpeedFromCounter now cnt).speedLastKmh = c.speedLastKmh ∧
    (c.updateSpeedFromCounter now cnt).speedLastUpdate = c.speedLastUpdate := by
  have hw := milliseconds_window (now.Sub c.speedLastAt)
  have hms : Duration.Milliseconds (now.Sub c.speedLastAt) < 50 ∨
      Duration.Milliseconds (now.Sub c.speedLastAt) > 2000 := by
    rcases hout with h | h
    · exact Or.inl (hw.1.2 h)
    · exact Or.inr (hw.2.2 h)
  have h : c.updateSpeedFromCounter now cnt
      = { c with speedLastCnt := cnt, speedLastAt := now } := by
    unfold CanListener.updateSpeedFromCounter
    simp only [hhave, Bool.not_true, Bool.false_eq_true, if_false, hms, if_true]
  rw [h]
  exact ⟨rfl, rfl, rfl, rfl, rfl, rfl⟩

/-- A sample taken 2001 ms after the baseline only moves the baseline. -/
theorem speed_out_of_window_resets_baseline_witness :
    gapListener.updateSpeedFromCounter ⟨3001000000⟩ 40
      = { gapListener with speedLastCnt := 40, speedLastAt := ⟨3001000000⟩ } :=
  (speed_out_of_window_resets_baseline gapListener ⟨3001000000⟩ 40 rfl (Or.inr (by decide))).1

/-! ## State aggregator and publish loop -/

theorem mapGet_mapDelete_self {α : Type} (k : String) (m : List (String × α)) :
    mapGet k (mapDelete k m) = none := by
  induction m with
  | nil => rfl
  | cons e m ih =>
    obtain ⟨a, b⟩ := e
    by_cases h : a = k
    · subst h
      simpa [mapGet, mapDelete, List.filter] using ih
    · have hb : (a != k) = true := by simpa using h
      have hk : (k == a) = false := by simpa using fun h' => h h'.symm
      simp only [mapGet, mapDelete, List.filter, hb, List.lookup, hk]
      exact ih

theorem mapGet_mapDelete_other {α : Type} (k k' : String) (h : k' ≠ k) (m : List (String × α)) :
    mapGet k' (mapDelete k m) = mapGet k' m := by
  induction m with
  | nil => rfl
  | cons e m ih =>
    obtain ⟨a, b⟩ := e
    by_cases ha : a = k
    · subst ha
      have hk : (k' == a) = false := by simpa using h
      simp only [mapGet, mapDelete, List.filter, bne_self_eq_false, List.lookup, hk]
      exact ih
    · have hb : (a != k) = true := by simpa using ha
      simp only [mapGet, mapDelete, List.filter, hb, List.lookup]
      cases hka : (k' == a)
      · exact ih
      · rfl

theorem mapGet_mapSet_self {α : Type} (k : String) (v : α) (m : List (String × α)) :
    mapGet k (mapSet k v m) = some v := by
  simp [mapGet, mapSet, List.lookup]

theorem mapGet_mapSet_other {α : Type} (k k' : String) (v : α) (h : k' ≠ k)
    (m : List (String × α)) : mapGet k' (mapSet k v m) = mapGet k' m := by
  have hk : (k' == k) = false := by simpa using h
  simp only [mapGet, mapSet, List.lookup, hk]
  exact mapGet_mapDelete_other k k' h m

theorem mapCount_mapDelete_self {α : Type} (k : String) (m : List (String × α)) :
    mapCount k (mapDelete k m) = 0 := by
  simp [mapCount, mapDelete, List.filter_filter]

theorem mapCount_mapDelete_other {α : Type} (k k' : String) (h : k' ≠ k)
    (m : List (String × α)) : mapCount k' (mapDelete k m) = mapCount k' m := by
  simp only [mapCount, mapDelete, List.filter_filter]
  congr 1
  apply List.filter_congr
  intro e _
  by_cases he : e.1 = k'
  · simp [he, h]
  · simp [he]

theorem mapCount_mapSet_self {α : Type} (k : String) (v : α) (m : List (String × α)) :
    mapCount k (mapSet k v m) = 1 := by
  have h := mapCount_mapDelete_self k m
  simp only [mapCount] at h
  simp [mapCount, mapSet, List.filter, h]

theorem mapCount_mapSet_other {α : Type} (k k' : String) (v : α) (h : k' ≠ k)
    (m : List (String × α)) : mapCount k' (mapSet k v m) = mapCount k' m := by
  have hk : (k == k') = false := by simpa using fun h' => h h'.symm
  have h2 := mapCount_mapDelete_other k k' h m
  simp only [mapCount] at h2
  simp [mapCount, mapSet, List.filter, hk, h2]

theorem consume_dirty (s : Server) (r : Reading) : (s.consumeReading r).dirty = true := rfl

theorem refreshHealth_dirty (s : Server) (st : CanStatus) :
    (s.refreshHealth st).dirty = s.dirty := rfl

theorem ConsumeReadings_dirty (s : Server) (rs : List Reading) (h : rs ≠ []) :
    (s.ConsumeReadings rs).dirty = true := by
  induction rs using List.reverseRecOn with
  | nil => exact absurd rfl h
  | append_singleton rs r _ =>
    simp [Server.ConsumeReadings, List.foldl_append, consume_dirty]

theorem afterTicks_dirty (s : Server) (sts : List CanStatus) (h : s.dirty = false) :
    (afterTicks s sts).dirty = false := by
  induction sts generalizing s with
  | nil => exact h
  | cons st sts ih => exact ih _ rfl

/-- Claim C8. State aggregator, last value wins and take-and-reset: for every
snapshot, name `n` and values `v1`, `v2`, merging the reading `(n, v1)` and then
`(n, v2)` leaves `n` mapped to `v2` with exactly one entry for `n`, leaves every
other key unchanged, and sets the dirty flag; `takeDirty` returns the current flag
and clears it without touching the snapshot; after any non-empty burst of merges
the first `takeDirty` returns true and every further one, whatever publish passes
lie in between, returns false until the next merge. Merging rpm = 3000 and then
rpm = 3200 into the empty snapshot leaves only rpm = 3200. -/
theorem aggregator_last_value_wins_and_take_resets (s : Server) (n : String) (v1 v2 : ℚ) :
    (mapGet n (s.ConsumeReadings [⟨n, v1⟩, ⟨n, v2⟩]).state = some (Any.float32 v2) ∧
     mapCount n (s.ConsumeReadings [⟨n, v1⟩, ⟨n, v2⟩]).state = 1 ∧
     (∀ k, k ≠ n →
        mapGet k (s.ConsumeReadings [⟨n, v1⟩, ⟨n, v2⟩]).state = mapGet k s.state ∧
        mapCount k (s.ConsumeReadings [⟨n, v1⟩, ⟨n, v2⟩]).state = mapCount k s.state) ∧
     (s.ConsumeReadings [⟨n, v1⟩, ⟨n, v2⟩]).dirty = true) ∧
    (s.takeDirty.1 = s.dirty ∧ s.takeDirty.2.dirty = false ∧ s.takeDirty.2.state = s.state) ∧
    (∀ rs : List Reading, rs ≠ [] →
      (s.ConsumeReadings rs).takeDirty.1 = true ∧
      ∀ sts : List CanStatus,
        (afterTicks (s.ConsumeReadings rs).takeDirty.2 sts).takeDirty.1 = false) ∧
    (NewServer.ConsumeReadings [⟨"rpm", 3000⟩, ⟨"rpm", 3200⟩]).state
      = [("rpm", Any.float32 3200)] := by
  refine ⟨⟨?_, ?_, ?_, rfl⟩, ⟨rfl, rfl, rfl⟩, ?_, ?_⟩
  · exact mapGet_mapSet_self _ _ _
  · exact mapCount_mapSet_self _ _ _
  · intro k hk
    constructor
    · show mapGet k (mapSet n _ (mapSet n _ s.state)) = _
      rw [mapGet_mapSet_other _ _ _ hk, mapGet_mapSet_other _ _ _ hk]
    · show mapCount k (mapSet n _ (mapSet n _ s.state)) = _
      rw [mapCount_mapSet_other _ _ _ hk, mapCount_mapSet_other _ _ _ hk]
  · intro rs hrs
    refine ⟨ConsumeReadings_dirty s rs hrs, ?_⟩
    intro sts
    exact afterTicks_dirty _ sts rfl
  · decide

/-- After rpm = 3000 and rpm = 3200 the key "speedKmh" is still absent, and the
flag taken after a burst of one merge is true. -/
theorem aggregator_last_value_wins_and_take_resets_witness :
    mapGet "speedKmh" (NewServer.ConsumeReadings [⟨"rpm", 3000⟩, ⟨"rpm", 3200⟩]).state = none ∧
    (NewServer.ConsumeReadings [⟨"rpm", 3000⟩]).takeDirty.1 = true :=
  ⟨(((aggregator_last_value_wins_and_take_resets NewServer "rpm" 3000 3200).1.2.2.1 "speedKmh" (by decide)).1).trans rfl,
   ((aggregator_last_value_wins_and_take_resets NewServer "rpm" 3000 3200).2.2.1 [⟨"rpm", 3000⟩] (by simp)).1⟩

/-- Counterexample to claim C9 as stated: on the first pass of the publish loop
of a new server, with the status of a listener not yet started, the health
refresh mutates the snapshot (it gains `can_ok` and `can_err`), nothing is
published, and the dirty flag is false. -/
theorem dirty_flag_false_after_health_mutation :
    mapGet "can_ok" NewServer.state = none ∧
    mapGet "can_ok" (Traced.run [Op.tick ⟨false, "not started"⟩ true]).srv.state
      = some (Any.int 0) ∧
    (NewServer.publishTick ⟨false, "not started"⟩ true).2 = Publish.skip ∧
    (Traced.run [Op.tick ⟨false, "not started"⟩ true]).mutated = true ∧
    (Traced.run [Op.tick ⟨false, "not started"⟩ true]).srv.dirty = false := by
  decide

theorem step_dirty (t : Traced) (op : Op) :
    (t.step op).srv.dirty = (t.step op).merged := by
  cases op with
  | merge r => rfl
  | tick st writeOk =>
    simp only [Traced.step, Server.publishTick, Server.takeDirty]
    split_ifs <;> rfl

/-- Claim C9, amended. In every state reachable from a new server by merging
readings and by passes of the publish loop (health refresh, take-dirty, publish
attempt), the dirty flag is true if and only if at least one reading was merged
since the last take-dirty; a health refresh, also one that changes `can_ok` or
`can_err`, leaves the flag as it was. -/
theorem dirty_flag_iff_merged_since_take (ops : List Op) :
    (Traced.run ops).srv.dirty = (Traced.run ops).merged ∧
    ∀ (s : Server) (st : CanStatus), (s.refreshHealth st).dirty = s.dirty := by
  refine ⟨?_, fun _ _ => rfl⟩
  unfold Traced.run
  induction ops using List.reverseRecOn with
  | nil => rfl
  | append_singleton ops op _ =>
    rw [List.foldl_append]
    exact step_dirty _ op

/-- Counterexample to claim C10 as stated: for the unhealthy status with an empty
detail the refreshed snapshot does not contain `can_err`. -/
theorem refreshHealth_unhealthy_without_can_err :
    (CanStatus.mk false "").OK = false ∧
    mapGet "can_err" (NewServer.refreshHealth ⟨false, ""⟩).state = none := by
  decide

/-- Claim C10, amended. Health refresh on each publish pass: for every snapshot
and every acquisition status (healthy, detail), after the refresh the snapshot
maps `can_ok` to 1 if healthy and 0 otherwise, contains `can_err` (equal to
detail) exactly when the detail is not empty and does not contain `can_err` when
the detail is empty, and every key other than `can_ok` and `can_err` is
unchanged. -/
theorem refreshHealth_sets_health_fields (s : Server) (st : CanStatus) :
    mapGet "can_ok" (s.refreshHealth st).state = some (Any.int (if st.OK then 1 else 0)) ∧
    (st.Err ≠ "" → mapGet "can_err" (s.refreshHealth st).state = some (Any.string st.Err)) ∧
    (st.Err = "" → mapGet "can_err" (s.refreshHealth st).state = none) ∧
    (∀ k, k ≠ "can_ok" → k ≠ "can_err" →
      mapGet k (s.refreshHealth st).state = mapGet k s.state) := by
  have hok : Any.int (boolToNum st.OK) = Any.int (if st.OK then 1 else 0) := by
    cases st.OK <;> rfl
  by_cases he : st.Err = ""
  · have hs : (s.refreshHealth st).state
        = mapDelete "can_err" (mapSet "can_ok" (Any.int (boolToNum st.OK)) s.state) := by
      simp [Server.refreshHealth, he]
    rw [hs]
    refine ⟨?_, fun h => absurd he h, fun _ => mapGet_mapDelete_self _ _, ?_⟩
    · rw [mapGet_mapDelete_other _ _ (by decide), mapGet_mapSet_self, hok]
    · intro k h1 h2
      rw [mapGet_mapDelete_other _ _ h2, mapGet_mapSet_other _ _ _ h1]
  · have hs : (s.refreshHealth st).state
        = mapSet "can_err" (Any.string st.Err)
            (mapSet "can_ok" (Any.int (boolToNum st.OK)) s.state) := by
      simp [Server.refreshHealth, he]
    rw [hs]
    refine ⟨?_, fun _ => mapGet_mapSet_self _ _ _, fun h => absurd h he, ?_⟩
    · rw [mapGet_mapSet_other _ _ _ (by decide), mapGet_mapSet_self, hok]
    · intro k h1 h2
      rw [mapGet_mapSet_other _ _ _ h2, mapGet_mapSet_other _ _ _ h1]

/-- The status "simulated" of the simulation mode puts `can_err` into the snapshot. -/
theorem refreshHealth_sets_health_fields_witness :
    mapGet "can_err" (NewServer.refreshHealth ⟨false, "simulated"⟩).state
      = some (Any.string "simulated") :=
  (refreshHealth_sets_health_fields NewServer ⟨false, "simulated"⟩).2.1 (by decide)

/-! ## Decode table: field layouts -/

theorem shiftLeft_or_eq_add (hi lo i : Nat) (h : lo < 2 ^ i) :
    (hi <<< i) ||| lo = 2 ^ i * hi + lo := by
  rw [Nat.or_comm, or_shiftLeft_eq_add lo hi i h, Nat.add_comm]

theorem exists_one_byte (d : List Byte) (h : 1 ≤ d.length) : ∃ b0 tl, d = b0 :: tl := by
  match d, h with
  | b0 :: tl, _ => exact ⟨b0, tl, rfl⟩

theorem exists_two_bytes (d : List Byte) (h : 2 ≤ d.length) :
    ∃ b0 b1 tl, d = b0 :: b1 :: tl := by
  match d, h with
  | b0 :: b1 :: tl, _ => exact ⟨b0, b1, tl, rfl⟩

theorem exists_three_bytes (d : List Byte) (h : 3 ≤ d.length) :
    ∃ b0 b1 b2 tl, d = b0 :: b1 :: b2 :: tl := by
  match d, h with
  | b0 :: b1 :: b2 :: tl, _ => exact ⟨b0, b1, b2, tl, rfl⟩

theorem exists_four_bytes (d : List Byte) (h : 4 ≤ d.length) :
    ∃ b0 b1 b2 b3 tl, d = b0 :: b1 :: b2 :: b3 :: tl := by
  match d, h with
  | b0 :: b1 :: b2 :: b3 :: tl, _ => exact ⟨b0, b1, b2, b3, tl, rfl⟩

theorem exists_eight_bytes (d : List Byte) (h : 8 ≤ d.length) :
    ∃ b0 b1 b2 b3 b4 b5 b6 b7 tl, d = b0 :: b1 :: b2 :: b3 :: b4 :: b5 :: b6 :: b7 :: tl := by
  match d, h with
  | b0 :: b1 :: b2 :: b3 :: b4 :: b5 :: b6 :: b7 :: tl, _ =>
    exact ⟨b0, b1, b2, b3, b4, b5, b6, b7, tl, rfl⟩

theorem parse_0AA_eq (d : List Byte) (h : 8 ≤ d.length) :
    parse_0AA d = some
      ([("rpm", ((byteAt d 4 + 256 * byteAt d 5 : Nat) : ℚ) / 4),
        ("throttleRaw", ((byteAt d 2 + 256 * byteAt d 3 : Nat) : ℚ)),
        ("throttlePct", throttlePct (byteAt d 2 + 256 * byteAt d 3)),
        ("accelByte7", (byteAt d 7 : ℚ))], true) := by
  obtain ⟨b0, b1, b2, b3, b4, b5, b6, b7, tl, rfl⟩ := exists_eight_bytes d h
  have h4 := b4.isLt; have h5 := b5.isLt; have h2 := b2.isLt; have h3 := b3.isLt
  have e1 : ((b5.val <<< 8) ||| b4.val) % 2 ^ 16 = b4.val + 256 * b5.val := by
    rw [shiftLeft_or_eq_add _ _ 8 (by omega)]; omega
  have e2 : ((b3.val <<< 8) ||| b2.val) % 2 ^ 16 = b2.val + 256 * b3.val := by
    rw [shiftLeft_or_eq_add _ _ 8 (by omega)]; omega
  simp only [Nat.reducePow] at e1 e2
  simp [parse_0AA, byteAt, e1, e2, show ¬ (tl.length + 1 + 1 + 1 + 1 + 1 + 1 + 1 + 1 < 8) from by omega]

/-- Counterexample to claim C11 as stated: for the payload whose byte 4 is 1 and
whose other bytes are 0, the decoder of `0x0AA` gives rpm = 1/4, not
(1 * 256 + 0) / 4. -/
theorem rpm_is_not_big_endian :
    ∃ q, parse_0AA [0, 0, 0, 0, 1, 0, 0, 0] = some (q, true) ∧
      mapGet "rpm" q = some (1 / 4) ∧
      mapGet "rpm" q ≠
        some (((byteAt [0, 0, 0, 0, 1, 0, 0, 0] 4 * 256 + byteAt [0, 0, 0, 0, 1, 0, 0, 0] 5 : Nat) : ℚ) / 4) := by
  refine ⟨_, parse_0AA_eq _ (by decide), ?_, ?_⟩
  · simp [mapGet, List.lookup, byteAt]
  · simp [mapGet, List.lookup, byteAt]
    norm_num

/-- Claim C11, amended. For every payload `d` of at least 8 bytes, the "rpm"
quantity of the decoder of `0x0AA` equals the 16-bit little-endian value of its
RPM field (bytes 4..5, that is `d[4] + 256 * d[5]`) divided by the fixed divisor 4. -/
theorem rpm_is_little_endian_over_four (d : List Byte) (h : 8 ≤ d.length) :
    ∃ q, parse_0AA d = some (q, true) ∧
      mapGet "rpm" q = some (((byteAt d 4 + 256 * byteAt d 5 : Nat) : ℚ) / 4) := by
  refine ⟨_, parse_0AA_eq d h, ?_⟩
  simp [mapGet, List.lookup]

/-- The payload with bytes 4..5 = `0x10 0x27` (10000 little-endian) decodes to
rpm = 2500. -/
theorem rpm_is_little_endian_over_four_witness :
    ∃ q, parse_0AA [0, 0, 0, 0, 0x10, 0x27, 0, 0] = some (q, true) ∧
      mapGet "rpm" q = some (((byteAt [0, 0, 0, 0, 0x10, 0x27, 0, 0] 4
        + 256 * byteAt [0, 0, 0, 0, 0x10, 0x27, 0, 0] 5 : Nat) : ℚ) / 4) :=
  rpm_is_little_endian_over_four [0, 0, 0, 0, 0x10, 0x27, 0, 0] (by decide)

theorem throttlePct_low (raw : Nat) (h : raw ≤ 255) : throttlePct raw = 0 := by
  simp [throttlePct, h]

theorem throttlePct_mid (raw : Nat) (h1 : 255 < raw) (h2 : raw < 65064) :
    throttlePct raw = ((raw : ℚ) - 255) / (65064 - 255) * 100 := by
  have q1 : (255 : ℚ) < (raw : ℚ) := by exact_mod_cast h1
  have q2 : (raw : ℚ) < 65064 := by exact_mod_cast h2
  have hx0 : ¬ (((raw : ℚ) - 255) / (65064 - 255) < 0) := by
    rw [not_lt]
    apply div_nonneg <;> linarith
  have hx1 : ¬ (((raw : ℚ) - 255) / (65064 - 255) > 1) := by
    rw [gt_iff_lt, not_lt, div_le_one (by norm_num)]
    linarith
  simp only [throttlePct, show ¬ raw ≤ 255 from by omega, if_false, hx0, hx1]

theorem throttlePct_high (raw : Nat) (h : 65064 ≤ raw) : throttlePct raw = 100 := by
  have q2 : (65064 : ℚ) ≤ (raw : ℚ) := by exact_mod_cast h
  have hx0 : ¬ (((raw : ℚ) - 255) / (65064 - 255) < 0) := by
    rw [not_lt]
    apply div_nonneg <;> linarith
  by_cases hx1 : ((raw : ℚ) - 255) / (65064 - 255) > 1
  · simp only [throttlePct, show ¬ raw ≤ 255 from by omega, if_false, hx0, hx1, if_true]
    norm_num
  · have hle : ((raw : ℚ) - 255) / (65064 - 255) ≤ 1 := not_lt.mp hx1
    rw [div_le_one (by norm_num)] at hle
    have hraw : (raw : ℚ) = 65064 := by linarith
    simp only [throttlePct, show ¬ raw ≤ 255 from by omega, if_false, hx0, hx1, hraw]
    norm_num

theorem throttlePct_range (raw : Nat) : 0 ≤ throttlePct raw ∧ throttlePct raw ≤ 100 := by
  by_cases h1 : raw ≤ 255
  · rw [throttlePct_low raw h1]; norm_num
  · by_cases h2 : raw < 65064
    · rw [throttlePct_mid raw (by omega) h2]
      have q1 : (255 : ℚ) < (raw : ℚ) := by exact_mod_cast (show 255 < raw by omega)
      have q2 : (raw : ℚ) < 65064 := by exact_mod_cast h2
      constructor
      · apply mul_nonneg _ (by norm_num)
        apply div_nonneg <;> linarith
      · rw [div_mul_eq_mul_div, div_le_iff₀ (by norm_num)]
        linarith
    · rw [throttlePct_high raw (by omega)]; norm_num

theorem throttlePct_mono (r1 r2 : Nat) (h : r1 ≤ r2) : throttlePct r1 ≤ throttlePct r2 := by
  by_cases a1 : r1 ≤ 255
  · rw [throttlePct_low r1 a1]; exact (throttlePct_range r2).1
  · by_cases b2 : 65064 ≤ r2
    · rw [throttlePct_high r2 b2]; exact (throttlePct_range r1).2
    · rw [throttlePct_mid r1 (by omega) (by omega), throttlePct_mid r2 (by omega) (by omega)]
      have q : (r1 : ℚ) ≤ (r2 : ℚ) := by exact_mod_cast h
      apply mul_le_mul_of_nonneg_right _ (by norm_num)
      apply div_le_div_of_nonneg_right _ (by norm_num)
      linarith

/-- Claim C12. For every payload `d` of at least 8 bytes, the "throttlePct" of the
decoder of `0x0AA` lies in [0, 100] and is the clamped piecewise-linear map of
`raw = d[2] + 256 * d[3]`: 0 for `raw <= 255`, 100 for `raw >= 65064`, and
`(raw - 255) / (65064 - 255) * 100` in between; it is monotonically
non-decreasing in `raw` (over exact rational arithmetic). -/
theorem throttlePct_clamped_piecewise_linear (d : List Byte) (h : 8 ≤ d.length) :
    (∃ q, parse_0AA d = some (q, true) ∧
      mapGet "throttlePct" q = some (throttlePct (byteAt d 2 + 256 * byteAt d 3))) ∧
    (0 ≤ throttlePct (byteAt d 2 + 256 * byteAt d 3) ∧
      throttlePct (byteAt d 2 + 256 * byteAt d 3) ≤ 100) ∧
    (∀ raw : Nat,
      (raw ≤ 255 → throttlePct raw = 0) ∧
      (65064 ≤ raw → throttlePct raw = 100) ∧
      (255 < raw → raw < 65064 →
        throttlePct raw = ((raw : ℚ) - 255) / (65064 - 255) * 100)) ∧
    (∀ r1 r2 : Nat, r1 ≤ r2 → throttlePct r1 ≤ throttlePct r2) := by
  refine ⟨⟨_, parse_0AA_eq d h, ?_⟩, throttlePct_range _, ?_, throttlePct_mono⟩
  · simp [mapGet, List.lookup]
  · intro raw
    exact ⟨throttlePct_low raw, throttlePct_high raw, throttlePct_mid raw⟩

/-- The payload with bytes 2..3 = `0xFF 0xFF` decodes, with the throttle of raw 65535. -/
theorem throttlePct_clamped_piecewise_linear_witness :
    ∃ q, parse_0AA [0, 0, 0xFF, 0xFF, 0, 0, 0, 0] = some (q, true) ∧
      mapGet "throttlePct" q = some (throttlePct (byteAt [0, 0, 0xFF, 0xFF, 0, 0, 0, 0] 2
        + 256 * byteAt [0, 0, 0xFF, 0xFF, 0, 0, 0, 0] 3)) :=
  (throttlePct_clamped_piecewise_linear [0, 0, 0xFF, 0xFF, 0, 0, 0, 0] (by decide)).1

theorem and_15_eq_mod (n : Nat) : n &&& 0x0F = n % 16 := by
  have := Nat.and_pow_two_sub_one_eq_mod n 4
  simpa using this

theorem raw_362_arith (d : List Byte) :
    rawMph d = byteAt d 0 + 256 * (byteAt d 1 % 16) ∧
    rawMpg d = byteAt d 1 / 16 + 16 * byteAt d 2 := by
  have h0 : byteAt d 0 < 256 := (d.getD 0 0).isLt
  have h1 : byteAt d 1 < 256 := (d.getD 1 0).isLt
  have h2 : byteAt d 2 < 256 := (d.getD 2 0).isLt
  constructor
  · rw [rawMph, and_15_eq_mod, shiftLeft_or_eq_add _ _ 8 (by omega)]
    omega
  · rw [rawMpg, Nat.shiftRight_eq_div_pow, shiftLeft_or_eq_add _ _ 4 (by omega)]
    omega

theorem parse_362_eq (d : List Byte) (h : 3 ≤ d.length) :
    parse_362 d = some
      ([("avgMpgUk", (rawMpg d : ℚ) / 10), ("avgMph", (rawMph d : ℚ) / 10),
        ("avgKmh", (rawMph d : ℚ) / 10 * (1609344 / 1000000))], true) := by
  obtain ⟨b0, b1, b2, tl, rfl⟩ := exists_three_bytes d h
  have h1 := b1.isLt
  have e1 : (b1.val >>> 4) % 2 ^ 8 = b1.val >>> 4 := by
    rw [Nat.shiftRight_eq_div_pow]; omega
  have e2 : (b1.val &&& 0x0F) % 2 ^ 8 = b1.val &&& 0x0F := by
    rw [and_15_eq_mod]; omega
  simp only [Nat.reducePow] at e1 e2
  simp [parse_362, rawMph, rawMpg, byteAt, e1, e2,
    show ¬ (tl.length + 1 + 1 + 1 < 3) from by omega]

/-- Claim C20. The decoder of `0x362` splits the first three payload bytes
losslessly into two 12-bit values: for every payload `d` of at least 3 bytes,
`rawMph = ((d[1] & 0x0F) << 8) | d[0]` and `rawMpg = (d[2] << 4) | (d[1] >> 4)`
lie in 0..4095 and `rawMph + 4096 * rawMpg = d[0] + 256 * d[1] + 65536 * d[2]`, so
distinct 3-byte prefixes give distinct pairs; the published avgMph is
`rawMph / 10` and avgMpgUk is `rawMpg / 10`; bytes beyond the third do not
influence the result. -/
theorem decoder_362_splits_three_bytes (d : List Byte) (h : 3 ≤ d.length) :
    (rawMph d < 4096 ∧ rawMpg d < 4096 ∧
      rawMph d + 4096 * rawMpg d = byteAt d 0 + 256 * byteAt d 1 + 65536 * byteAt d 2) ∧
    (∀ d' : List Byte, 3 ≤ d'.length → rawMph d' = rawMph d → rawMpg d' = rawMpg d →
      d'.take 3 = d.take 3) ∧
    (∃ q, parse_362 d = some (q, true) ∧
      mapGet "avgMph" q = some ((rawMph d : ℚ) / 10) ∧
      mapGet "avgMpgUk" q = some ((rawMpg d : ℚ) / 10)) ∧
    parse_362 d = parse_362 (d.take 3) := by
  have h0 : byteAt d 0 < 256 := (d.getD 0 0).isLt
  have h1 : byteAt d 1 < 256 := (d.getD 1 0).isLt
  have h2 : byteAt d 2 < 256 := (d.getD 2 0).isLt
  obtain ⟨a1, a2⟩ := raw_362_arith d
  refine ⟨⟨by omega, by omega, by omega⟩, ?_, ?_, ?_⟩
  · intro d' h' e1 e2
    obtain ⟨c1, c2⟩ := raw_362_arith d'
    have g0 : byteAt d' 0 < 256 := (d'.getD 0 0).isLt
    have g1 : byteAt d' 1 < 256 := (d'.getD 1 0).isLt
    have g2 : byteAt d' 2 < 256 := (d'.getD 2 0).isLt
    have k0 : byteAt d' 0 = byteAt d 0 := by omega
    have k1 : byteAt d' 1 = byteAt d 1 := by omega
    have k2 : byteAt d' 2 = byteAt d 2 := by omega
    obtain ⟨b0, b1, b2, tl, rfl⟩ := exists_three_bytes d h
    obtain ⟨b0', b1', b2', tl', rfl⟩ := exists_three_bytes d' h'
    simp only [byteAt, List.getD_cons_zero, List.getD_cons_succ] at k0 k1 k2
    simp [Fin.ext k0, Fin.ext k1, Fin.ext k2]
  · refine ⟨_, parse_362_eq d h, ?_, ?_⟩
    · simp [mapGet, List.lookup]
    · simp [mapGet, List.lookup]
  · have ht : 3 ≤ (d.take 3).length := by simp; omega
    rw [parse_362_eq d h, parse_362_eq _ ht]
    obtain ⟨b0, b1, b2, tl, rfl⟩ := exists_three_bytes d h
    simp [rawMph, rawMpg, byteAt]

/-- The bytes `01 02 03` split into two values that recombine to `0x030201`, and a
fourth byte changes nothing. -/
theorem decoder_362_splits_three_bytes_witness :
    rawMph [0x01, 0x02, 0x03] + 4096 * rawMpg [0x01, 0x02, 0x03] = 0x030201 ∧
    parse_362 [0x01, 0x02, 0x03, 0xFF] = parse_362 ([0x01, 0x02, 0x03, 0xFF].take 3) :=
  ⟨((decoder_362_splits_three_bytes [0x01, 0x02, 0x03] (by decide)).1.2.2).trans (by decide),
   (decoder_362_splits_three_bytes [0x01, 0x02, 0x03, 0xFF] (by decide)).2.2.2⟩

/-! ## Engine lifecycle -/

/-- Claim C16. `Stop` is idempotent: on an engine that is not running it changes
nothing, so a new engine keeps the status (false, "not started"); on a running
engine it signals the active run, clears the running flag and records the status
(false, "stopped"); for every engine state, `Stop` after `Stop` yields the state
of a single `Stop`. -/
theorem stop_is_idempotent (c : CanListener) :
    (c.isRunning = false → c.Stop = c) ∧
    ((NewCanListener "can0").Stop.status = { OK := false, Err := "not started" } ∧
      (NewCanListener "can0").Stop.isRunning = false) ∧
    (c.isRunning = true →
      c.Stop.stopChan = c.stopChan + 1 ∧ c.Stop.isRunning = false ∧
      c.Stop.status = { OK := false, Err := "stopped" }) ∧
    (c.Stop.Stop = c.Stop) := by
  refine ⟨?_, ⟨rfl, rfl⟩, ?_, ?_⟩
  · intro h
    simp [CanListener.Stop, h]
  · intro h
    simp [CanListener.Stop, h, CanListener.setStatus]
  · cases h : c.isRunning
    · simp [CanListener.Stop, h]
    · simp [CanListener.Stop, h, CanListener.setStatus]

/-- Stopping a running engine closes one stop channel and records "stopped". -/
theorem stop_is_idempotent_witness :
    runningListener.Stop.stopChan = 1 ∧ runningListener.Stop.isRunning = false ∧
    runningListener.Stop.status = { OK := false, Err := "stopped" } :=
  (stop_is_idempotent runningListener).2.2.1 rfl

/-! ## Speed estimator: formula and bounds -/

theorem wrapped_delta_bounds (c0 c1 : Nat) :
    (0 : ℚ) ≤ ((((c1 : Int) - (c0 : Int)) % 65536 : Int) : ℚ) ∧
    ((((c1 : Int) - (c0 : Int)) % 65536 : Int) : ℚ) ≤ 65535 := by
  have h0 : 0 ≤ ((c1 : Int) - (c0 : Int)) % 65536 := Int.emod_nonneg _ (by norm_num)
  have h1 : ((c1 : Int) - (c0 : Int)) % 65536 < 65536 := Int.emod_lt_of_pos _ (by norm_num)
  have h2 : ((c1 : Int) - (c0 : Int)) % 65536 ≤ 65535 := by omega
  exact ⟨by exact_mod_cast h0, by exact_mod_cast h2⟩

theorem speedCandidate_bounds (c0 c1 : Nat) (ms : Int) (hlo : 50 ≤ ms) :
    1 ≤ (ms : ℚ) / 50 ∧
    0 ≤ ((((c1 : Int) - (c0 : Int)) % 65536 : Int) : ℚ) / ((ms : ℚ) / 50) ∧
    0 ≤ speedCandidate c0 c1 ms ∧
    speedCandidate c0 c1 ms ≤ 65535 * (1609344 / 1000000) := by
  obtain ⟨d0, d1⟩ := wrapped_delta_bounds c0 c1
  have hq : (50 : ℚ) ≤ (ms : ℚ) := by exact_mod_cast hlo
  have hs : (1 : ℚ) ≤ (ms : ℚ) / 50 := by
    rw [le_div_iff₀ (by norm_num)]; linarith
  have hpos : (0 : ℚ) < (ms : ℚ) / 50 := by linarith
  have hr0 : 0 ≤ ((((c1 : Int) - (c0 : Int)) % 65536 : Int) : ℚ) / ((ms : ℚ) / 50) :=
    div_nonneg d0 hpos.le
  have hr1 : ((((c1 : Int) - (c0 : Int)) % 65536 : Int) : ℚ) / ((ms : ℚ) / 50) ≤ 65535 := by
    rw [div_le_iff₀ hpos]
    nlinarith
  refine ⟨hs, hr0, ?_, ?_⟩
  · unfold speedCandidate
    exact mul_nonneg hr0 (by norm_num)
  · unfold speedCandidate
    exact mul_le_mul_of_nonneg_right hr1 (by norm_num)

theorem emit_outChan_cases (c : CanListener) (name : String) (v : ℚ) :
    (c.emit name v).outChan = c.outChan ∨
    (c.emit name v).outChan = c.outChan ++ [{ Name := name, Value := v }] := by
  unfold CanListener.emit
  split
  · exact Or.inr rfl
  · exact Or.inl rfl

theorem update_outChan (c : CanListener) (now : Time) (cnt : Nat) :
    (c.updateSpeedFromCounter now cnt).outChan = c.outChan ∨
    ∃ k : ℚ, 0 ≤ k ∧ k ≤ 65535 * (1609344 / 1000000) ∧
      (c.updateSpeedFromCounter now cnt).outChan
        = c.outChan ++ [{ Name := "speedKmh", Value := k }] := by
  by_cases hhave : c.speedHave = true
  · by_cases hwin : 50 ≤ elapsedMs c now ∧ elapsedMs c now ≤ 2000
    · rw [update_in_window c now cnt hhave hwin.1 hwin.2]
      obtain ⟨-, -, k0, k1⟩ := speedCandidate_bounds c.speedLastCnt cnt (elapsedMs c now) hwin.1
      split
      · rcases emit_outChan_cases ({ rebased c now cnt with
            speedLastKmh := speedCandidate c.speedLastCnt cnt (elapsedMs c now)
            speedLastUpdate := now }) "speedKmh"
            (speedCandidate c.speedLastCnt cnt (elapsedMs c now)) with h | h
        · exact Or.inl h
        · exact Or.inr ⟨_, k0, k1, h⟩
      · exact Or.inl rfl
    · have hout : Duration.Milliseconds (now.Sub c.speedLastAt) < 50 ∨
          Duration.Milliseconds (now.Sub c.speedLastAt) > 2000 := by
        unfold elapsedMs at hwin
        omega
      left
      unfold CanListener.updateSpeedFromCounter
      simp only [hhave, Bool.not_true, Bool.false_eq_true, if_false, hout, if_true]
  · have hf : c.speedHave = false := by simpa using hhave
    left
    unfold CanListener.updateSpeedFromCounter
    simp only [hf, Bool.not_false, if_true]

/-- Claim C17. Speed formula: for every speed-filter state with a baseline (counter
`c0` at `t0`) and every new sample (counter `c1` at `now`) whose elapsed whole
milliseconds `ms` satisfy `50 <= ms <= 2000`, `updateSpeedFromCounter` moves the
baseline to `(c1, now)` and its candidate speed is
`((c1 - c0) mod 65536) / (ms / 50) * 1.609344` km/h (over exact rational
arithmetic); when no speed was emitted since the last start, which leaves the
time of last emission zero, the candidate is emitted. -/
theorem speed_formula_in_window (c : CanListener) (now : Time) (cnt : Nat)
    (hhave : c.speedHave = true)
    (hlo : 50 ≤ elapsedMs c now) (hhi : elapsedMs c now ≤ 2000) :
    speedCandidate c.speedLastCnt cnt (elapsedMs c now)
      = ((((cnt : Int) - (c.speedLastCnt : Int)) % 65536 : Int) : ℚ)
          / ((elapsedMs c now : ℚ) / 50) * (1609344 / 1000000) ∧
    (c.updateSpeedFromCounter now cnt).speedLastCnt = cnt ∧
    (c.updateSpeedFromCounter now cnt).speedLastAt = now ∧
    c.updateSpeedFromCounter now cnt =
      (if c.speedLastUpdate.IsZero = true ∨ now.ns - c.speedLastUpdate.ns ≥ 100 * Millisecond ∨
          |speedCandidate c.speedLastCnt cnt (elapsedMs c now) - c.speedLastKmh| ≥ 2 / 10 then
        ({ c with
            speedLastCnt := cnt
            speedLastAt := now
            speedLastKmh := speedCandidate c.speedLastCnt cnt (elapsedMs c now)
            speedLastUpdate := now }).emit "speedKmh"
          (speedCandidate c.speedLastCnt cnt (elapsedMs c now))
      else { c with speedLastCnt := cnt, speedLastAt := now }) ∧
    (c.speedLastUpdate.IsZero = true →
      c.updateSpeedFromCounter now cnt =
        ({ c with
            speedLastCnt := cnt
            speedLastAt := now
            speedLastKmh := speedCandidate c.speedLastCnt cnt (elapsedMs c now)
            speedLastUpdate := now }).emit "speedKmh"
          (speedCandidate c.speedLastCnt cnt (elapsedMs c now))) ∧
    (∀ c0 : CanListener, c0.Start.speedLastUpdate.IsZero = true) := by
  have h := update_in_window c now cnt hhave hlo hhi
  have hM : (100 : Int) * Millisecond = 100000000 := by unfold Millisecond; norm_num
  rw [hM]
  refine ⟨rfl, ?_, ?_, h, ?_, fun _ => rfl⟩
  · rw [h]
    split
    · exact (emit_fields _ _ _).2.2.1
    · rfl
  · rw [h]
    split
    · exact (emit_fields _ _ _).2.2.2.1
    · rfl
  · intro hz
    rw [h, if_pos (Or.inl hz)]
    rfl

/-- After a start, the sample of counter 106 taken 50 ms after the baseline of
counter 100 emits 6 * 1.609344 km/h. -/
theorem speed_formula_in_window_witness :
    (freshListener.updateSpeedFromCounter ⟨1050000000⟩ 106).outChan
      = [{ Name := "speedKmh", Value := 6 * (1609344 / 1000000) }] := by
  have h := (speed_formula_in_window freshListener ⟨1050000000⟩ 106 rfl (by decide) (by decide)).2.2.2.2.1 rfl
  have h1 : elapsedMs freshListener ⟨1050000000⟩ = 50 := by decide
  rw [h, emit_outChan _ _ _ (by decide), h1]
  simp [freshListener, NewCanListener, CanListener.Start, speedCandidate]

/-! ## Frame handler -/

theorem uint16_of_float_natCast (n : Nat) (h : n < 65536) : uint16_of_float (n : ℚ) = n := by
  unfold uint16_of_float
  simp only [Rat.num_natCast, Rat.den_natCast, Nat.cast_one, Int.tdiv_one]
  omega

theorem parse_1A6_eq (d : List Byte) :
    parse_1A6 d = if d.length < 2 then some ([], false)
      else some ([("_speedCounter", ((byteAt d 0 + 256 * byteAt d 1 : Nat) : ℚ))], true) := by
  by_cases h : d.length < 2
  · simp [parse_1A6, u16le, h]
  · rw [if_neg h]
    obtain ⟨b0, b1, tl, rfl⟩ := exists_two_bytes d (by omega)
    have h0 := b0.isLt
    have h1 := b1.isLt
    have e : (b0.val ||| (b1.val <<< 8)) % 2 ^ 16 = b0.val + 256 * b1.val := by
      rw [or_shiftLeft_eq_add _ _ 8 (by omega)]; omega
    simp only [Nat.reducePow] at e
    simp [parse_1A6, u16le, slice, LittleEndian_Uint16, byteAt, e,
      show ¬ (tl.length + 1 + 1 < 2) from by omega]

theorem parse_0AA_noCounter : NoCounter parse_0AA := by
  intro d q ok h kv hkv
  by_cases hl : d.length < 8
  · simp [parse_0AA, hl] at h
    rw [h.1] at hkv
    simp at hkv
  · obtain ⟨b0, b1, b2, b3, b4, b5, b6, b7, tl, rfl⟩ := exists_eight_bytes d (by omega)
    simp [parse_0AA, show ¬ (tl.length + 1 + 1 + 1 + 1 + 1 + 1 + 1 + 1 < 8) from by omega] at h
    rw [← h.1] at hkv
    simp at hkv
    rcases hkv with rfl | rfl | rfl | rfl <;> simp

theorem parse_1D0_noCounter : NoCounter parse_1D0 := by
  intro d q ok h kv hkv
  by_cases hl : d.length < 1
  · simp [parse_1D0, hl] at h
    rw [h.1] at hkv
    simp at hkv
  · obtain ⟨b0, tl, rfl⟩ := exists_one_byte d (by omega)
    simp [parse_1D0] at h
    rw [← h.1] at hkv
    simp at hkv
    rcases hkv with rfl
    simp

theorem parse_349_noCounter : NoCounter parse_349 := by
  intro d q ok h kv hkv
  by_cases hl : d.length < 4
  · simp [parse_349, hl] at h
    rw [h.1] at hkv
    simp at hkv
  · obtain ⟨b0, b1, b2, b3, tl, rfl⟩ := exists_four_bytes d (by omega)
    simp [parse_349, show ¬ (tl.length + 1 + 1 + 1 + 1 < 4) from by omega] at h
    rw [← h.1] at hkv
    simp at hkv
    rcases hkv with rfl | rfl | rfl <;> simp

theorem parse_330_noCounter : NoCounter parse_330 := by
  intro d q ok h kv hkv
  by_cases hl : d.length < 8
  · simp [parse_330, hl] at h
    rw [h.1] at hkv
    simp at hkv
  · obtain ⟨b0, b1, b2, b3, b4, b5, b6, b7, tl, rfl⟩ := exists_eight_bytes d (by omega)
    simp [parse_330, u24le, u16le, slice, LittleEndian_Uint16,
      show ¬ (tl.length + 1 + 1 + 1 + 1 + 1 + 1 + 1 + 1 < 8) from by omega,
      show ¬ (tl.length + 1 + 1 + 1 + 1 + 1 + 1 + 1 + 1 < 3) from by omega] at h
    rw [← h.1] at hkv
    simp at hkv
    rcases hkv with rfl | rfl | rfl | rfl | rfl <;> simp

theorem parse_362_noCounter : NoCounter parse_362 := by
  intro d q ok h kv hkv
  by_cases hl : d.length < 3
  · simp [parse_362, hl] at h
    rw [h.1] at hkv
    simp at hkv
  · obtain ⟨b0, b1, b2, tl, rfl⟩ := exists_three_bytes d (by omega)
    simp [parse_362, show ¬ (tl.length + 1 + 1 + 1 < 3) from by omega] at h
    rw [← h.1] at hkv
    simp at hkv
    rcases hkv with rfl | rfl | rfl <;> simp

theorem foldl_emit_outChan (m : Quantities) (c : CanListener)
    (hm : ∀ kv ∈ m, kv.1 ≠ "_speedCounter") :
    ∃ pushed : List Reading,
      (m.foldl (fun c kv => c.emit kv.1 kv.2) c).outChan = c.outChan ++ pushed ∧
      ∀ r ∈ pushed, r.Name ≠ "_speedCounter" := by
  induction m generalizing c with
  | nil => exact ⟨[], by simp, by simp⟩
  | cons kv m ih =>
    obtain ⟨pushed, h1, h2⟩ := ih (c.emit kv.1 kv.2) (fun x hx => hm x (List.mem_cons_of_mem _ hx))
    rcases emit_outChan_cases c kv.1 kv.2 with h | h
    · exact ⟨pushed, by rw [List.foldl_cons, h1, h], h2⟩
    · refine ⟨{ Name := kv.1, Value := kv.2 } :: pushed, ?_, ?_⟩
      · rw [List.foldl_cons, h1, h]; simp
      · intro r hr
        rcases List.mem_cons.mp hr with rfl | hr
        · exact hm kv (List.mem_cons_self _ _)
        · exact h2 r hr

theorem lookup_cons_ne {β : Type} (k a : Nat) (b : β) (l : List (Nat × β)) (h : k ≠ a) :
    List.lookup k ((a, b) :: l) = List.lookup k l := by
  have : (k == a) = false := by simpa using h
  simp [List.lookup, this]

theorem signals_lookup (frameID : Nat) :
    BMW_E87_Config.Signals.lookup frameID =
      if frameID = 0x1A6 then some ⟨parse_1A6⟩
      else if frameID = 0x0AA then some ⟨parse_0AA⟩
      else if frameID = 0x1D0 then some ⟨parse_1D0⟩
      else if frameID = 0x349 then some ⟨parse_349⟩
      else if frameID = 0x330 then some ⟨parse_330⟩
      else if frameID = 0x362 then some ⟨parse_362⟩
      else none := by
  unfold BMW_E87_Config
  simp only
  by_cases h1 : frameID = 0x1A6
  · rw [if_pos h1, h1]; simp [List.lookup]
  rw [if_neg h1, lookup_cons_ne _ _ _ _ h1]
  by_cases h2 : frameID = 0x0AA
  · rw [if_pos h2, h2]; simp [List.lookup]
  rw [if_neg h2, lookup_cons_ne _ _ _ _ h2]
  by_cases h3 : frameID = 0x1D0
  · rw [if_pos h3, h3]; simp [List.lookup]
  rw [if_neg h3, lookup_cons_ne _ _ _ _ h3]
  by_cases h4 : frameID = 0x349
  · rw [if_pos h4, h4]; simp [List.lookup]
  rw [if_neg h4, lookup_cons_ne _ _ _ _ h4]
  by_cases h5 : frameID = 0x330
  · rw [if_pos h5, h5]; simp [List.lookup]
  rw [if_neg h5, lookup_cons_ne _ _ _ _ h5]
  by_cases h6 : frameID = 0x362
  · rw [if_pos h6, h6]; simp [List.lookup]
  rw [if_neg h6, lookup_cons_ne _ _ _ _ h6]
  rfl

theorem mapGet_none_of_keys {α : Type} (k : String) (m : List (String × α))
    (h : ∀ kv ∈ m, kv.1 ≠ k) : mapGet k m = none := by
  induction m with
  | nil => rfl
  | cons e m ih =>
    obtain ⟨a, b⟩ := e
    have ha : a ≠ k := h (a, b) (List.mem_cons_self _ _)
    have hk : (k == a) = false := by simpa using fun h' => ha h'.symm
    simp only [mapGet, List.lookup, hk]
    exact ih (fun kv hkv => h kv (List.mem_cons_of_mem _ hkv))

theorem handleFrame_noCounter (c : CanListener) (config : CarConfig) (now : Time)
    (frameID : Nat) (p : ValueParser) (hl : config.Signals.lookup frameID = some ⟨p⟩)
    (hp : NoCounter p) (hsome : ∀ d, p d ≠ none) (data : List Byte) :
    ∃ c' pushed,
      c.handleFrame config false now frameID data = some c' ∧
      c'.outChan = c.outChan ++ pushed ∧ ∀ r ∈ pushed, r.Name ≠ "_speedCounter" := by
  cases hpd : p data with
  | none => exact absurd hpd (hsome data)
  | some res =>
    obtain ⟨m, ok⟩ := res
    have hkeys := hp data m ok hpd
    have hget : mapGet "_speedCounter" m = none := mapGet_none_of_keys _ m hkeys
    unfold CanListener.handleFrame
    simp only [Bool.false_eq_true, if_false, hl, hpd, Option.bind_eq_bind, Option.some_bind, hget]
    by_cases hskip : (!ok || decide (m.length = 0)) = true
    · rw [if_pos hskip]
      exact ⟨c, [], rfl, by simp, by simp⟩
    · rw [if_neg hskip]
      obtain ⟨pushed, h1, h2⟩ := foldl_emit_outChan m c hkeys
      exact ⟨_, pushed, rfl, h1, h2⟩

theorem parser_total_of_rejects (p : ValueParser) (n : Nat) (hp : RejectsBelow p n)
    (d : List Byte) : p d ≠ none := by
  by_cases h : d.length < n
  · rw [(hp d).1 h]; simp
  · obtain ⟨q, _, hq⟩ := (hp d).2 (by omega)
    rw [hq]; simp

theorem handleFrame_1A6 (c : CanListener) (now : Time) (data : List Byte)
    (h : 2 ≤ data.length) :
    c.handleFrame BMW_E87_Config false now 0x1A6 data
      = some (c.updateSpeedFromCounter now (byteAt data 0 + 256 * byteAt data 1)) := by
  have h0 : byteAt data 0 < 256 := (data.getD 0 0).isLt
  have h1 : byteAt data 1 < 256 := (data.getD 1 0).isLt
  have hl := signals_lookup 0x1A6
  rw [if_pos rfl] at hl
  unfold CanListener.handleFrame
  simp only [Bool.false_eq_true, if_false, hl, parse_1A6_eq, show ¬ data.length < 2 from by omega,
    Option.bind_eq_bind, Option.some_bind]
  simp [mapGet, List.lookup]
  exact_mod_cast congrArg _ (uint16_of_float_natCast (byteAt data 0 + 256 * byteAt data 1) (by omega))

/-- Claim C13. Frame handling in real-source mode with the BMW E87 profile never
publishes the internal pulse counter: for every frame ID and payload, handling
the frame returns, and no reading it pushes to the output queue is named
"_speedCounter"; the decoder of `0x1A6` is the only one that produces
"_speedCounter" and it produces nothing else; for a `0x1A6` frame of at least 2
bytes the value handed to the speed estimator is the 16-bit little-endian value
of bytes 0..1, the conversion uint16 to float and back being exact for all
65536 values. -/
theorem frame_handler_routes_speedCounter (c : CanListener) (stopped : Bool) (now : Time) (frameID : Nat)
    (data : List Byte) :
    (∃ c' pushed,
      c.handleFrame BMW_E87_Config stopped now frameID data = some c' ∧
      c'.outChan = c.outChan ++ pushed ∧ ∀ r ∈ pushed, r.Name ≠ "_speedCounter") ∧
    (∀ id sig d q, (id, sig) ∈ BMW_E87_Config.Signals → sig.Parse d = some (q, true) →
      (id = 0x1A6 → ∃ v, q = [("_speedCounter", v)]) ∧
      (id ≠ 0x1A6 → mapGet "_speedCounter" q = none)) ∧
    (2 ≤ data.length →
      c.handleFrame BMW_E87_Config false now 0x1A6 data
        = some (c.updateSpeedFromCounter now (byteAt data 0 + 256 * byteAt data 1))) ∧
    (∀ n : Nat, n < 65536 → uint16_of_float (n : ℚ) = n) := by
  refine ⟨?_, ?_, handleFrame_1A6 c now data, uint16_of_float_natCast⟩
  · cases stopped with
    | true => exact ⟨c, [], by simp [CanListener.handleFrame], by simp, by simp⟩
    | false =>
      have hl := signals_lookup frameID
      by_cases h1 : frameID = 0x1A6
      · subst h1
        by_cases hd : 2 ≤ data.length
        · rw [handleFrame_1A6 c now data hd]
          rcases update_outChan c now (byteAt data 0 + 256 * byteAt data 1) with h | ⟨k, -, -, h⟩
          · exact ⟨_, [], rfl, by simp [h], by simp⟩
          · refine ⟨_, [{ Name := "speedKmh", Value := k }], rfl, h, ?_⟩
            intro r hr
            rw [List.mem_singleton.mp hr]
            show ("speedKmh" : String) ≠ "_speedCounter"
            decide
        · rw [if_pos rfl] at hl
          refine ⟨c, [], ?_, by simp, by simp⟩
          unfold CanListener.handleFrame
          simp [hl, parse_1A6_eq, show data.length < 2 from by omega]
      rw [if_neg h1] at hl
      by_cases h2 : frameID = 0x0AA
      · rw [if_pos h2] at hl
        exact handleFrame_noCounter c _ now frameID _ hl parse_0AA_noCounter
          (parser_total_of_rejects _ _ parse_0AA_total) data
      rw [if_neg h2] at hl
      by_cases h3 : frameID = 0x1D0
      · rw [if_pos h3] at hl
        exact handleFrame_noCounter c _ now frameID _ hl parse_1D0_noCounter
          (parser_total_of_rejects _ _ parse_1D0_total) data
      rw [if_neg h3] at hl
      by_cases h4 : frameID = 0x349
      · rw [if_pos h4] at hl
        exact handleFrame_noCounter c _ now frameID _ hl parse_349_noCounter
          (parser_total_of_rejects _ _ parse_349_total) data
      rw [if_neg h4] at hl
      by_cases h5 : frameID = 0x330
      · rw [if_pos h5] at hl
        exact handleFrame_noCounter c _ now frameID _ hl parse_330_noCounter
          (parser_total_of_rejects _ _ parse_330_total) data
      rw [if_neg h5] at hl
      by_cases h6 : frameID = 0x362
      · rw [if_pos h6] at hl
        exact handleFrame_noCounter c _ now frameID _ hl parse_362_noCounter
          (parser_total_of_rejects _ _ parse_362_total) data
      rw [if_neg h6] at hl
      refine ⟨c, [], ?_, by simp, by simp⟩
      unfold CanListener.handleFrame
      simp [hl]
  · intro id sig d q hmem hparse
    simp only [BMW_E87_Config, List.mem_cons, Prod.mk.injEq, List.mem_nil_iff, or_false] at hmem
    rcases hmem with ⟨rfl, rfl⟩ | ⟨rfl, rfl⟩ | ⟨rfl, rfl⟩ | ⟨rfl, rfl⟩ | ⟨rfl, rfl⟩ | ⟨rfl, rfl⟩
    · refine ⟨fun _ => ?_, fun h => absurd rfl h⟩
      have hparse : parse_1A6 d = some (q, true) := hparse
      rw [parse_1A6_eq] at hparse
      split at hparse
      · simp at hparse
      · simp only [Option.some.injEq, Prod.mk.injEq, and_true] at hparse
        exact ⟨_, hparse.symm⟩
    · exact ⟨fun h => absurd h (by decide),
        fun _ => mapGet_none_of_keys _ q (parse_0AA_noCounter d q true hparse)⟩
    · exact ⟨fun h => absurd h (by decide),
        fun _ => mapGet_none_of_keys _ q (parse_1D0_noCounter d q true hparse)⟩
    · exact ⟨fun h => absurd h (by decide),
        fun _ => mapGet_none_of_keys _ q (parse_349_noCounter d q true hparse)⟩
    · exact ⟨fun h => absurd h (by decide),
        fun _ => mapGet_none_of_keys _ q (parse_330_noCounter d q true hparse)⟩
    · exact ⟨fun h => absurd h (by decide),
        fun _ => mapGet_none_of_keys _ q (parse_362_noCounter d q true hparse)⟩

/-- The frame `0x1A6` with bytes 0..1 = `0xFA 0xFF` hands the counter 65530 to the
speed estimator. -/
theorem frame_handler_routes_speedCounter_witness :
    (NewCanListener "can0").handleFrame BMW_E87_Config false ⟨1000000000⟩ 0x1A6
        [0xFA, 0xFF, 0, 0, 0, 0, 0, 0]
      = some ((NewCanListener "can0").updateSpeedFromCounter ⟨1000000000⟩ 65530) :=
  (frame_handler_routes_speedCounter (NewCanListener "can0") false ⟨1000000000⟩ 0x1A6
    [0xFA, 0xFF, 0, 0, 0, 0, 0, 0]).2.2.1 (by decide)

/-! ## Simulation -/

theorem pushedOnly_refl (P : Reading → Prop) (c : CanListener) : PushedOnly P c c :=
  ⟨[], by simp, by simp⟩

theorem pushedOnly_emit (P : Reading → Prop) (c c' : CanListener) (name : String) (v : ℚ)
    (h : PushedOnly P c c') (hv : P { Name := name, Value := v }) :
    PushedOnly P c (c'.emit name v) := by
  obtain ⟨pushed, h1, h2⟩ := h
  unfold CanListener.emit
  split
  · refine ⟨pushed ++ [{ Name := name, Value := v }], by simp [h1], ?_⟩
    intro x hx
    rcases List.mem_append.mp hx with hx | hx
    · exact h2 x hx
    · rw [List.mem_singleton.mp hx]; exact hv
  · exact ⟨pushed, h1, h2⟩

theorem pushedOnly_trans (P : Reading → Prop) (a b c : CanListener)
    (h1 : PushedOnly P a b) (h2 : PushedOnly P b c) : PushedOnly P a c := by
  obtain ⟨p1, e1, q1⟩ := h1
  obtain ⟨p2, e2, q2⟩ := h2
  refine ⟨p1 ++ p2, by rw [e2, e1, List.append_assoc], ?_⟩
  intro x hx
  rcases List.mem_append.mp hx with hx | hx
  · exact q1 x hx
  · exact q2 x hx

theorem clamp_le (x lo hi : ℚ) :
    (if (if x < lo then lo else x) > hi then hi else (if x < lo then lo else x)) ≤ hi := by
  split_ifs <;> linarith

theorem le_clamp (x lo hi : ℚ) (h : lo ≤ hi) :
    lo ≤ (if (if x < lo then lo else x) > hi then hi else (if x < lo then lo else x)) := by
  split_ifs <;> linarith

/-! ## Handshake: corruption of the header -/

theorem xor_poly_ge (x : Nat) (h : x < 2 ^ 31) : 2 ^ 31 ≤ x ^^^ poly := by
  apply Nat.testBit_implies_ge
  rw [Nat.testBit_xor, Nat.testBit_lt_two_pow h]
  decide

theorem crc32IEEE_shift_inj (a b : Nat) (ha : a < 2 ^ 32) (hb : b < 2 ^ 32)
    (h : crc32IEEE_shift a = crc32IEEE_shift b) : a = b := by
  unfold crc32IEEE_shift at h
  simp only [Nat.and_one_is_mod, Nat.shiftRight_eq_div_pow, pow_one] at h
  have ha2 : a / 2 < 2 ^ 31 := by omega
  have hb2 : b / 2 < 2 ^ 31 := by omega
  have ga := xor_poly_ge (a / 2) ha2
  have gb := xor_poly_ge (b / 2) hb2
  by_cases pa : a % 2 = 1 <;> by_cases pb : b % 2 = 1
  · rw [if_pos pa, if_pos pb] at h
    have := Nat.xor_left_inj.mp h
    omega
  · rw [if_pos pa, if_neg pb] at h
    omega
  · rw [if_neg pa, if_pos pb] at h
    omega
  · rw [if_neg pa, if_neg pb] at h
    omega

theorem crc32IEEE_iterate_inj (n a b : Nat) (ha : a < 2 ^ 32) (hb : b < 2 ^ 32)
    (h : Nat.iterate crc32IEEE_shift n a = Nat.iterate crc32IEEE_shift n b) : a = b := by
  induction n generalizing a b with
  | zero => simpa using h
  | succ n ih =>
    have := ih _ _ (crc32IEEE_shift_lt a ha) (crc32IEEE_shift_lt b hb) h
    exact crc32IEEE_shift_inj a b ha hb this

theorem crc32IEEE_byte_inj_reg (r r' : Nat) (v : Byte) (hr : r < 2 ^ 32) (hr' : r' < 2 ^ 32)
    (h : crc32IEEE_byte r v = crc32IEEE_byte r' v) : r = r' := by
  have hv : v.val < 2 ^ 32 := by have := v.isLt; omega
  have := crc32IEEE_iterate_inj 8 _ _ (Nat.xor_lt_two_pow hr hv) (Nat.xor_lt_two_pow hr' hv) h
  exact Nat.xor_left_inj.mp this

theorem crc32IEEE_byte_inj_byte (r : Nat) (v v' : Byte) (hr : r < 2 ^ 32)
    (h : crc32IEEE_byte r v = crc32IEEE_byte r v') : v = v' := by
  have hv : v.val < 2 ^ 32 := by have := v.isLt; omega
  have hv' : v'.val < 2 ^ 32 := by have := v'.isLt; omega
  have := crc32IEEE_iterate_inj 8 _ _ (Nat.xor_lt_two_pow hr hv) (Nat.xor_lt_two_pow hr hv') h
  exact Fin.ext (Nat.xor_right_inj.mp this)

theorem crc32IEEE_fold_inj_reg (post : List Byte) (r r' : Nat) (hr : r < 2 ^ 32)
    (hr' : r' < 2 ^ 32)
    (h : post.foldl crc32IEEE_byte r = post.foldl crc32IEEE_byte r') : r = r' := by
  induction post generalizing r r' with
  | nil => simpa using h
  | cons v vs ih =>
    have := ih _ _ (crc32IEEE_byte_lt r v hr) (crc32IEEE_byte_lt r' v hr') h
    exact crc32IEEE_byte_inj_reg r r' v hr hr' this

theorem crc32IEEE_one_byte_changed (pre post : List Byte) (v v' : Byte) (h : v ≠ v') :
    crc32IEEE (pre ++ v :: post) ≠ crc32IEEE (pre ++ v' :: post) := by
  intro heq
  unfold crc32IEEE at heq
  have hinit : (0xFFFFFFFF : Nat) < 2 ^ 32 := by norm_num
  have l1 := crc32IEEE_fold_lt (pre ++ v :: post) _ hinit
  have l2 := crc32IEEE_fold_lt (pre ++ v' :: post) _ hinit
  rw [complement32 _ l1, complement32 _ l2] at heq
  have hfold : (pre ++ v :: post).foldl crc32IEEE_byte 0xFFFFFFFF
      = (pre ++ v' :: post).foldl crc32IEEE_byte 0xFFFFFFFF := by omega
  rw [List.foldl_append, List.foldl_append, List.foldl_cons, List.foldl_cons] at hfold
  have hpre := crc32IEEE_fold_lt pre _ hinit
  have := crc32IEEE_fold_inj_reg post _ _ (crc32IEEE_byte_lt _ v hpre)
    (crc32IEEE_byte_lt _ v' hpre) hfold
  exact h (crc32IEEE_byte_inj_byte _ v v' hpre this)

theorem handshake_cons9 (repo : CarRepository) (a0 a1 a2 a3 a4 c0 c1 c2 c3 : Byte)
    (tl : List Byte) :
    Server.handshake repo (a0 :: a1 :: a2 :: a3 :: a4 :: c0 :: c1 :: c2 :: c3 :: tl) = some (
      if a0.val ≠ 0x01 then Handshake.close "Invalid CMD"
      else if c0.val + 256 * c1.val + 65536 * c2.val + 16777216 * c3.val
          ≠ crc32IEEE [a0, a1, a2, a3, a4] then Handshake.close "Invalid CRC"
      else match repo (a1.val + 256 * a2.val + 65536 * a3.val + 16777216 * a4.val) with
        | .error _ => Handshake.text "Unknown Model"
        | .ok config => Handshake.start config) := by
  rw [handshake_eq]
  simp [byteAt, le32At,
    show ¬ (tl.length + 1 + 1 + 1 + 1 + 1 + 1 + 1 + 1 + 1 < 9) from by omega]

theorem byteOf_xor_ne (b : Byte) (k : Nat) (hk : k < 8) :
    byteOf (b.val ^^^ (1 <<< k)) ≠ b := by
  intro h
  have := congrArg Fin.val h
  exact xor_bit_ne_self b.val k b.isLt hk this

theorem flipped_header_rejected (repo : CarRepository) (m : List Byte) (config : CarConfig)
    (haccept : Server.handshake repo m = some (Handshake.start config))
    (p : Nat) (hp : p < 40) :
    (p < 8 → Server.handshake repo (flipBit m p) = some (Handshake.close "Invalid CMD")) ∧
    (8 ≤ p → Server.handshake repo (flipBit m p) = some (Handshake.close "Invalid CRC")) := by
  have hlen : 9 ≤ m.length := by
    by_contra hl
    rw [handshake_eq, if_pos (by omega)] at haccept
    simp at haccept
  obtain ⟨b0, b1, b2, b3, b4, b5, b6, b7, b8, tl, rfl⟩ := exists_nine_bytes m hlen
  rw [handshake_cons9] at haccept
  have hcmd : b0.val = 0x01 := by
    by_contra h
    rw [if_pos h] at haccept
    simp at haccept
  rw [if_neg (not_not.mpr hcmd)] at haccept
  have hcrc : b5.val + 256 * b6.val + 65536 * b7.val + 16777216 * b8.val
      = crc32IEEE [b0, b1, b2, b3, b4] := by
    by_contra h
    rw [if_pos h] at haccept
    simp at haccept
  have hk : p % 8 < 8 := Nat.mod_lt _ (by norm_num)
  have hq : p / 8 = 0 ∨ p / 8 = 1 ∨ p / 8 = 2 ∨ p / 8 = 3 ∨ p / 8 = 4 := by omega
  have hq0 : p < 8 ↔ p / 8 = 0 := by omega
  unfold flipBit
  generalize p % 8 = k at *
  generalize p / 8 = q at *
  have n0 := byteOf_xor_ne b0 k hk
  have n1 := byteOf_xor_ne b1 k hk
  have n2 := byteOf_xor_ne b2 k hk
  have n3 := byteOf_xor_ne b3 k hk
  have n4 := byteOf_xor_ne b4 k hk
  rcases hq with rfl | rfl | rfl | rfl | rfl
  · refine ⟨fun _ => ?_, fun h => absurd (hq0.mpr rfl) (by omega)⟩
    simp only [modifyAt]
    rw [handshake_cons9, if_pos]
    intro h
    exact n0 (Fin.ext (h.trans hcmd.symm))
  · refine ⟨fun h => absurd (hq0.mp h) (by decide), fun _ => ?_⟩
    simp only [modifyAt]
    rw [handshake_cons9, if_neg (not_not.mpr hcmd), if_pos]
    rw [hcrc]
    exact (crc32IEEE_one_byte_changed [b0] [b2, b3, b4] _ b1 n1).symm
  · refine ⟨fun h => absurd (hq0.mp h) (by decide), fun _ => ?_⟩
    simp only [modifyAt]
    rw [handshake_cons9, if_neg (not_not.mpr hcmd), if_pos]
    rw [hcrc]
    exact (crc32IEEE_one_byte_changed [b0, b1] [b3, b4] _ b2 n2).symm
  · refine ⟨fun h => absurd (hq0.mp h) (by decide), fun _ => ?_⟩
    simp only [modifyAt]
    rw [handshake_cons9, if_neg (not_not.mpr hcmd), if_pos]
    rw [hcrc]
    exact (crc32IEEE_one_byte_changed [b0, b1, b2] [b4] _ b3 n3).symm
  · refine ⟨fun h => absurd (hq0.mp h) (by decide), fun _ => ?_⟩
    simp only [modifyAt]
    rw [handshake_cons9, if_neg (not_not.mpr hcmd), if_pos]
    rw [hcrc]
    exact (crc32IEEE_one_byte_changed [b0, b1, b2, b3] [] _ b4 n4).symm

theorem exists_five_bytes (x : List Byte) (h : x.length = 5) :
    ∃ b0 b1 b2 b3 b4, x = [b0, b1, b2, b3, b4] := by
  match x, h with
  | [b0, b1, b2, b3, b4], _ => exact ⟨b0, b1, b2, b3, b4, rfl⟩

theorem crc32IEEE_flipBit_ne (x : List Byte) (h : x.length = 5) (p : Nat) (hp : p < 40) :
    crc32IEEE (flipBit x p) ≠ crc32IEEE x := by
  obtain ⟨b0, b1, b2, b3, b4, rfl⟩ := exists_five_bytes x h
  have hk : p % 8 < 8 := Nat.mod_lt _ (by norm_num)
  have hq : p / 8 = 0 ∨ p / 8 = 1 ∨ p / 8 = 2 ∨ p / 8 = 3 ∨ p / 8 = 4 := by omega
  unfold flipBit
  generalize p % 8 = k at *
  generalize p / 8 = q at *
  rcases hq with rfl | rfl | rfl | rfl | rfl
  · simp only [modifyAt]
    exact crc32IEEE_one_byte_changed [] [b1, b2, b3, b4] _ b0 (byteOf_xor_ne b0 k hk)
  · simp only [modifyAt]
    exact crc32IEEE_one_byte_changed [b0] [b2, b3, b4] _ b1 (byteOf_xor_ne b1 k hk)
  · simp only [modifyAt]
    exact crc32IEEE_one_byte_changed [b0, b1] [b3, b4] _ b2 (byteOf_xor_ne b2 k hk)
  · simp only [modifyAt]
    exact crc32IEEE_one_byte_changed [b0, b1, b2] [b4] _ b3 (byteOf_xor_ne b3 k hk)
  · simp only [modifyAt]
    exact crc32IEEE_one_byte_changed [b0, b1, b2, b3] [] _ b4 (byteOf_xor_ne b4 k hk)

theorem flipBit_drop_five (m : List Byte) (p : Nat) (hp : p < 40) :
    (flipBit m p).drop 5 = m.drop 5 ∧ (flipBit m p).length = m.length := by
  have hq : p / 8 = 0 ∨ p / 8 = 1 ∨ p / 8 = 2 ∨ p / 8 = 3 ∨ p / 8 = 4 := by omega
  unfold flipBit
  generalize p % 8 = k at *
  generalize p / 8 = q at *
  match m with
  | [] => simp [modifyAt]
  | [b0] => rcases hq with rfl | rfl | rfl | rfl | rfl <;> simp [modifyAt]
  | [b0, b1] => rcases hq with rfl | rfl | rfl | rfl | rfl <;> simp [modifyAt]
  | [b0, b1, b2] => rcases hq with rfl | rfl | rfl | rfl | rfl <;> simp [modifyAt]
  | [b0, b1, b2, b3] => rcases hq with rfl | rfl | rfl | rfl | rfl <;> simp [modifyAt]
  | b0 :: b1 :: b2 :: b3 :: b4 :: tl =>
    rcases hq with rfl | rfl | rfl | rfl | rfl <;> simp [modifyAt]

/-- Claim C18. The handshake checksum detects every single-bit corruption of the
signed header: for every message the handshake accepts and every bit position in
its first 5 bytes, the message with that one bit flipped, its checksum bytes
unchanged, is not accepted; a flip in byte 0 ends with "Invalid CMD", a flip in
a model-ID bit with "Invalid CRC"; the CRC-32 of a 5-byte input always differs
from that of the input with one bit flipped. -/
theorem handshake_detects_header_bit_flip (repo : CarRepository) (m : List Byte) (config : CarConfig)
    (haccept : Server.handshake repo m = some (Handshake.start config))
    (p : Nat) (hp : p < 40) :
    ((flipBit m p).drop 5 = m.drop 5 ∧ (flipBit m p).length = m.length) ∧
    (∀ config', Server.handshake repo (flipBit m p) ≠ some (Handshake.start config')) ∧
    (p < 8 → Server.handshake repo (flipBit m p) = some (Handshake.close "Invalid CMD")) ∧
    (8 ≤ p → Server.handshake repo (flipBit m p) = some (Handshake.close "Invalid CRC")) ∧
    (∀ x : List Byte, x.length = 5 → crc32IEEE (flipBit x p) ≠ crc32IEEE x) := by
  obtain ⟨h1, h2⟩ := flipped_header_rejected repo m config haccept p hp
  refine ⟨flipBit_drop_five m p hp, ?_, h1, h2, fun x hx => crc32IEEE_flipBit_ne x hx p hp⟩
  intro config' hs
  by_cases h8 : p < 8
  · rw [h1 h8] at hs
    simp at hs
  · rw [h2 (by omega)] at hs
    simp at hs

/-- The accepted message of model `0x1234` with bit 13 (in the model ID) flipped is
closed with "Invalid CRC". -/
theorem handshake_detects_header_bit_flip_witness :
    Server.handshake NewInMemoryRepository.GetConfigByModelID (flipBit longHello 13)
      = some (Handshake.close "Invalid CRC") :=
  (handshake_detects_header_bit_flip NewInMemoryRepository.GetConfigByModelID longHello BMW_E87_Config rfl 13
    (by decide)).2.2.2.1 (by decide)

/-! ## Floating-point rounding -/

theorem roundHalfEven_intCast (n : Int) : roundHalfEven (n : ℚ) = n := by
  unfold roundHalfEven
  simp

theorem roundHalfEven_eq_of_abs_lt (x : ℚ) (n : Int) (h : |x - n| < 1 / 2) :
    roundHalfEven x = n := by
  rw [abs_lt] at h
  unfold roundHalfEven
  by_cases hx : (n : ℚ) ≤ x
  · have hf : ⌊x⌋ = n := by
      rw [Int.floor_eq_iff]
      constructor
      · exact hx
      · linarith
    simp only [hf]
    rw [if_pos (by linarith)]
  · have hf : ⌊x⌋ = n - 1 := by
      rw [Int.floor_eq_iff]
      push_cast
      constructor <;> linarith
    simp only [hf]
    push_cast
    rw [if_neg (by linarith), if_pos (by linarith)]
    ring

theorem roundHalfEven_floor_le (x : ℚ) : ⌊x⌋ ≤ roundHalfEven x := by
  unfold roundHalfEven
  simp only
  split_ifs <;> omega

theorem roundHalfEven_le_floor_succ (x : ℚ) : roundHalfEven x ≤ ⌊x⌋ + 1 := by
  unfold roundHalfEven
  simp only
  split_ifs <;> omega

theorem roundHalfEven_mono (x y : ℚ) (h : x ≤ y) : roundHalfEven x ≤ roundHalfEven y := by
  rcases lt_or_eq_of_le (Int.floor_mono h) with hlt | heq
  · calc roundHalfEven x ≤ ⌊x⌋ + 1 := roundHalfEven_le_floor_succ x
      _ ≤ ⌊y⌋ := hlt
      _ ≤ roundHalfEven y := roundHalfEven_floor_le y
  · unfold roundHalfEven
    simp only [heq]
    split_ifs <;> first | omega | linarith

theorem roundHalfEven_le_of_le (x : ℚ) (n : Int) (h : x ≤ n) : roundHalfEven x ≤ n := by
  have := roundHalfEven_mono x n h
  rwa [roundHalfEven_intCast] at this

theorem roundHalfEven_ge_of_ge (x : ℚ) (n : Int) (h : (n : ℚ) ≤ x) : n ≤ roundHalfEven x := by
  have := roundHalfEven_mono n x h
  rwa [roundHalfEven_intCast] at this


theorem ulp_pos (e : Int) (p : Nat) : (0 : ℚ) < 2 ^ (e - ((p : Int) - 1)) := by positivity

theorem zpow_succ_split (e : Int) (p : Nat) :
    (2 : ℚ) ^ (e + 1) = (((2 : Int) ^ p : Int) : ℚ) * 2 ^ (e - ((p : Int) - 1)) := by
  push_cast
  rw [← zpow_natCast, ← zpow_add₀ (by norm_num : (2 : ℚ) ≠ 0)]
  congr 1
  ring

theorem zpow_split (e : Int) (p : Nat) (hp : 1 ≤ p) :
    (2 : ℚ) ^ e = (((2 : Int) ^ (p - 1) : Int) : ℚ) * 2 ^ (e - ((p : Int) - 1)) := by
  push_cast
  rw [← zpow_natCast, ← zpow_add₀ (by norm_num : (2 : ℚ) ≠ 0)]
  congr 1
  have : ((p - 1 : Nat) : Int) = (p : Int) - 1 := by omega
  rw [this]
  ring

theorem lt_zpow_log (x : ℚ) : x < 2 ^ (Int.log 2 x + 1) := by
  have h := Int.lt_zpow_succ_log_self (by norm_num : 1 < 2) x
  simpa using h

theorem zpow_log_le (x : ℚ) (hx : 0 < x) : (2 : ℚ) ^ Int.log 2 x ≤ x := by
  have h := Int.zpow_log_le_self (by norm_num : 1 < 2) hx
  simpa using h

theorem log_eq_of_bracket (x : ℚ) (e : Int) (h1 : (2 : ℚ) ^ e ≤ x) (h2 : x < 2 ^ (e + 1)) :
    Int.log 2 x = e := by
  have hx : 0 < x := lt_of_lt_of_le (by positivity) h1
  have a : e ≤ Int.log 2 x := by
    rw [← Int.zpow_le_iff_le_log (by norm_num : 1 < 2) hx]
    simpa using h1
  have b : Int.log 2 x < e + 1 := by
    rw [← Int.lt_zpow_iff_log_lt (by norm_num : 1 < 2) hx]
    simpa using h2
  omega

theorem roundPos_zero (p : Nat) (emin : Int) : roundPos p emin 0 = 0 := by
  unfold roundPos
  simp [roundHalfEven]

theorem roundPos_nonneg (p : Nat) (emin : Int) (x : ℚ) (hx : 0 ≤ x) : 0 ≤ roundPos p emin x := by
  unfold roundPos
  simp only
  apply mul_nonneg _ (ulp_pos _ _).le
  have h0 : (0 : ℚ) ≤ x / 2 ^ (max (Int.log 2 x) emin - ((p : Int) - 1)) :=
    div_nonneg hx (ulp_pos _ _).le
  have := roundHalfEven_ge_of_ge _ 0 (by simpa using h0)
  exact_mod_cast this

theorem roundPos_le_zpow (p : Nat) (emin : Int) (x : ℚ) :
    roundPos p emin x ≤ 2 ^ (max (Int.log 2 x) emin + 1) := by
  have hx : x < 2 ^ (max (Int.log 2 x) emin + 1) :=
    lt_of_lt_of_le (lt_zpow_log x)
      (zpow_le_zpow_right₀ (by norm_num) (by have := le_max_left (Int.log 2 x) emin; omega))
  unfold roundPos
  simp only
  generalize max (Int.log 2 x) emin = e0 at *
  rw [zpow_succ_split e0 p] at hx ⊢
  apply mul_le_mul_of_nonneg_right _ (ulp_pos _ _).le
  have h1 : x / 2 ^ (e0 - ((p : Int) - 1)) ≤ (((2 : Int) ^ p : Int) : ℚ) := by
    rw [div_le_iff₀ (ulp_pos _ _)]
    exact hx.le
  exact_mod_cast roundHalfEven_le_of_le _ _ h1

theorem zpow_le_roundPos (p : Nat) (hp : 1 ≤ p) (emin : Int) (x : ℚ) (hx : 0 < x)
    (he : emin ≤ Int.log 2 x) : (2 : ℚ) ^ Int.log 2 x ≤ roundPos p emin x := by
  have h1 := zpow_log_le x hx
  unfold roundPos
  simp only [max_eq_left he]
  generalize Int.log 2 x = e0 at *
  rw [zpow_split e0 p hp] at h1
  nth_rewrite 1 [zpow_split e0 p hp]
  apply mul_le_mul_of_nonneg_right _ (ulp_pos _ _).le
  have h2 : (((2 : Int) ^ (p - 1) : Int) : ℚ) ≤ x / 2 ^ (e0 - ((p : Int) - 1)) := by
    rw [le_div_iff₀ (ulp_pos _ _)]
    exact h1
  exact_mod_cast roundHalfEven_ge_of_ge _ _ h2

theorem roundPos_mono (p : Nat) (hp : 1 ≤ p) (emin : Int) (x y : ℚ) (hx : 0 ≤ x) (h : x ≤ y) :
    roundPos p emin x ≤ roundPos p emin y := by
  rcases eq_or_lt_of_le hx with h0 | hpos
  · rw [← h0, roundPos_zero]
    exact roundPos_nonneg p emin y (le_trans hx h)
  · have hy : 0 < y := lt_of_lt_of_le hpos h
    have hlog : Int.log 2 x ≤ Int.log 2 y := Int.log_mono_right hpos h
    have hmax : max (Int.log 2 x) emin ≤ max (Int.log 2 y) emin := max_le_max hlog le_rfl
    rcases eq_or_lt_of_le hmax with heq | hlt
    · unfold roundPos
      simp only [heq]
      apply mul_le_mul_of_nonneg_right _ (ulp_pos _ _).le
      have : x / 2 ^ (max (Int.log 2 y) emin - ((p : Int) - 1))
          ≤ y / 2 ^ (max (Int.log 2 y) emin - ((p : Int) - 1)) :=
        div_le_div_of_nonneg_right h (ulp_pos _ _).le
      exact_mod_cast roundHalfEven_mono _ _ this
    · have hemin : emin ≤ max (Int.log 2 x) emin := le_max_right _ _
      have hely : emin < Int.log 2 y := by
        rcases max_cases (Int.log 2 y) emin with ⟨a, _⟩ | ⟨a, _⟩ <;> omega
      have hmy : max (Int.log 2 y) emin = Int.log 2 y := max_eq_left hely.le
      calc roundPos p emin x ≤ 2 ^ (max (Int.log 2 x) emin + 1) := roundPos_le_zpow p emin x
        _ ≤ 2 ^ Int.log 2 y := zpow_le_zpow_right₀ (by norm_num) (by omega)
        _ ≤ roundPos p emin y := zpow_le_roundPos p hp emin y hy hely.le

theorem roundPos_eq (p : Nat) (emin : Int) (x : ℚ) (e : Int) (n : Int)
    (hemin : emin ≤ e) (h1 : (2 : ℚ) ^ e ≤ x) (h2 : x < 2 ^ (e + 1))
    (hn : |x / 2 ^ (e - ((p : Int) - 1)) - n| < 1 / 2) :
    roundPos p emin x = (n : ℚ) * 2 ^ (e - ((p : Int) - 1)) := by
  unfold roundPos
  simp only [log_eq_of_bracket x e h1 h2, max_eq_left hemin]
  rw [roundHalfEven_eq_of_abs_lt _ n hn]

theorem roundPos_repr (p : Nat) (emin : Int) (m : Nat) (k : Int) (hm : m < 2 ^ p)
    (hk : emin - ((p : Int) - 1) ≤ k) :
    roundPos p emin ((m : ℚ) * 2 ^ k) = (m : ℚ) * 2 ^ k := by
  rcases Nat.eq_zero_or_pos m with h0 | hpos
  · subst h0
    simp [roundPos_zero]
  · have hx : (0 : ℚ) < (m : ℚ) * 2 ^ k := by positivity
    have hlt : (m : ℚ) * 2 ^ k < 2 ^ (k + p) := by
      rw [zpow_add₀ (by norm_num : (2 : ℚ) ≠ 0), mul_comm, zpow_natCast]
      apply mul_lt_mul_of_pos_left _ (by positivity)
      exact_mod_cast hm
    have hlog : Int.log 2 ((m : ℚ) * 2 ^ k) < k + p := by
      rw [← Int.lt_zpow_iff_log_lt (by norm_num : 1 < 2) hx]
      simpa using hlt
    unfold roundPos
    simp only
    generalize hE : max (Int.log 2 ((m : ℚ) * 2 ^ k)) emin = e0
    have he0 : e0 - ((p : Int) - 1) ≤ k := by
      rcases max_cases (Int.log 2 ((m : ℚ) * 2 ^ k)) emin with ⟨a, _⟩ | ⟨a, _⟩ <;> omega
    obtain ⟨j, hj⟩ : ∃ j : Nat, k = (e0 - ((p : Int) - 1)) + j :=
      ⟨(k - (e0 - ((p : Int) - 1))).toNat, by omega⟩
    have hdiv : (m : ℚ) * 2 ^ k / 2 ^ (e0 - ((p : Int) - 1)) = (((m * 2 ^ j : Nat) : Int) : ℚ) := by
      rw [div_eq_iff (ulp_pos _ _).ne']
      rw [hj, zpow_add₀ (by norm_num : (2 : ℚ) ≠ 0), zpow_natCast]
      push_cast
      ring
    rw [hdiv, roundHalfEven_intCast]
    rw [hj, zpow_add₀ (by norm_num : (2 : ℚ) ≠ 0), zpow_natCast]
    push_cast
    ring

theorem roundFloat_nonneg (p : Nat) (emin : Int) (x : ℚ) (hx : 0 ≤ x) :
    0 ≤ roundFloat p emin x := by
  unfold roundFloat
  rw [if_neg (not_lt.mpr hx)]
  exact roundPos_nonneg p emin x hx

theorem roundFloat_neg (p : Nat) (emin : Int) (x : ℚ) :
    roundFloat p emin (-x) = -roundFloat p emin x := by
  unfold roundFloat
  rcases lt_trichotomy x 0 with h | h | h
  · rw [if_neg (by linarith), if_pos h]
    simp
  · subst h
    simp [roundPos_zero]
  · rw [if_pos (by linarith), if_neg (by linarith), neg_neg]

theorem roundFloat_mono (p : Nat) (hp : 1 ≤ p) (emin : Int) (x y : ℚ) (h : x ≤ y) :
    roundFloat p emin x ≤ roundFloat p emin y := by
  unfold roundFloat
  split_ifs with hx hy hy
  · exact neg_le_neg (roundPos_mono p hp emin (-y) (-x) (by linarith) (by linarith))
  · have a := roundPos_nonneg p emin (-x) (by linarith)
    have b := roundPos_nonneg p emin y (by linarith)
    linarith
  · linarith
  · exact roundPos_mono p hp emin x y (by linarith) h

theorem roundFloat_repr (p : Nat) (emin : Int) (m : Nat) (k : Int) (hm : m < 2 ^ p)
    (hk : emin - ((p : Int) - 1) ≤ k) :
    roundFloat p emin ((m : ℚ) * 2 ^ k) = (m : ℚ) * 2 ^ k := by
  unfold roundFloat
  rw [if_neg (not_lt.mpr (by positivity))]
  exact roundPos_repr p emin m k hm hk

theorem roundFloat_eq (p : Nat) (emin : Int) (x : ℚ) (e : Int) (n : Int)
    (hemin : emin ≤ e) (h1 : (2 : ℚ) ^ e ≤ x) (h2 : x < 2 ^ (e + 1))
    (hn : |x / 2 ^ (e - ((p : Int) - 1)) - n| < 1 / 2) :
    roundFloat p emin x = (n : ℚ) * 2 ^ (e - ((p : Int) - 1)) := by
  have hx : 0 < x := lt_of_lt_of_le (by positivity) h1
  unfold roundFloat
  rw [if_neg (not_lt.mpr hx.le)]
  exact roundPos_eq p emin x e n hemin h1 h2 hn

theorem f64_mono (x y : ℚ) (h : x ≤ y) : f64 x ≤ f64 y :=
  roundFloat_mono 53 (by norm_num) (-1022) x y h

theorem f32_mono (x y : ℚ) (h : x ≤ y) : f32 x ≤ f32 y :=
  roundFloat_mono 24 (by norm_num) (-126) x y h

theorem f64_nat (n : Nat) (h : n < 2 ^ 53) : f64 (n : ℚ) = n := by
  have := roundFloat_repr 53 (-1022) n 0 h (by norm_num)
  simpa [f64] using this

theorem f32_nat (n : Nat) (h : n < 2 ^ 24) : f32 (n : ℚ) = n := by
  have := roundFloat_repr 24 (-126) n 0 h (by norm_num)
  simpa [f32] using this

theorem f64_zero : f64 0 = 0 := by simpa using f64_nat 0 (by norm_num)

theorem f32_zero : f32 0 = 0 := by simpa using f32_nat 0 (by norm_num)

theorem f64_one : f64 1 = 1 := by simpa using f64_nat 1 (by norm_num)

theorem f64_nonneg (x : ℚ) (h : 0 ≤ x) : 0 ≤ f64 x := roundFloat_nonneg 53 (-1022) x h

theorem f32_nonneg (x : ℚ) (h : 0 ≤ x) : 0 ≤ f32 x := roundFloat_nonneg 24 (-126) x h

theorem f32_neg (x : ℚ) : f32 (-x) = -f32 x := roundFloat_neg 24 (-126) x

theorem f64_half : f64 (1 / 2) = 1 / 2 := by
  have := roundFloat_repr 53 (-1022) 1 (-1) (by norm_num) (by norm_num)
  unfold f64
  norm_num at this ⊢
  exact this

theorem f32_half : f32 (1 / 2) = 1 / 2 := by
  have := roundFloat_repr 24 (-126) 1 (-1) (by norm_num) (by norm_num)
  unfold f32
  norm_num at this ⊢
  exact this

theorem f64_mile : f64 (1609344 / 1000000) = 226495032459717 / 140737488355328 := by
  unfold f64
  rw [roundFloat_eq 53 (-1022) _ 0 7247841038710944 (by norm_num) (by norm_num) (by norm_num)
    (by norm_num [abs_lt])]
  norm_num

theorem f64_fifth : f64 (2 / 10) = 3602879701896397 / 18014398509481984 := by
  unfold f64
  rw [roundFloat_eq 53 (-1022) _ (-3) 7205759403792794 (by norm_num) (by norm_num) (by norm_num)
    (by norm_num [abs_lt])]
  norm_num

theorem f32_fifth : f32 (2 / 10) = 13421773 / 67108864 := by
  unfold f32
  rw [roundFloat_eq 24 (-126) _ (-3) 13421773 (by norm_num) (by norm_num) (by norm_num)
    (by norm_num [abs_lt])]
  norm_num

theorem f64_top : f64 (65535 * (226495032459717 / 140737488355328))
    = 226491576419793 / 2147483648 := by
  unfold f64
  rw [roundFloat_eq 53 (-1022) _ 16 7247730445433376 (by norm_num) (by norm_num) (by norm_num)
    (by norm_num [abs_lt])]
  norm_num

theorem f32_top : f32 (226491576419793 / 2147483648) = 6749975 / 64 := by
  unfold f32
  rw [roundFloat_eq 24 (-126) _ 16 13499950 (by norm_num) (by norm_num) (by norm_num)
    (by norm_num [abs_lt])]
  norm_num

theorem f64_of_int_window (ms : Int) (hlo : 50 ≤ ms) (hhi : ms ≤ 2000) : f64 (ms : ℚ) = ms := by
  have h := f64_nat ms.toNat (by
    have : ms.toNat ≤ 2000 := by omega
    exact lt_of_le_of_lt this (by norm_num))
  have e : ((ms.toNat : Nat) : ℚ) = (ms : ℚ) := by
    have : ((ms.toNat : Nat) : Int) = ms := Int.toNat_of_nonneg (by omega)
    exact_mod_cast congrArg (fun z : Int => (z : ℚ)) this
  rwa [e] at h

theorem f64_of_pos_int (n : Int) (h0 : 0 < n) (h1 : n ≤ 16777216) : f64 (n : ℚ) = n := by
  have e : ((n.toNat : Nat) : ℚ) = (n : ℚ) := by
    have : ((n.toNat : Nat) : Int) = n := Int.toNat_of_nonneg (by omega)
    exact_mod_cast congrArg (fun z : Int => (z : ℚ)) this
  have h := f64_nat n.toNat (by
    have : n.toNat ≤ 16777216 := by omega
    exact lt_of_le_of_lt this (by norm_num))
  rwa [e] at h

theorem f32_of_pos_int (n : Int) (h0 : 0 < n) (h1 : n ≤ 16777216) : f32 (n : ℚ) = n := by
  have e : ((n.toNat : Nat) : ℚ) = (n : ℚ) := by
    have : ((n.toNat : Nat) : Int) = n := Int.toNat_of_nonneg (by omega)
    exact_mod_cast congrArg (fun z : Int => (z : ℚ)) this
  rcases lt_or_eq_of_le h1 with hlt | heq
  · have h := f32_nat n.toNat (by
      have : n.toNat < 16777216 := by omega
      exact lt_of_lt_of_le this (by norm_num))
    rwa [e] at h
  · subst heq
    have := roundFloat_repr 24 (-126) 1 24 (by norm_num) (by norm_num)
    unfold f32
    norm_num at this ⊢
    exact this

theorem roundHalfEven_cases (x : ℚ) :
    roundHalfEven x = ⌊x⌋ ∨ roundHalfEven x = ⌊x⌋ + 1 := by
  unfold roundHalfEven
  simp only
  split_ifs <;> simp

theorem roundFloat_bracket (p : Nat) (emin : Int) (x : ℚ) (e : Int)
    (hemin : emin ≤ e) (h1 : (2 : ℚ) ^ e ≤ x) (h2 : x < 2 ^ (e + 1)) :
    roundFloat p emin x = (roundHalfEven (x / 2 ^ (e - ((p : Int) - 1))) : ℚ)
      * 2 ^ (e - ((p : Int) - 1)) := by
  have hx : 0 < x := lt_of_lt_of_le (by positivity) h1
  unfold roundFloat
  rw [if_neg (not_lt.mpr hx.le)]
  unfold roundPos
  simp only [log_eq_of_bracket x e h1 h2, max_eq_left hemin]

theorem f32_tie_16777219 : f32 16777219 = 16777220 := by
  have hb := roundFloat_bracket 24 (-126) 16777219 24 (by norm_num) (by norm_num) (by norm_num)
  have hu : (2 : ℚ) ^ ((24 : Int) - (((24 : Nat) : Int) - 1)) = 2 := by norm_num
  rw [hu] at hb
  have hfl : ⌊(16777219 : ℚ) / 2⌋ = 8388609 := by
    rw [Int.floor_eq_iff]
    constructor <;> norm_num
  have hr : roundHalfEven ((16777219 : ℚ) / 2) = 8388610 := by
    unfold roundHalfEven
    simp only [hfl]
    norm_num
  unfold f32
  rw [hb, hr]
  norm_num

theorem f32_abs (y : ℚ) : |f32 y| = f32 |y| := by
  rcases le_total 0 y with h | h
  · rw [abs_of_nonneg h, abs_of_nonneg (f32_nonneg y h)]
  · have h' : 0 ≤ -y := by linarith
    have hn := f32_nonneg (-y) h'
    rw [f32_neg] at hn
    rw [abs_of_nonpos h, abs_of_nonpos (by linarith), f32_neg]

theorem f32_ge_fifth (w : ℚ) (h : 2 / 10 ≤ f32 w) : 13421773 / 67108864 ≤ f32 w := by
  by_cases hw : 2 / 10 ≤ w
  · have := f32_mono _ _ hw
    rwa [f32_fifth] at this
  · rw [not_le] at hw
    have hp : f32 (13421772 / 67108864) = 13421772 / 67108864 := by
      have := roundFloat_repr 24 (-126) 13421772 (-26) (by norm_num) (by norm_num)
      unfold f32
      norm_num at this ⊢
      exact this
    by_cases hwp : w ≤ 13421772 / 67108864
    · have := f32_mono _ _ hwp
      rw [hp] at this
      linarith
    · rw [not_le] at hwp
      have hb := roundFloat_bracket 24 (-126) w (-3) (by norm_num)
        (by norm_num; linarith) (by norm_num; linarith)
      have hu : (2 : ℚ) ^ ((-3 : Int) - (((24 : Nat) : Int) - 1)) = 1 / 67108864 := by norm_num
      rw [hu] at hb
      have hfl : ⌊w / (1 / 67108864)⌋ = 13421772 := by
        rw [Int.floor_eq_iff]
        constructor
        · rw [le_div_iff₀ (by norm_num)]
          push_cast
          linarith
        · rw [div_lt_iff₀ (by norm_num)]
          push_cast
          linarith
      unfold f32 at h ⊢
      rw [hb] at h ⊢
      rcases roundHalfEven_cases (w / (1 / 67108864)) with hc | hc
      · rw [hc, hfl] at h
        norm_num at h
      · rw [hc, hfl]
        norm_num

theorem f32_abs_ge_fifth (y : ℚ) : |f32 y| ≥ f64 (2 / 10) ↔ |f32 y| ≥ 2 / 10 := by
  rw [f64_fifth, f32_abs]
  constructor
  · intro h
    have : (2 : ℚ) / 10 ≤ 3602879701896397 / 18014398509481984 := by norm_num
    exact le_trans this h
  · intro h
    have h1 := f32_ge_fifth |y| h
    have : (3602879701896397 : ℚ) / 18014398509481984 ≤ 13421773 / 67108864 := by norm_num
    exact le_trans this h1

theorem roundPos_form (p : Nat) (emin : Int) (x : ℚ) (hx : 0 ≤ x) :
    ∃ (n : Nat) (e : Int), emin ≤ e ∧ n ≤ 2 ^ p ∧
      roundPos p emin x = (n : ℚ) * 2 ^ (e - ((p : Int) - 1)) := by
  have hlt : x < 2 ^ (max (Int.log 2 x) emin + 1) :=
    lt_of_lt_of_le (lt_zpow_log x)
      (zpow_le_zpow_right₀ (by norm_num) (by have := le_max_left (Int.log 2 x) emin; omega))
  have hemin : emin ≤ max (Int.log 2 x) emin := le_max_right _ _
  unfold roundPos
  simp only
  generalize max (Int.log 2 x) emin = e at *
  rw [zpow_succ_split e p] at hlt
  have h0 : (((0 : Int)) : ℚ) ≤ x / 2 ^ (e - ((p : Int) - 1)) := by
    simpa using div_nonneg hx (ulp_pos e p).le
  have h1 : x / 2 ^ (e - ((p : Int) - 1)) ≤ (((2 : Int) ^ p : Int) : ℚ) := by
    rw [div_le_iff₀ (ulp_pos _ _)]
    exact hlt.le
  have a := roundHalfEven_ge_of_ge _ 0 h0
  have b := roundHalfEven_le_of_le _ _ h1
  refine ⟨(roundHalfEven (x / 2 ^ (e - ((p : Int) - 1)))).toNat, e, hemin, ?_, ?_⟩
  · have : ((roundHalfEven (x / 2 ^ (e - ((p : Int) - 1)))).toNat : Int) ≤ ((2 ^ p : Nat) : Int) := by
      rw [Int.toNat_of_nonneg a]
      exact_mod_cast b
    exact_mod_cast this
  · congr 1
    have := Int.toNat_of_nonneg a
    exact_mod_cast (congrArg (fun z : Int => (z : ℚ)) this).symm

theorem roundFloat_idem (p : Nat) (hp : 1 ≤ p) (emin : Int) (x : ℚ) :
    roundFloat p emin (roundFloat p emin x) = roundFloat p emin x := by
  have key : ∀ y : ℚ, 0 ≤ y → roundFloat p emin (roundPos p emin y) = roundPos p emin y := by
    intro y hy
    obtain ⟨n, e, he, hn, hform⟩ := roundPos_form p emin y hy
    rw [hform]
    rcases lt_or_eq_of_le hn with hlt | heq
    · exact roundFloat_repr p emin n _ hlt (by omega)
    · have e2 : (n : ℚ) * 2 ^ (e - ((p : Int) - 1))
          = ((2 ^ (p - 1) : Nat) : ℚ) * 2 ^ (e - ((p : Int) - 1) + 1) := by
        rw [heq, zpow_add₀ (by norm_num : (2 : ℚ) ≠ 0)]
        push_cast
        have : (2 : ℚ) ^ p = 2 ^ (p - 1) * 2 := by
          rw [← pow_succ]
          congr 1
          omega
        rw [this]
        ring
      rw [e2]
      exact roundFloat_repr p emin _ _ (Nat.pow_lt_pow_right (by norm_num) (by omega)) (by omega)
  by_cases hx : x < 0
  · have h1 : roundFloat p emin x = -roundPos p emin (-x) := by
      unfold roundFloat
      rw [if_pos hx]
    rw [h1, roundFloat_neg, key (-x) (by linarith)]
  · have h1 : roundFloat p emin x = roundPos p emin x := by
      unfold roundFloat
      rw [if_neg hx]
    rw [h1, key x (by linarith)]

theorem f32_idem (x : ℚ) : f32 (f32 x) = f32 x := roundFloat_idem 24 (by norm_num) (-126) x

/-- A `float32` value of at least 1/4 is a whole number of units `2 ^ (-26)`. -/
theorem f32_grid (z : ℚ) (h : 1 / 4 ≤ f32 z) : ∃ m : Nat, f32 z = (m : ℚ) / 67108864 := by
  have hz : 0 ≤ z := by
    by_contra hneg
    rw [not_le] at hneg
    have := f32_mono z 0 hneg.le
    rw [f32_zero] at this
    linarith
  have hform : f32 z = roundPos 24 (-126) z := by
    unfold f32 roundFloat
    rw [if_neg (not_lt.mpr hz)]
  obtain ⟨n, e, he, hn, hf⟩ := roundPos_form 24 (-126) z hz
  rw [hform, hf] at h ⊢
  have he3 : -3 ≤ e := by
    by_contra hlt
    rw [not_le] at hlt
    have h1 : (2 : ℚ) ^ (e - (((24 : Nat) : Int) - 1)) ≤ 2 ^ ((-27 : Int)) :=
      zpow_le_zpow_right₀ (by norm_num) (by push_cast; omega)
    have h2 : (n : ℚ) ≤ 2 ^ 24 := by exact_mod_cast hn
    have h3 : (n : ℚ) * 2 ^ (e - (((24 : Nat) : Int) - 1)) ≤ 2 ^ 24 * 2 ^ ((-27 : Int)) :=
      mul_le_mul h2 h1 (by positivity) (by positivity)
    norm_num at h3
    linarith
  obtain ⟨j, hj⟩ : ∃ j : Nat, e - (((24 : Nat) : Int) - 1) = (-26 : Int) + j :=
    ⟨(e + 3).toNat, by push_cast; omega⟩
  refine ⟨n * 2 ^ j, ?_⟩
  rw [hj, zpow_add₀ (by norm_num : (2 : ℚ) ≠ 0), zpow_natCast]
  push_cast
  norm_num
  ring

/-- The difference of two multiples of `2 ^ (-26)` that is below 1/4 in magnitude
is a `float32` value. -/
theorem f32_sub_exact (a b : Nat) (h : |(a : ℚ) / 67108864 - (b : ℚ) / 67108864| < 1 / 4) :
    f32 ((a : ℚ) / 67108864 - (b : ℚ) / 67108864) = (a : ℚ) / 67108864 - (b : ℚ) / 67108864 := by
  rw [abs_lt] at h
  have key : ∀ m : Nat, m < 2 ^ 24 → f32 ((m : ℚ) / 67108864) = (m : ℚ) / 67108864 := by
    intro m hm
    have := roundFloat_repr 24 (-126) m (-26) hm (by norm_num)
    have e : (m : ℚ) / 67108864 = (m : ℚ) * 2 ^ (-26 : Int) := by norm_num; ring
    unfold f32
    rw [e]
    exact this
  rcases le_total b a with hab | hab
  · have e : (a : ℚ) / 67108864 - (b : ℚ) / 67108864 = ((a - b : Nat) : ℚ) / 67108864 := by
      rw [Nat.cast_sub hab]; ring
    rw [e]
    apply key
    have : ((a - b : Nat) : ℚ) < 16777216 := by
      rw [Nat.cast_sub hab]
      linarith
    exact_mod_cast this
  · have e : (a : ℚ) / 67108864 - (b : ℚ) / 67108864 = -(((b - a : Nat) : ℚ) / 67108864) := by
      rw [Nat.cast_sub hab]; ring
    rw [e, f32_neg]
    congr 1
    apply key
    have : ((b - a : Nat) : ℚ) < 16777216 := by
      rw [Nat.cast_sub hab]
      linarith
    exact_mod_cast this

theorem threshold_of_exact (k v : ℚ) (h : |k - v| ≥ 2 / 10) : |f32 (k - v)| ≥ 2 / 10 := by
  rw [f32_abs]
  have := f32_mono _ _ h
  rw [f32_fifth] at this
  have e : (2 : ℚ) / 10 ≤ 13421773 / 67108864 := by norm_num
  exact le_trans e this

theorem threshold_exact (k v : ℚ) (hk : f32 k = k) (hv : f32 v = v)
    (hk0 : k = 0 ∨ 1 / 2 ≤ k) : |f32 (k - v)| ≥ 2 / 10 ↔ |k - v| ≥ 2 / 10 := by
  refine ⟨?_, threshold_of_exact k v⟩
  intro h
  by_contra hlt
  rw [ge_iff_le, not_le] at hlt
  rcases hk0 with h0 | h0
  · subst h0
    rw [zero_sub, f32_neg, hv] at h
    rw [zero_sub] at hlt
    linarith
  · have hlt2 := abs_lt.mp hlt
    have hk4 : 1 / 4 ≤ f32 k := by rw [hk]; linarith
    have hv4 : 1 / 4 ≤ f32 v := by rw [hv]; linarith
    obtain ⟨a, ha⟩ := f32_grid k hk4
    obtain ⟨b, hb⟩ := f32_grid v hv4
    rw [hk] at ha
    rw [hv] at hb
    have hex := f32_sub_exact a b (by rw [← ha, ← hb]; exact lt_trans hlt (by norm_num))
    rw [← ha, ← hb] at hex
    rw [hex] at h
    linarith

/-! ## Speed estimator: rounding -/

theorem steps_ge_one (ms : Int) (hlo : 50 ≤ ms) : 1 ≤ f64 ((ms : ℚ) / 50) := by
  have hq : (50 : ℚ) ≤ (ms : ℚ) := by exact_mod_cast hlo
  have h : (1 : ℚ) ≤ (ms : ℚ) / 50 := by
    rw [le_div_iff₀ (by norm_num)]; linarith
  have := f64_mono _ _ h
  rwa [f64_one] at this

theorem f64_wrapped_delta (c0 c1 : Nat) :
    f64 ((((((c1 : Int) - (c0 : Int)) % 2 ^ 16).toNat : Nat) : ℚ))
      = ((((c1 : Int) - (c0 : Int)) % 65536 : Int) : ℚ) := by
  have h0 : 0 ≤ ((c1 : Int) - (c0 : Int)) % 65536 := Int.emod_nonneg _ (by norm_num)
  have h1 : ((c1 : Int) - (c0 : Int)) % 65536 < 65536 := Int.emod_lt_of_pos _ (by norm_num)
  have e : (2 : Int) ^ 16 = 65536 := by norm_num
  rw [e]
  rw [f64_nat _ (by
    have : (((c1 : Int) - (c0 : Int)) % 65536).toNat < 65536 := by omega
    exact lt_trans this (by norm_num))]
  have h2 := Int.toNat_of_nonneg h0
  exact_mod_cast congrArg (fun z : Int => (z : ℚ)) h2

theorem mph_bounds (c0 c1 : Nat) (ms : Int) (hlo : 50 ≤ ms) :
    0 ≤ f64 (((((c1 : Int) - (c0 : Int)) % 65536 : Int) : ℚ) / f64 ((ms : ℚ) / 50)) ∧
    f64 (((((c1 : Int) - (c0 : Int)) % 65536 : Int) : ℚ) / f64 ((ms : ℚ) / 50)) ≤ 65535 := by
  obtain ⟨d0, d1⟩ := wrapped_delta_bounds c0 c1
  have hs := steps_ge_one ms hlo
  have hpos : (0 : ℚ) < f64 ((ms : ℚ) / 50) := by linarith
  constructor
  · exact f64_nonneg _ (div_nonneg d0 hpos.le)
  · have h : ((((c1 : Int) - (c0 : Int)) % 65536 : Int) : ℚ) / f64 ((ms : ℚ) / 50)
        ≤ ((65535 : Nat) : ℚ) := by
      rw [div_le_iff₀ hpos]
      push_cast
      nlinarith
    have := f64_mono _ _ h
    rwa [f64_nat 65535 (by norm_num)] at this

theorem ieee_in_window (c : CanListener) (now : Time) (cnt : Nat)
    (hhave : c.speedHave = true)
    (hlo : 50 ≤ elapsedMs c now) (hhi : elapsedMs c now ≤ 2000) :
    c.updateSpeedFromCounter_ieee now cnt =
      if c.speedLastUpdate.IsZero = true ∨ now.ns - c.speedLastUpdate.ns ≥ 100000000 ∨
          |f32 (speedCandidate_ieee c.speedLastCnt cnt (elapsedMs c now) - c.speedLastKmh)|
            ≥ 2 / 10 then
        ({ rebased c now cnt with
            speedLastKmh := speedCandidate_ieee c.speedLastCnt cnt (elapsedMs c now)
            speedLastUpdate := now }).emit "speedKmh"
          (speedCandidate_ieee c.speedLastCnt cnt (elapsedMs c now))
      else rebased c now cnt := by
  unfold elapsedMs at *
  generalize hms : Duration.Milliseconds (now.Sub c.speedLastAt) = ms at *
  have hsteps : ¬ (f64 ((ms : ℚ) / 50) ≤ 0) := by
    have := steps_ge_one ms hlo
    rw [not_le]; linarith
  have hwin : ¬ (ms < 50 ∨ ms > 2000) := by omega
  have hsub := sub_ge_iff now c.speedLastUpdate (100 * Millisecond)
    (by unfold minDuration Millisecond; norm_num) (by unfold maxDuration Millisecond; norm_num)
  have hmph : ¬ (f64 (((((cnt : Int) - (c.speedLastCnt : Int)) % 65536 : Int) : ℚ)
      / f64 ((ms : ℚ) / 50)) < 0) := by
    rw [not_lt]
    exact (mph_bounds c.speedLastCnt cnt ms hlo).1
  unfold CanListener.updateSpeedFromCounter_ieee
  simp only [hhave, hms, Bool.not_true, Bool.false_eq_true, if_false, hwin,
    f64_of_int_window ms hlo hhi, hsteps, f64_wrapped_delta, hmph,
    hsub, speedCandidate_ieee, rebased, f32_abs_ge_fifth]
  have hM : (100 : Int) * Millisecond = 100000000 := by unfold Millisecond; norm_num
  rw [hM]

theorem direct_in_window (c : CanListener) (now : Time) (cnt : Nat)
    (hhave : c.speedHave = true)
    (hlo : 50 ≤ elapsedMs c now) (hhi : elapsedMs c now ≤ 2000) :
    updateSpeedDirect c now cnt =
      if c.speedLastUpdate.IsZero = true ∨ now.ns - c.speedLastUpdate.ns ≥ 100000000 ∨
          |f32 (speedCandidate_ieee c.speedLastCnt cnt (elapsedMs c now) - c.speedLastKmh)|
            ≥ 2 / 10 then
        ({ rebased c now cnt with
            speedLastKmh := speedCandidate_ieee c.speedLastCnt cnt (elapsedMs c now)
            speedLastUpdate := now }).emit "speedKmh"
          (speedCandidate_ieee c.speedLastCnt cnt (elapsedMs c now))
      else rebased c now cnt := by
  unfold elapsedMs at *
  generalize hms : Duration.Milliseconds (now.Sub c.speedLastAt) = ms at *
  have hwin : ¬ (ms < 50 ∨ ms > 2000) := by omega
  have hsub := sub_ge_iff now c.speedLastUpdate (100 * Millisecond)
    (by unfold minDuration Millisecond; norm_num) (by unfold maxDuration Millisecond; norm_num)
  unfold updateSpeedDirect
  simp only [hhave, hms, Bool.not_true, Bool.false_eq_true, if_false, hwin,
    f64_of_int_window ms hlo hhi, f64_wrapped_delta,
    hsub, speedCandidate_ieee, rebased, f32_abs_ge_fifth]
  have hM : (100 : Int) * Millisecond = 100000000 := by unfold Millisecond; norm_num
  rw [hM]

theorem ieee_eq_direct (c : CanListener) (now : Time) (cnt : Nat) :
    c.updateSpeedFromCounter_ieee now cnt = updateSpeedDirect c now cnt := by
  by_cases hhave : c.speedHave = true
  · by_cases hwin : 50 ≤ elapsedMs c now ∧ elapsedMs c now ≤ 2000
    · rw [ieee_in_window c now cnt hhave hwin.1 hwin.2,
        direct_in_window c now cnt hhave hwin.1 hwin.2]
    · have hout : Duration.Milliseconds (now.Sub c.speedLastAt) < 50 ∨
          Duration.Milliseconds (now.Sub c.speedLastAt) > 2000 := by
        unfold elapsedMs at hwin
        omega
      unfold CanListener.updateSpeedFromCounter_ieee updateSpeedDirect
      simp only [hhave, Bool.not_true, Bool.false_eq_true, if_false, hout, if_true]
  · have hf : c.speedHave = false := by simpa using hhave
    unfold CanListener.updateSpeedFromCounter_ieee updateSpeedDirect
    simp only [hf, Bool.not_false, if_true]

theorem speedCandidate_ieee_bounds (c0 c1 : Nat) (ms : Int) (hlo : 50 ≤ ms) :
    0 ≤ speedCandidate_ieee c0 c1 ms ∧ speedCandidate_ieee c0 c1 ms ≤ 6749975 / 64 := by
  obtain ⟨m0, m1⟩ := mph_bounds c0 c1 ms hlo
  unfold speedCandidate_ieee
  rw [f64_mile]
  constructor
  · exact f32_nonneg _ (f64_nonneg _ (mul_nonneg m0 (by norm_num)))
  · have h : f64 (((((c1 : Int) - (c0 : Int)) % 65536 : Int) : ℚ) / f64 ((ms : ℚ) / 50))
        * (226495032459717 / 140737488355328)
        ≤ 65535 * (226495032459717 / 140737488355328) :=
      mul_le_mul_of_nonneg_right m1 (by norm_num)
    have h2 := f32_mono _ _ (f64_mono _ _ h)
    rwa [f64_top, f32_top] at h2

theorem ieee_outChan (c : CanListener) (now : Time) (cnt : Nat) :
    (c.updateSpeedFromCounter_ieee now cnt).outChan = c.outChan ∨
    ∃ k : ℚ, 0 ≤ k ∧ k ≤ 6749975 / 64 ∧
      (c.updateSpeedFromCounter_ieee now cnt).outChan
        = c.outChan ++ [{ Name := "speedKmh", Value := k }] := by
  by_cases hhave : c.speedHave = true
  · by_cases hwin : 50 ≤ elapsedMs c now ∧ elapsedMs c now ≤ 2000
    · rw [ieee_in_window c now cnt hhave hwin.1 hwin.2]
      obtain ⟨k0, k1⟩ := speedCandidate_ieee_bounds c.speedLastCnt cnt (elapsedMs c now) hwin.1
      split
      · rcases emit_outChan_cases ({ rebased c now cnt with
            speedLastKmh := speedCandidate_ieee c.speedLastCnt cnt (elapsedMs c now)
            speedLastUpdate := now }) "speedKmh"
            (speedCandidate_ieee c.speedLastCnt cnt (elapsedMs c now)) with h | h
        · exact Or.inl h
        · exact Or.inr ⟨_, k0, k1, h⟩
      · exact Or.inl rfl
    · have hout : Duration.Milliseconds (now.Sub c.speedLastAt) < 50 ∨
          Duration.Milliseconds (now.Sub c.speedLastAt) > 2000 := by
        unfold elapsedMs at hwin
        omega
      left
      unfold CanListener.updateSpeedFromCounter_ieee
      simp only [hhave, Bool.not_true, Bool.false_eq_true, if_false, hout, if_true]
  · have hf : c.speedHave = false := by simpa using hhave
    left
    unfold CanListener.updateSpeedFromCounter_ieee
    simp only [hf, Bool.not_false, if_true]

theorem speedCandidate_ieee_zero_or_half (c0 c1 : Nat) (ms : Int) (hlo : 50 ≤ ms) (hhi : ms ≤ 99) :
    speedCandidate_ieee c0 c1 ms = 0 ∨ 1 / 2 ≤ speedCandidate_ieee c0 c1 ms := by
  have h0 : 0 ≤ ((c1 : Int) - (c0 : Int)) % 65536 := Int.emod_nonneg _ (by norm_num)
  unfold speedCandidate_ieee
  generalize ((c1 : Int) - (c0 : Int)) % 65536 = d at *
  rcases eq_or_lt_of_le h0 with hd | hd
  · left
    rw [← hd]
    simp [f64_zero, f32_zero]
  · right
    have hs1 := steps_ge_one ms hlo
    have hs2 : f64 ((ms : ℚ) / 50) ≤ 2 := by
      have hq : (ms : ℚ) ≤ 99 := by exact_mod_cast hhi
      have h : (ms : ℚ) / 50 ≤ ((2 : Nat) : ℚ) := by
        rw [div_le_iff₀ (by norm_num)]
        push_cast
        linarith
      have := f64_mono _ _ h
      rwa [f64_nat 2 (by norm_num)] at this
    have hpos : (0 : ℚ) < f64 ((ms : ℚ) / 50) := by linarith
    have hdq : (1 : ℚ) ≤ (d : ℚ) := by exact_mod_cast hd
    have hr : (1 : ℚ) / 2 ≤ (d : ℚ) / f64 ((ms : ℚ) / 50) := by
      rw [le_div_iff₀ hpos]
      linarith
    have hm := f64_mono _ _ hr
    rw [f64_half] at hm
    rw [f64_mile]
    have hp : (1 : ℚ) / 2 ≤ f64 ((d : ℚ) / f64 ((ms : ℚ) / 50))
        * (226495032459717 / 140737488355328) := by
      nlinarith
    have hz := f64_mono _ _ hp
    rw [f64_half] at hz
    have := f32_mono _ _ hz
    rwa [f32_half] at this

theorem milliseconds_lt_100 (d : Int) (h : d < 100 * Millisecond) :
    Duration.Milliseconds d < 100 := by
  unfold Duration.Milliseconds
  unfold Millisecond at h
  by_cases hd : 0 ≤ d
  · rw [Int.tdiv_eq_ediv hd (by norm_num)]
    omega
  · have hneg : d.tdiv 1000000 = -((-d).tdiv 1000000) := by
      rw [Int.neg_tdiv, Int.neg_neg]
    have hnn : 0 ≤ (-d).tdiv 1000000 := Int.tdiv_nonneg (by omega) (by norm_num)
    omega

theorem elapsedMs_lt_100 (c : CanListener) (now : Time)
    (hord : c.speedLastUpdate.ns ≤ c.speedLastAt.ns)
    (hrecent : now.ns - c.speedLastUpdate.ns < 100 * Millisecond) :
    elapsedMs c now ≤ 99 := by
  have h : now.Sub c.speedLastAt < 100 * Millisecond := by
    unfold Millisecond at *
    simp only [Time.Sub, minDuration, maxDuration]
    split_ifs <;> omega
  have := milliseconds_lt_100 _ h
  unfold elapsedMs
  omega

theorem speedCandidate_ieee_idem (c0 c1 : Nat) (ms : Int) :
    f32 (speedCandidate_ieee c0 c1 ms) = speedCandidate_ieee c0 c1 ms := by
  unfold speedCandidate_ieee
  exact f32_idem _

theorem ieee_invariants (c : CanListener) (now : Time) (cnt : Nat) :
    (f32 c.speedLastKmh = c.speedLastKmh →
      f32 (c.updateSpeedFromCounter_ieee now cnt).speedLastKmh
        = (c.updateSpeedFromCounter_ieee now cnt).speedLastKmh) ∧
    (c.speedLastUpdate.ns ≤ c.speedLastAt.ns → c.speedLastAt.ns ≤ now.ns →
      (c.updateSpeedFromCounter_ieee now cnt).speedLastUpdate.ns
        ≤ (c.updateSpeedFromCounter_ieee now cnt).speedLastAt.ns) := by
  by_cases hhave : c.speedHave = true
  · by_cases hwin : 50 ≤ elapsedMs c now ∧ elapsedMs c now ≤ 2000
    · rw [ieee_in_window c now cnt hhave hwin.1 hwin.2]
      split
      · rw [(emit_fields _ _ _).1, (emit_fields _ _ _).2.1, (emit_fields _ _ _).2.2.2.1]
        exact ⟨fun _ => speedCandidate_ieee_idem _ _ _, fun _ _ => le_refl _⟩
      · exact ⟨fun h => h, fun h1 h2 => le_trans h1 h2⟩
    · have hout : Duration.Milliseconds (now.Sub c.speedLastAt) < 50 ∨
          Duration.Milliseconds (now.Sub c.speedLastAt) > 2000 := by
        unfold elapsedMs at hwin
        omega
      unfold CanListener.updateSpeedFromCounter_ieee
      simp only [hhave, Bool.not_true, Bool.false_eq_true, if_false, hout, if_true]
      exact ⟨fun h => h, fun h1 h2 => le_trans h1 h2⟩
  · have hf : c.speedHave = false := by simpa using hhave
    unfold CanListener.updateSpeedFromCounter_ieee
    simp only [hf, Bool.not_false, if_true]
    exact ⟨fun h => h, fun h1 h2 => le_trans h1 h2⟩

theorem speedCandidate_ieee_508 : speedCandidate_ieee 0 9 508 = 747425 / 524288 := by
  have e1 : f64 (254 / 25) = 2859785763380265 / 281474976710656 := by
    unfold f64
    rw [roundFloat_eq 53 (-1022) _ 3 5719571526760530 (by norm_num) (by norm_num) (by norm_num)
      (by norm_num [abs_lt])]
    norm_num
  have e2 : f64 (844424930131968 / 953261921126755) = 3989409118733707 / 4503599627370496 := by
    unfold f64
    rw [roundFloat_eq 53 (-1022) _ (-1) 7978818237467414 (by norm_num) (by norm_num) (by norm_num)
      (by norm_num [abs_lt])]
    norm_num
  have e3 : f64 (903581347842681958280527580919 / 633825300114114700748351602688) = 6420331628779379 / 4503599627370496 := by
    unfold f64
    rw [roundFloat_eq 53 (-1022) _ 0 6420331628779379 (by norm_num) (by norm_num) (by norm_num)
      (by norm_num [abs_lt])]
    norm_num
  have e4 : f32 (6420331628779379 / 4503599627370496) = 747425 / 524288 := by
    unfold f32
    rw [roundFloat_eq 24 (-126) _ 0 11958800 (by norm_num) (by norm_num) (by norm_num)
      (by norm_num [abs_lt])]
    norm_num
  unfold speedCandidate_ieee
  rw [f64_mile]
  norm_num [e1, e2, e3, e4]

theorem steadyListener_reached :
    gapListener.updateSpeedFromCounter_ieee ⟨1508000000⟩ 9 = steadyListener := by
  rw [ieee_in_window gapListener ⟨1508000000⟩ 9 rfl (by decide) (by decide)]
  have hz : gapListener.speedLastUpdate.IsZero = true := rfl
  have h1 : elapsedMs gapListener ⟨1508000000⟩ = 508 := by decide
  have hc : gapListener.speedLastCnt = 0 := rfl
  rw [if_pos (Or.inl hz), h1, hc, speedCandidate_ieee_508]
  rfl

theorem speedCandidate_ieee_99 : speedCandidate_ieee 9 11 99 = 13636521 / 8388608 := by
  have e1 : f64 (99 / 50) = 4458563631096791 / 2251799813685248 := by
    unfold f64
    rw [roundFloat_eq 53 (-1022) _ 0 8917127262193582 (by norm_num) (by norm_num) (by norm_num)
      (by norm_num [abs_lt])]
    norm_num

  have e2 : f64 (4503599627370496 / 4458563631096791) = 4549090532697471 / 4503599627370496 := by
    unfold f64
    rw [roundFloat_eq 53 (-1022) _ 0 4549090532697471 (by norm_num) (by norm_num) (by norm_num)
      (by norm_num [abs_lt])]
    norm_num

  have e3 : f64 (1030346407865504992884155275707 / 633825300114114700748351602688) = 7321051554253479 / 4503599627370496 := by
    unfold f64
    rw [roundFloat_eq 53 (-1022) _ 0 7321051554253479 (by norm_num) (by norm_num) (by norm_num)
      (by norm_num [abs_lt])]
    norm_num

  have e4 : f32 (7321051554253479 / 4503599627370496) = 13636521 / 8388608 := by
    unfold f32
    rw [roundFloat_eq 24 (-126) _ 0 13636521 (by norm_num) (by norm_num) (by norm_num)
      (by norm_num [abs_lt])]
    norm_num
  unfold speedCandidate_ieee
  rw [f64_mile]
  norm_num [e1, e2, e3, e4]

theorem f32_steady : f32 (747425 / 524288) = 747425 / 524288 := by
  have := roundFloat_repr 24 (-126) 747425 (-19) (by norm_num) (by norm_num)
  unfold f32
  norm_num at this ⊢
  exact this

/-- Claim C7. For every speed-filter state in which a speed `v` was already
emitted at time `Tu` and every in-window sample at time `now`, with `k` the
candidate speed the code computes, a `float32`: when `now - Tu >= 100 ms` or the
`float32` difference `k - v` the code takes is at least 0.2 in magnitude, the
update records `(k, now)` as last emission and emits "speedKmh" = `k`; when
`now - Tu < 100 ms` and that difference is below 0.2, nothing is emitted and the
last-emitted speed and time stay `(v, Tu)`; while the output queue has room the
reading is appended, with `(k, now)` recorded, if and only if one of the two
thresholds is reached. The `float32` difference reaches 0.2 whenever the exact
difference `|k - v|` does; and in every state in which `v` is a `float32` value
and the last emission is not later than the baseline, the two reach 0.2 together
when `now - Tu < 100 ms`, so that all of the above holds with `|k - v|` taken
exactly. Both conditions hold after `Start` and are kept by every update whose
time is not before the baseline. -/
theorem speed_emission_thresholds (c : CanListener) (now : Time) (cnt : Nat)
    (hhave : c.speedHave = true) (hemitted : c.speedLastUpdate.IsZero = false)
    (hlo : 50 ≤ elapsedMs c now) (hhi : elapsedMs c now ≤ 2000) :
    ((now.ns - c.speedLastUpdate.ns ≥ 100 * Millisecond ∨
        |f32 (speedCandidate_ieee c.speedLastCnt cnt (elapsedMs c now) - c.speedLastKmh)|
          ≥ 2 / 10) →
      c.updateSpeedFromCounter_ieee now cnt =
        ({ c with
            speedLastCnt := cnt
            speedLastAt := now
            speedLastKmh := speedCandidate_ieee c.speedLastCnt cnt (elapsedMs c now)
            speedLastUpdate := now }).emit "speedKmh"
          (speedCandidate_ieee c.speedLastCnt cnt (elapsedMs c now))) ∧
    ((now.ns - c.speedLastUpdate.ns < 100 * Millisecond ∧
        |f32 (speedCandidate_ieee c.speedLastCnt cnt (elapsedMs c now) - c.speedLastKmh)|
          < 2 / 10) →
      c.updateSpeedFromCounter_ieee now cnt = { c with speedLastCnt := cnt, speedLastAt := now } ∧
      (c.updateSpeedFromCounter_ieee now cnt).outChan = c.outChan ∧
      (c.updateSpeedFromCounter_ieee now cnt).speedLastKmh = c.speedLastKmh ∧
      (c.updateSpeedFromCounter_ieee now cnt).speedLastUpdate = c.speedLastUpdate) ∧
    (c.outChan.length < 400 →
      ((c.updateSpeedFromCounter_ieee now cnt).outChan = c.outChan ++
          [{ Name := "speedKmh",
             Value := speedCandidate_ieee c.speedLastCnt cnt (elapsedMs c now) }] ∧
        (c.updateSpeedFromCounter_ieee now cnt).speedLastKmh
          = speedCandidate_ieee c.speedLastCnt cnt (elapsedMs c now) ∧
        (c.updateSpeedFromCounter_ieee now cnt).speedLastUpdate = now
       ↔ now.ns - c.speedLastUpdate.ns ≥ 100 * Millisecond ∨
        |f32 (speedCandidate_ieee c.speedLastCnt cnt (elapsedMs c now) - c.speedLastKmh)|
          ≥ 2 / 10)) ∧
    (|speedCandidate_ieee c.speedLastCnt cnt (elapsedMs c now) - c.speedLastKmh| ≥ 2 / 10 →
      |f32 (speedCandidate_ieee c.speedLastCnt cnt (elapsedMs c now) - c.speedLastKmh)|
        ≥ 2 / 10) ∧
    (f32 c.speedLastKmh = c.speedLastKmh → c.speedLastUpdate.ns ≤ c.speedLastAt.ns →
      now.ns - c.speedLastUpdate.ns < 100 * Millisecond →
      (|f32 (speedCandidate_ieee c.speedLastCnt cnt (elapsedMs c now) - c.speedLastKmh)|
          ≥ 2 / 10
        ↔ |speedCandidate_ieee c.speedLastCnt cnt (elapsedMs c now) - c.speedLastKmh|
          ≥ 2 / 10)) ∧
    (f32 c.speedLastKmh = c.speedLastKmh → c.speedLastUpdate.ns ≤ c.speedLastAt.ns →
      c.outChan.length < 400 →
      ((c.updateSpeedFromCounter_ieee now cnt).outChan = c.outChan ++
          [{ Name := "speedKmh",
             Value := speedCandidate_ieee c.speedLastCnt cnt (elapsedMs c now) }] ∧
        (c.updateSpeedFromCounter_ieee now cnt).speedLastKmh
          = speedCandidate_ieee c.speedLastCnt cnt (elapsedMs c now) ∧
        (c.updateSpeedFromCounter_ieee now cnt).speedLastUpdate = now
       ↔ now.ns - c.speedLastUpdate.ns ≥ 100 * Millisecond ∨
        |speedCandidate_ieee c.speedLastCnt cnt (elapsedMs c now) - c.speedLastKmh|
          ≥ 2 / 10)) ∧
    (f32 c.speedLastKmh = c.speedLastKmh → c.speedLastUpdate.ns ≤ c.speedLastAt.ns →
      (now.ns - c.speedLastUpdate.ns < 100 * Millisecond ∧
        |speedCandidate_ieee c.speedLastCnt cnt (elapsedMs c now) - c.speedLastKmh|
          < 2 / 10) →
      (c.updateSpeedFromCounter_ieee now cnt).outChan = c.outChan ∧
      (c.updateSpeedFromCounter_ieee now cnt).speedLastKmh = c.speedLastKmh ∧
      (c.updateSpeedFromCounter_ieee now cnt).speedLastUpdate = c.speedLastUpdate) ∧
    (∀ c0 : CanListener, f32 c0.Start.speedLastKmh = c0.Start.speedLastKmh ∧
      c0.Start.speedLastUpdate.ns ≤ c0.Start.speedLastAt.ns) ∧
    (∀ (s : CanListener) (tm : Time) (n : Nat),
      (f32 s.speedLastKmh = s.speedLastKmh →
        f32 (s.updateSpeedFromCounter_ieee tm n).speedLastKmh
          = (s.updateSpeedFromCounter_ieee tm n).speedLastKmh) ∧
      (s.speedLastUpdate.ns ≤ s.speedLastAt.ns → s.speedLastAt.ns ≤ tm.ns →
        (s.updateSpeedFromCounter_ieee tm n).speedLastUpdate.ns
          ≤ (s.updateSpeedFromCounter_ieee tm n).speedLastAt.ns)) := by
  have h := ieee_in_window c now cnt hhave hlo hhi
  have hM : (100 : Int) * Millisecond = 100000000 := by unfold Millisecond; norm_num
  rw [hM]
  simp only [hemitted, Bool.false_eq_true, false_or] at h
  generalize hk : speedCandidate_ieee c.speedLastCnt cnt (elapsedMs c now) = k at *
  have hyes : (now.ns - c.speedLastUpdate.ns ≥ 100000000 ∨ |f32 (k - c.speedLastKmh)| ≥ 2 / 10) →
      c.updateSpeedFromCounter_ieee now cnt =
        ({ c with
            speedLastCnt := cnt
            speedLastAt := now
            speedLastKmh := k
            speedLastUpdate := now }).emit "speedKmh" k := by
    intro hc
    rw [h, if_pos hc]
    rfl
  have hno : ¬ (now.ns - c.speedLastUpdate.ns ≥ 100000000 ∨
        |f32 (k - c.speedLastKmh)| ≥ 2 / 10) →
      c.updateSpeedFromCounter_ieee now cnt = { c with speedLastCnt := cnt, speedLastAt := now } := by
    intro hc
    rw [h, if_neg hc]
    rfl
  have hstay : (now.ns - c.speedLastUpdate.ns < 100000000 ∧ |f32 (k - c.speedLastKmh)| < 2 / 10) →
      c.updateSpeedFromCounter_ieee now cnt = { c with speedLastCnt := cnt, speedLastAt := now } ∧
      (c.updateSpeedFromCounter_ieee now cnt).outChan = c.outChan ∧
      (c.updateSpeedFromCounter_ieee now cnt).speedLastKmh = c.speedLastKmh ∧
      (c.updateSpeedFromCounter_ieee now cnt).speedLastUpdate = c.speedLastUpdate := by
    rintro ⟨h1, h2⟩
    have hc : ¬ (now.ns - c.speedLastUpdate.ns ≥ 100000000 ∨
        |f32 (k - c.speedLastKmh)| ≥ 2 / 10) := by
      rintro (h3 | h3)
      · omega
      · exact absurd h2 (not_lt.mpr h3)
    rw [hno hc]
    exact ⟨rfl, rfl, rfl, rfl⟩
  have hiff : c.outChan.length < 400 →
      ((c.updateSpeedFromCounter_ieee now cnt).outChan = c.outChan ++
          [{ Name := "speedKmh", Value := k }] ∧
        (c.updateSpeedFromCounter_ieee now cnt).speedLastKmh = k ∧
        (c.updateSpeedFromCounter_ieee now cnt).speedLastUpdate = now
       ↔ now.ns - c.speedLastUpdate.ns ≥ 100000000 ∨ |f32 (k - c.speedLastKmh)| ≥ 2 / 10) := by
    intro hroom
    constructor
    · rintro ⟨hout, -, -⟩
      by_contra hc
      rw [hno hc] at hout
      simp at hout
    · intro hc
      rw [hyes hc]
      exact ⟨emit_outChan _ _ _ hroom, (emit_fields _ _ _).1, (emit_fields _ _ _).2.1⟩
  have hexact : f32 c.speedLastKmh = c.speedLastKmh → c.speedLastUpdate.ns ≤ c.speedLastAt.ns →
      now.ns - c.speedLastUpdate.ns < 100000000 →
      (|f32 (k - c.speedLastKmh)| ≥ 2 / 10 ↔ |k - c.speedLastKmh| ≥ 2 / 10) := by
    intro hv hord hrecent
    have hms := elapsedMs_lt_100 c now hord (by rw [hM]; exact hrecent)
    have hk0 := speedCandidate_ieee_zero_or_half c.speedLastCnt cnt (elapsedMs c now) hlo hms
    have hkk := speedCandidate_ieee_idem c.speedLastCnt cnt (elapsedMs c now)
    rw [hk] at hk0 hkk
    exact threshold_exact k c.speedLastKmh hkk hv hk0
  have hcond : f32 c.speedLastKmh = c.speedLastKmh → c.speedLastUpdate.ns ≤ c.speedLastAt.ns →
      ((now.ns - c.speedLastUpdate.ns ≥ 100000000 ∨ |f32 (k - c.speedLastKmh)| ≥ 2 / 10)
        ↔ (now.ns - c.speedLastUpdate.ns ≥ 100000000 ∨ |k - c.speedLastKmh| ≥ 2 / 10)) := by
    intro hv hord
    by_cases hr : now.ns - c.speedLastUpdate.ns ≥ 100000000
    · simp [hr]
    · rw [hexact hv hord (by omega)]
  refine ⟨hyes, hstay, hiff, threshold_of_exact k c.speedLastKmh, hexact, ?_, ?_,
    fun c0 => ⟨f32_zero, le_refl _⟩, ieee_invariants⟩
  · intro hv hord hroom
    rw [hiff hroom, hcond hv hord]
  · rintro hv hord ⟨h1, h2⟩
    have h3 : |f32 (k - c.speedLastKmh)| < 2 / 10 := by
      by_contra hge
      rw [not_lt] at hge
      have := (hexact hv hord h1).mp hge
      linarith
    exact (hstay ⟨h1, h3⟩).2

/-- The trace counter 0 at 1 s, 9 at 1.508 s, 11 at 1.607 s: the third sample
comes 99 ms after the emission of 1.4256..., its candidate 1.6255... is less than
0.2 away from it (the exact quotients differ by exactly 0.2), and nothing is
emitted. -/
theorem speed_emission_thresholds_witness :
    (steadyListener.updateSpeedFromCounter_ieee ⟨1607000000⟩ 11).outChan
      = [{ Name := "speedKmh", Value := 747425 / 524288 }] ∧
    (steadyListener.updateSpeedFromCounter_ieee ⟨1607000000⟩ 11).speedLastKmh = 747425 / 524288 ∧
    (steadyListener.updateSpeedFromCounter_ieee ⟨1607000000⟩ 11).speedLastUpdate
      = ⟨1508000000⟩ := by
  have h := (speed_emission_thresholds steadyListener ⟨1607000000⟩ 11 rfl rfl (by decide)
    (by decide)).2.2.2.2.2.2.1 f32_steady (by decide)
  have h1 : elapsedMs steadyListener ⟨1607000000⟩ = 99 := by decide
  rw [h1] at h
  exact h ⟨by decide, by
    simp only [steadyListener, NewCanListener]
    rw [speedCandidate_ieee_99]
    norm_num [abs_lt]⟩

/-- Counterexample to claim C19 as stated: with the baseline counter 1 and the
sample 0 taken 50 ms later (a delta of 65535 over one step), the reading emitted
is the `float32` value 105468.359375, above 65535 * 1.609344 = 105468.35904. -/
theorem speed_above_exact_bound :
    (downListener.updateSpeedFromCounter_ieee ⟨1050000000⟩ 0).outChan
      = [{ Name := "speedKmh", Value := 6749975 / 64 }] ∧
    (65535 : ℚ) * (1609344 / 1000000) < 6749975 / 64 := by
  constructor
  · rw [ieee_in_window downListener ⟨1050000000⟩ 0 rfl (by decide) (by decide)]
    have h1 : elapsedMs downListener ⟨1050000000⟩ = 50 := by decide
    have hk : speedCandidate_ieee 1 0 50 = 6749975 / 64 := by
      unfold speedCandidate_ieee
      rw [f64_mile]
      have e1 : f64 1 = 1 := f64_one
      have e2 : f64 65535 = 65535 := by simpa using f64_nat 65535 (by norm_num)
      have e3 := f64_top
      have e4 := f32_top
      norm_num at e3
      norm_num [e1, e2, e3, e4]
    have hz : downListener.speedLastUpdate.IsZero = true := rfl
    rw [if_pos (Or.inl hz), emit_outChan _ _ _ (by decide), h1]
    have hc : downListener.speedLastCnt = 1 := rfl
    rw [hc, hk]
    rfl
  · norm_num

/-- Claim C19, amended. The defensive branches of `updateSpeedFromCounter` are
unreachable: the function equals the one without the `steps <= 0` return and the
`mph < 0` clamp; for every sample that passes the window check the conversion of
`ms` to `float64` is exact, `steps`, the `float64` quotient `ms / 50`, is at
least 1 and the `float64` rate `delta / steps` is not negative; every "speedKmh"
the estimator pushes is at least 0 and at most 105468.359375 = 6749975 / 64, the
`float32` value of `65535 * 1.609344` as the code computes it. -/
theorem speed_defensive_branches_unreachable (c : CanListener) (now : Time) (cnt : Nat) :
    c.updateSpeedFromCounter_ieee now cnt = updateSpeedDirect c now cnt ∧
    (c.speedHave = true → 50 ≤ elapsedMs c now → elapsedMs c now ≤ 2000 →
      f64 (elapsedMs c now : ℚ) = (elapsedMs c now : ℚ) ∧
      1 ≤ f64 ((elapsedMs c now : ℚ) / 50) ∧
      0 ≤ f64 (((((cnt : Int) - (c.speedLastCnt : Int)) % 65536 : Int) : ℚ)
            / f64 ((elapsedMs c now : ℚ) / 50)) ∧
      0 ≤ speedCandidate_ieee c.speedLastCnt cnt (elapsedMs c now) ∧
      speedCandidate_ieee c.speedLastCnt cnt (elapsedMs c now) ≤ 6749975 / 64) ∧
    ((c.updateSpeedFromCounter_ieee now cnt).outChan = c.outChan ∨
      ∃ k : ℚ, 0 ≤ k ∧ k ≤ 6749975 / 64 ∧
        (c.updateSpeedFromCounter_ieee now cnt).outChan
          = c.outChan ++ [{ Name := "speedKmh", Value := k }]) ∧
    f32 (f64 (65535 * f64 (1609344 / 1000000))) = 6749975 / 64 :=
  ⟨ieee_eq_direct c now cnt,
   fun _ hlo hhi => ⟨f64_of_int_window _ hlo hhi, steps_ge_one _ hlo,
     (mph_bounds c.speedLastCnt cnt (elapsedMs c now) hlo).1,
     speedCandidate_ieee_bounds c.speedLastCnt cnt (elapsedMs c now) hlo⟩,
   ieee_outChan c now cnt,
   by rw [f64_mile, f64_top, f32_top]⟩

/-- For a sample taken 100 ms after the baseline, `steps` is at least 1 and the
candidate speed is not negative. -/
theorem speed_defensive_branches_unreachable_witness :
    1 ≤ f64 (((elapsedMs gapListener ⟨1100000000⟩ : Int) : ℚ) / 50) ∧
    0 ≤ speedCandidate_ieee gapListener.speedLastCnt 65535 (elapsedMs gapListener ⟨1100000000⟩) :=
  ⟨((speed_defensive_branches_unreachable gapListener ⟨1100000000⟩ 65535).2.1 rfl (by decide) (by decide)).2.1,
   ((speed_defensive_branches_unreachable gapListener ⟨1100000000⟩ 65535).2.1 rfl (by decide) (by decide)).2.2.2.1⟩

/-! ## Simulation: fuel and engine speed -/

theorem simStep_fuel (p : SimParams) (sin : ℚ → ℚ) (t : ℚ) (v : SimVars) :
    (simStep p sin t v).fuel
      = if f64 (v.fuel - f64 (9 / 10000)) < p.fuelMin then p.fuelReset
        else f64 (v.fuel - f64 (9 / 10000)) := rfl

theorem simStep_fuel_ge (p : SimParams) (sin : ℚ → ℚ) (t : ℚ) (v : SimVars)
    (h : p.fuelMin ≤ p.fuelReset) : p.fuelMin ≤ (simStep p sin t v).fuel := by
  rw [simStep_fuel]
  split
  · exact h
  · linarith

theorem simStep_rpm_le (p : SimParams) (sin : ℚ → ℚ) (t : ℚ) (v : SimVars) :
    (simStep p sin t v).rpm ≤ p.redline :=
  clamp_le _ _ _

theorem simStep_rpm_ge (p : SimParams) (sin : ℚ → ℚ) (t : ℚ) (v : SimVars)
    (h : p.idle ≤ p.redline) : p.idle ≤ (simStep p sin t v).rpm :=
  le_clamp _ _ _ h

theorem clamp_of_ge (x lo hi : ℚ) (h : hi ≤ lo) :
    (if (if x < lo then lo else x) > hi then hi else (if x < lo then lo else x)) = hi := by
  split_ifs <;> linarith

theorem simStep_rpm_of_idle_ge (p : SimParams) (sin : ℚ → ℚ) (t : ℚ) (v : SimVars)
    (h : p.redline ≤ p.idle) : (simStep p sin t v).rpm = p.redline :=
  clamp_of_ge _ _ _ h

theorem simTick_vars (c : CanListener) (p : SimParams) (sin : ℚ → ℚ) (t : ℚ) (v : SimVars) :
    (c.simTick p sin t v).1 = simStep p sin t v := rfl

theorem simTick_outChan (c : CanListener) (p : SimParams) (sin : ℚ → ℚ) (t : ℚ) (v : SimVars)
    (hroom : c.outChan.length + 6 ≤ 400) :
    (c.simTick p sin t v).2.outChan = c.outChan ++ tickReadings (simStep p sin t v) := by
  generalize hn : simStep p sin t v = n
  unfold CanListener.simTick
  simp only [hn]
  have h1 := emit_outChan c "speedKmh" (f32 n.speed) (by omega)
  have l1 : (c.emit "speedKmh" (f32 n.speed)).outChan.length = c.outChan.length + 1 := by
    rw [h1]; simp
  generalize c.emit "speedKmh" (f32 n.speed) = c1 at *
  have h2 := emit_outChan c1 "rpm" (f32 n.rpm) (by omega)
  have l2 : (c1.emit "rpm" (f32 n.rpm)).outChan.length = c.outChan.length + 2 := by
    rw [h2]; simp; omega
  generalize c1.emit "rpm" (f32 n.rpm) = c2 at *
  have h3 := emit_outChan c2 "engineTempC" (f32 n.temp) (by omega)
  have l3 : (c2.emit "engineTempC" (f32 n.temp)).outChan.length = c.outChan.length + 3 := by
    rw [h3]; simp; omega
  generalize c2.emit "engineTempC" (f32 n.temp) = c3 at *
  have h4 := emit_outChan c3 "instantConsumption" (f32 n.cons) (by omega)
  have l4 : (c3.emit "instantConsumption" (f32 n.cons)).outChan.length
      = c.outChan.length + 4 := by
    rw [h4]; simp; omega
  generalize c3.emit "instantConsumption" (f32 n.cons) = c4 at *
  have h5 := emit_outChan c4 "fuelLiters" (f32 n.fuel) (by omega)
  have l5 : (c4.emit "fuelLiters" (f32 n.fuel)).outChan.length = c.outChan.length + 5 := by
    rw [h5]; simp; omega
  generalize c4.emit "fuelLiters" (f32 n.fuel) = c5 at *
  have h6 := emit_outChan c5 "rangeKm" (f32 (f64 (n.fuel * (125 / 10)))) (by omega)
  rw [h6, h5, h4, h3, h2, h1]
  simp [tickReadings]

theorem simTick_pushed (c : CanListener) (p : SimParams) (sin : ℚ → ℚ) (t : ℚ) (v : SimVars)
    (P : Reading → Prop)
    (hf : P { Name := "fuelLiters", Value := f32 (simStep p sin t v).fuel })
    (hr : P { Name := "rpm", Value := f32 (simStep p sin t v).rpm })
    (hother : ∀ (n : String) (x : ℚ), n ≠ "fuelLiters" → n ≠ "rpm" →
      P { Name := n, Value := x }) :
    PushedOnly P c (c.simTick p sin t v).2 := by
  generalize hn : simStep p sin t v = n at *
  unfold CanListener.simTick
  simp only [hn]
  have h0 := pushedOnly_refl P c
  have h1 := pushedOnly_emit P c _ "speedKmh" (f32 n.speed) h0
    (hother _ _ (by decide) (by decide))
  have h2 := pushedOnly_emit P c _ "rpm" (f32 n.rpm) h1 hr
  have h3 := pushedOnly_emit P c _ "engineTempC" (f32 n.temp) h2
    (hother _ _ (by decide) (by decide))
  have h4 := pushedOnly_emit P c _ "instantConsumption" (f32 n.cons) h3
    (hother _ _ (by decide) (by decide))
  have h5 := pushedOnly_emit P c _ "fuelLiters" (f32 n.fuel) h4 hf
  exact pushedOnly_emit P c _ "rangeKm" (f32 (f64 (n.fuel * (125 / 10)))) h5
    (hother _ _ (by decide) (by decide))

theorem runSimulation_pushed (c : CanListener) (config : CarConfig) (sin : ℚ → ℚ)
    (ticks : List ℚ) (P : Reading → Prop)
    (hf : ∀ t v,
      P { Name := "fuelLiters", Value := f32 (simStep (simParams config) sin t v).fuel })
    (hr : ∀ t v, P { Name := "rpm", Value := f32 (simStep (simParams config) sin t v).rpm })
    (hother : ∀ (n : String) (x : ℚ), n ≠ "fuelLiters" → n ≠ "rpm" →
      P { Name := n, Value := x }) :
    PushedOnly P c (c.runSimulation config sin ticks).2 := by
  unfold CanListener.runSimulation
  induction ticks using List.reverseRecOn with
  | nil => exact pushedOnly_refl P c
  | append_singleton ts t ih =>
    rw [List.foldl_append]
    exact pushedOnly_trans P _ _ _ ih
      (simTick_pushed _ _ sin t _ P (hf t _) (hr t _) hother)

theorem first_tick (c : CanListener) (config : CarConfig) (sin : ℚ → ℚ) (t : ℚ)
    (hroom : c.outChan.length + 6 ≤ 400) :
    (c.runSimulation config sin [t]).2.outChan
      = c.outChan ++ tickReadings (simStep (simParams config) sin t (simStart (simParams config))) := by
  have hrun : (c.runSimulation config sin [t]).2
      = ((c.setStatus false "simulated").simTick (simParams config) sin t
          (simStart (simParams config))).2 := rfl
  rw [hrun, simTick_outChan (c.setStatus false "simulated") _ _ _ _ hroom]
  rfl

theorem simParams_fuelMin_f32 (config : CarConfig)
    (h : f32 config.Sim.FuelMinL = config.Sim.FuelMinL) :
    f32 (simParams config).fuelMin = (simParams config).fuelMin := by
  unfold simParams
  simp only
  split
  · exact h
  · simpa using f32_nat 8 (by norm_num)

theorem simParams_fuelReset_f32 (config : CarConfig)
    (h : f32 config.Sim.FuelResetL = config.Sim.FuelResetL) :
    f32 (simParams config).fuelReset = (simParams config).fuelReset := by
  unfold simParams
  simp only
  split
  · exact h
  · simpa using f32_nat 45 (by norm_num)

theorem simParams_redline_exact (config : CarConfig) (h : config.Sim.RedlineRpm ≤ 16777216) :
    f32 (simParams config).redline = (simParams config).redline ∧
    (simParams config).redline
      = if config.Sim.RedlineRpm > 0 then (config.Sim.RedlineRpm : ℚ) else 7000 := by
  unfold simParams
  simp only
  split
  · rename_i hpos
    rw [f64_of_pos_int _ hpos h]
    exact ⟨f32_of_pos_int _ hpos h, rfl⟩
  · exact ⟨by simpa using f32_nat 7000 (by norm_num), rfl⟩

theorem simParams_idle_exact (config : CarConfig) (h : config.Sim.IdleRpm ≤ 16777216) :
    f32 (simParams config).idle = (simParams config).idle ∧
    (simParams config).idle
      = if config.Sim.IdleRpm > 0 then (config.Sim.IdleRpm : ℚ) else 750 := by
  unfold simParams
  simp only
  split
  · rename_i hpos
    rw [f64_of_pos_int _ hpos h]
    exact ⟨f32_of_pos_int _ hpos h, rfl⟩
  · exact ⟨by simpa using f32_nat 750 (by norm_num), rfl⟩

/-- Counterexample to claim C14 as stated: with a reset volume of 5 below the
minimum of 8 and a start volume of 8, the first tick publishes fuelLiters = 5. -/
theorem simulation_fuel_below_minimum :
    (simParams lowResetConfig).fuelMin = 8 ∧
    { Name := "fuelLiters", Value := 5 } ∈
      ((NewCanListener "can0").runSimulation lowResetConfig (fun _ => 0) [0]).2.outChan := by
  have hmin : (simParams lowResetConfig).fuelMin = 8 := by
    simp [simParams, lowResetConfig, DefaultSim]
  have hreset : (simParams lowResetConfig).fuelReset = 5 := by
    simp [simParams, lowResetConfig, DefaultSim]
  have hstart : (simStart (simParams lowResetConfig)).fuel = 8 := by
    simp [simStart, simParams, lowResetConfig, DefaultSim]
  have e1 : f64 (9 / 10000) = 4150517416584649 / 4611686018427387904 := by
    unfold f64
    rw [roundFloat_eq 53 (-1022) _ (-11) 8301034833169298 (by norm_num) (by norm_num) (by norm_num)
      (by norm_num [abs_lt])]
    norm_num
  have e2 : f64 (36889337630002518583 / 4611686018427387904) = 4503092972412417 / 562949953421312 := by
    unfold f64
    rw [roundFloat_eq 53 (-1022) _ 2 9006185944824834 (by norm_num) (by norm_num) (by norm_num)
      (by norm_num [abs_lt])]
    norm_num
  have hfuel : (simStep (simParams lowResetConfig) (fun _ => 0) 0
      (simStart (simParams lowResetConfig))).fuel = 5 := by
    rw [simStep_fuel, hmin, hreset, hstart, e1]
    norm_num [e2]
  refine ⟨hmin, ?_⟩
  rw [first_tick _ _ _ _ (by decide)]
  simp only [tickReadings, hfuel]
  have h5 : f32 5 = 5 := by simpa using f32_nat 5 (by norm_num)
  rw [h5]
  simp [NewCanListener]

/-- Claim C14, amended. Simulation fuel, for every SimConfig whose FuelMinL and
FuelResetL are `float32` values, as their type says: the configured minimum is
FuelMinL when > 0, else 8, and the reset volume is FuelResetL when > 0, else 45;
on every tick the loop decrements the volume by 0.0009 in `float64` and replaces
it by the reset volume when the result is below the minimum; while the queue has
room for the six readings of a tick they are appended, "fuelLiters" carrying this
volume converted to `float32`: the reset volume itself on a tick where the
decremented volume is below the minimum, the decremented volume, rounded, on
every other tick; and for every such SimConfig whose reset volume is not below
its minimum, no published "fuelLiters" is below the minimum, on any tick of any
run. -/
theorem simulation_fuel_step_and_bound (c : CanListener) (config : CarConfig) (sin : ℚ → ℚ)
    (ticks : List ℚ) (t : ℚ) (v : SimVars)
    (hmin : f32 config.Sim.FuelMinL = config.Sim.FuelMinL)
    (hreset : f32 config.Sim.FuelResetL = config.Sim.FuelResetL) :
    ((simParams config).fuelMin
        = if config.Sim.FuelMinL > 0 then config.Sim.FuelMinL else 8) ∧
    ((simParams config).fuelReset
        = if config.Sim.FuelResetL > 0 then config.Sim.FuelResetL else 45) ∧
    ((c.simTick (simParams config) sin t v).1.fuel
        = if f64 (v.fuel - f64 (9 / 10000)) < (simParams config).fuelMin
          then (simParams config).fuelReset
          else f64 (v.fuel - f64 (9 / 10000))) ∧
    (c.outChan.length + 6 ≤ 400 →
      (c.simTick (simParams config) sin t v).2.outChan
        = c.outChan ++ tickReadings (c.simTick (simParams config) sin t v).1) ∧
    (f64 (v.fuel - f64 (9 / 10000)) < (simParams config).fuelMin →
      f32 (c.simTick (simParams config) sin t v).1.fuel = (simParams config).fuelReset) ∧
    (¬ f64 (v.fuel - f64 (9 / 10000)) < (simParams config).fuelMin →
      f32 (c.simTick (simParams config) sin t v).1.fuel = f32 (f64 (v.fuel - f64 (9 / 10000)))) ∧
    PushedOnly (fun x => x.Name = "fuelLiters" →
        x.Value = f32 (c.simTick (simParams config) sin t v).1.fuel)
      c (c.simTick (simParams config) sin t v).2 ∧
    ((simParams config).fuelMin ≤ (simParams config).fuelReset →
      (simParams config).fuelMin ≤ f32 (c.simTick (simParams config) sin t v).1.fuel ∧
      PushedOnly (fun x => x.Name = "fuelLiters" → (simParams config).fuelMin ≤ x.Value)
        c (c.runSimulation config sin ticks).2) := by
  have hm := simParams_fuelMin_f32 config hmin
  have hr := simParams_fuelReset_f32 config hreset
  have hge : (simParams config).fuelMin ≤ (simParams config).fuelReset →
      ∀ t v, (simParams config).fuelMin ≤ f32 (simStep (simParams config) sin t v).fuel := by
    intro h t v
    have := f32_mono _ _ (simStep_fuel_ge (simParams config) sin t v h)
    rwa [hm] at this
  refine ⟨rfl, rfl, rfl, ?_, ?_, ?_, ?_, ?_⟩
  · intro hroom
    exact simTick_outChan c _ sin t v hroom
  · intro h
    rw [simTick_vars, simStep_fuel, if_pos h, hr]
  · intro h
    rw [simTick_vars, simStep_fuel, if_neg h]
  · exact simTick_pushed c _ sin t v _ (fun _ => rfl)
      (fun h => absurd h (show ¬ ("rpm" : String) = "fuelLiters" by decide))
      (fun n x h1 _ h => absurd h h1)
  · intro h
    refine ⟨hge h t v, ?_⟩
    exact runSimulation_pushed c config sin ticks _
      (fun t v _ => hge h t v)
      (fun _ _ h => absurd h (show ¬ ("rpm" : String) = "fuelLiters" by decide))
      (fun n x h1 _ h => absurd h h1)

/-- With the default parameters the first tick publishes a fuel volume of at least 8. -/
theorem simulation_fuel_step_and_bound_witness :
    (8 : ℚ) ≤ f32 ((NewCanListener "can0").simTick (simParams BMW_E87_Config) (fun _ => 0) 0
      (simStart (simParams BMW_E87_Config))).1.fuel := by
  have h8 : f32 8 = 8 := by simpa using f32_nat 8 (by norm_num)
  have h45 : f32 45 = 45 := by simpa using f32_nat 45 (by norm_num)
  have h := (simulation_fuel_step_and_bound (NewCanListener "can0") BMW_E87_Config (fun _ => 0)
    [] 0 (simStart (simParams BMW_E87_Config)) h8 h45).2.2.2.2.2.2.2
    (by simp [simParams, BMW_E87_Config, DefaultSim]; norm_num)
  have e : (simParams BMW_E87_Config).fuelMin = 8 := by
    simp [simParams, BMW_E87_Config, DefaultSim]
  rw [e] at h
  exact h.1

/-- Counterexample to claim C15 as stated: with an idle speed of 8000 above the
redline of 7000, the first tick publishes rpm = 7000, below idle; and with a
redline and an idle speed of 16777219 it publishes rpm = 16777220, the `float32`
nearest to 16777219, above the redline. -/
theorem simulation_rpm_outside_bounds :
    ((simParams highIdleConfig).idle = 8000 ∧
      { Name := "rpm", Value := 7000 } ∈
        ((NewCanListener "can0").runSimulation highIdleConfig (fun _ => 0) [0]).2.outChan) ∧
    ((simParams oddRedlineConfig).redline = 16777219 ∧
      { Name := "rpm", Value := 16777220 } ∈
        ((NewCanListener "can0").runSimulation oddRedlineConfig (fun _ => 0) [0]).2.outChan) := by
  have h8000 : f64 8000 = 8000 := by simpa using f64_nat 8000 (by norm_num)
  have h7000 : f64 7000 = 7000 := by simpa using f64_nat 7000 (by norm_num)
  have hodd : f64 16777219 = 16777219 := by simpa using f64_nat 16777219 (by norm_num)
  have hi1 : (simParams highIdleConfig).idle = 8000 := by
    simp [simParams, highIdleConfig, DefaultSim, h8000]
  have hr1 : (simParams highIdleConfig).redline = 7000 := by
    simp [simParams, highIdleConfig, DefaultSim, h7000]
  have hi2 : (simParams oddRedlineConfig).idle = 16777219 := by
    simp [simParams, oddRedlineConfig, DefaultSim, hodd]
  have hr2 : (simParams oddRedlineConfig).redline = 16777219 := by
    simp [simParams, oddRedlineConfig, DefaultSim, hodd]
  have hrpm1 := simStep_rpm_of_idle_ge (simParams highIdleConfig) (fun _ => 0) 0
    (simStart (simParams highIdleConfig)) (by rw [hi1, hr1]; norm_num)
  have hrpm2 := simStep_rpm_of_idle_ge (simParams oddRedlineConfig) (fun _ => 0) 0
    (simStart (simParams oddRedlineConfig)) (by rw [hi2, hr2])
  have f7000 : f32 7000 = 7000 := by simpa using f32_nat 7000 (by norm_num)
  refine ⟨⟨hi1, ?_⟩, ⟨hr2, ?_⟩⟩
  · rw [first_tick _ _ _ _ (by decide)]
    simp only [tickReadings, hrpm1, hr1, f7000]
    simp [NewCanListener]
  · rw [first_tick _ _ _ _ (by decide)]
    simp only [tickReadings, hrpm2, hr2, f32_tie_16777219]
    simp [NewCanListener]

/-- Claim C15, amended. Simulation engine speed: for every SimConfig, every elapsed
time and every tick of `runSimulation`, the engine speed the loop computes never
exceeds the redline (RedlineRpm when > 0, else 7000, as a `float64`), and the
published "rpm", its conversion to `float32`, never exceeds the redline
converted to `float32`; for every SimConfig whose idle speed (IdleRpm when > 0,
else 750) does not exceed its redline, the published "rpm" never falls below the
idle speed converted to `float32`; while the queue has room for the six readings
of a tick they are appended; and a redline or idle speed of at most
16777216 = 2 ^ 24 is its own conversion, so that for such a SimConfig the bounds
are the configured values themselves. -/
theorem simulation_rpm_bounds (c : CanListener) (config : CarConfig) (sin : ℚ → ℚ)
    (ticks : List ℚ) (t : ℚ) (v : SimVars) :
    ((simParams config).redline
        = if config.Sim.RedlineRpm > 0 then f64 (config.Sim.RedlineRpm : ℚ) else 7000) ∧
    ((simParams config).idle
        = if config.Sim.IdleRpm > 0 then f64 (config.Sim.IdleRpm : ℚ) else 750) ∧
    (c.simTick (simParams config) sin t v).1.rpm ≤ (simParams config).redline ∧
    f32 (c.simTick (simParams config) sin t v).1.rpm ≤ f32 (simParams config).redline ∧
    (c.outChan.length + 6 ≤ 400 →
      (c.simTick (simParams config) sin t v).2.outChan
        = c.outChan ++ tickReadings (c.simTick (simParams config) sin t v).1) ∧
    PushedOnly (fun x => x.Name = "rpm" → x.Value ≤ f32 (simParams config).redline)
      c (c.runSimulation config sin ticks).2 ∧
    ((simParams config).idle ≤ (simParams config).redline →
      (simParams config).idle ≤ (c.simTick (simParams config) sin t v).1.rpm ∧
      f32 (simParams config).idle ≤ f32 (c.simTick (simParams config) sin t v).1.rpm ∧
      PushedOnly (fun x => x.Name = "rpm" → f32 (simParams config).idle ≤ x.Value)
        c (c.runSimulation config sin ticks).2) ∧
    (config.Sim.RedlineRpm ≤ 16777216 →
      f32 (simParams config).redline = (simParams config).redline ∧
      (simParams config).redline
        = if config.Sim.RedlineRpm > 0 then (config.Sim.RedlineRpm : ℚ) else 7000) ∧
    (config.Sim.IdleRpm ≤ 16777216 →
      f32 (simParams config).idle = (simParams config).idle ∧
      (simParams config).idle
        = if config.Sim.IdleRpm > 0 then (config.Sim.IdleRpm : ℚ) else 750) := by
  refine ⟨rfl, rfl, simStep_rpm_le _ sin t v, f32_mono _ _ (simStep_rpm_le _ sin t v), ?_, ?_, ?_,
    simParams_redline_exact config, simParams_idle_exact config⟩
  · intro hroom
    exact simTick_outChan c _ sin t v hroom
  · exact runSimulation_pushed c config sin ticks _
      (fun _ _ h => absurd h (show ¬ ("fuelLiters" : String) = "rpm" by decide))
      (fun t v _ => f32_mono _ _ (simStep_rpm_le _ sin t v))
      (fun n x _ h2 h => absurd h h2)
  · intro h
    refine ⟨simStep_rpm_ge _ sin t v h, f32_mono _ _ (simStep_rpm_ge _ sin t v h), ?_⟩
    exact runSimulation_pushed c config sin ticks _
      (fun _ _ h => absurd h (show ¬ ("fuelLiters" : String) = "rpm" by decide))
      (fun t v _ => f32_mono _ _ (simStep_rpm_ge _ sin t v h))
      (fun n x _ h2 h => absurd h h2)

/-- With the default parameters the first tick publishes an engine speed of at
least 750. -/
theorem simulation_rpm_bounds_witness :
    (750 : ℚ) ≤ f32 ((NewCanListener "can0").simTick (simParams BMW_E87_Config) (fun _ => 0) 0
      (simStart (simParams BMW_E87_Config))).1.rpm := by
  have h750 : f64 750 = 750 := by simpa using f64_nat 750 (by norm_num)
  have h7000 : f64 7000 = 7000 := by simpa using f64_nat 7000 (by norm_num)
  have f750 : f32 750 = 750 := by simpa using f32_nat 750 (by norm_num)
  have e : (simParams BMW_E87_Config).idle = 750 := by
    simp [simParams, BMW_E87_Config, DefaultSim, h750]
  have e2 : (simParams BMW_E87_Config).redline = 7000 := by
    simp [simParams, BMW_E87_Config, DefaultSim, h7000]
  have h := (simulation_rpm_bounds (NewCanListener "can0") BMW_E87_Config (fun _ => 0) [] 0
    (simStart (simParams BMW_E87_Config))).2.2.2.2.2.2.1 (by rw [e, e2]; norm_num)
  rw [e, f750] at h
  exact h.2.1

end CanService
